import Mathlib

/-!
Pintos kernel core, as a shallow embedding.

Embedded sources:

* `src/threads/thread.c`: ready / sleeping queues, `thread_enqueue`, `thread_yield`,
  `thread_sleep`, `thread_sleep_ticker`, priority donation through `lock_list`,
  the MLFQ recomputations;
* `src/userprog/process.c`: `load`, `validate_segment`, `load_segment`; the argument
  list of `process_load_setup` and the user stack of `start_process`; the rendezvous
  of `process_load_setup`, `process_wait` and `process_exit`;
* `src/userprog/syscall.c`: `validate_user_pointer`, `get_stack_argument`, the `read`
  and `write` handlers, the dispatch of `syscall_handler`;
* `src/vm/frame.c`: the frame table, `frame_allocator_get_user_page`, eviction.

Kernel state is passed explicitly.  A failed `ASSERT` (kernel panic) or a null
dereference is an `Except.error`; C `int` values are `Int`, `uint32_t` values are
`Nat` reduced modulo `2 ^ 32` where the C code can wrap.  Definitions come first,
lemmas and the numbered claims (C1, C2, ...) after them.
-/

namespace Pintos

/-! ## Constants of `threads/thread.h` and `threads/vaddr.h` -/

/-- Modelled from the spec: `thread.h` is not among the sources; lowest priority. -/
def PRI_MIN : Int := 0

/-- Modelled from the spec: `thread.h` is not among the sources; default priority. -/
def PRI_DEFAULT : Int := 31

/-- Modelled from the spec: `thread.h` is not among the sources; highest priority. -/
def PRI_MAX : Int := 63

/-- Number of timer ticks to give each thread (`#define TIME_SLICE 4`). -/
def TIME_SLICE : Nat := 4

/-! ## 17.14 fixed-point arithmetic (`threads/fixed-point.h`) -/

/-- Modelled from the spec: `fixed-point.h` is not among the sources; the scaling factor
of the 17.14 representation. -/
def FIXED_POINT_F : Int := 2 ^ 14

/-- Modelled from the spec: `fixed-point.h` is not among the sources; integer to 17.14. -/
def INT_TO_FIX (n : Int) : Int := n * FIXED_POINT_F

/-- Modelled from the spec: `fixed-point.h` is not among the sources; 17.14 to integer,
rounded to nearest (C division truncates, so half of the scale is added away from zero). -/
def FIX_TO_INT_R_NEAR (x : Int) : Int :=
  if 0 ≤ x then (x + FIXED_POINT_F.tdiv 2).tdiv FIXED_POINT_F
  else (x - FIXED_POINT_F.tdiv 2).tdiv FIXED_POINT_F

/-- Modelled from the spec: `fixed-point.h` is not among the sources; sum of two 17.14
values. -/
def ADD_FIXED (x y : Int) : Int := x + y

/-- Modelled from the spec: `fixed-point.h` is not among the sources; 17.14 plus integer. -/
def ADD_FIXED_INT (x n : Int) : Int := x + n * FIXED_POINT_F

/-- Modelled from the spec: `fixed-point.h` is not among the sources; 17.14 times integer. -/
def MUL_FIXED_INT (x n : Int) : Int := x * n

/-- Modelled from the spec: `fixed-point.h` is not among the sources; product of two 17.14
values, computed in 64 bits and truncated as C division does. -/
def MUL_FIXED (x y : Int) : Int := (x * y).tdiv FIXED_POINT_F

/-- Modelled from the spec: `fixed-point.h` is not among the sources; quotient of two 17.14
values, computed in 64 bits and truncated as C division does. -/
def DIV_FIXED (x y : Int) : Int := (x * FIXED_POINT_F).tdiv y

/-! ## Generic ordered insertion (`lib/kernel/list.c`) -/

/-- Modelled from the spec: `list.c` is not among the sources; ordered insert that walks
from the head and places `elem` before the first entry `e` with `less elem e`, hence after
every entry that compares equal (insertion order among equals). -/
def list_insert_ordered {α : Type} (less : α → α → Bool) (elem : α) : List α → List α
  | [] => [elem]
  | e :: l => if less elem e then elem :: e :: l else e :: list_insert_ordered less elem l

/-! ## Data model of `threads/thread.c` -/

/-- States in a thread's life cycle (`enum thread_status`, with the added
`THREAD_SLEEP`). -/
inductive thread_status
  | THREAD_RUNNING
  | THREAD_READY
  | THREAD_BLOCKED
  | THREAD_SLEEP
  | THREAD_DYING
  deriving DecidableEq, Repr

open thread_status

/-- The fields of `struct thread` that `thread.c` reads and writes.  `lock_list` holds lock
identifiers, head first; `blocker` is the lock the thread waits for, if any. -/
structure thread where
  status : thread_status
  priority : Int
  lock_list : List Nat
  blocker : Option Nat
  wakeup_tick : Int
  nice : Int
  recent_cpu : Int

/-- The fields of `struct lock` that `thread.c` touches.  In the source
`semaphore.priority` is an `int *`; `priority` is the address of the cell it points to. -/
structure lock where
  holder : Option Nat
  priority : Nat

/-- Kernel state: the module-level variables of `thread.c`, the threads and locks (keyed by
identifier), the integer cells that lock priorities point to, and the two interrupt flags
that `intr_context ()` and `intr_yield_on_return ()` read and write. -/
structure kernel where
  thread_mlfqs : Bool
  threads : Nat → thread
  locks : Nat → lock
  mem : Nat → Int
  running : Nat
  idle_thread : Option Nat
  ready_list : List Nat
  thread_mlfqs_queue : List Nat
  sleeping_list : List Nat
  next_tid : Nat
  thread_ticks : Nat
  in_external_intr : Bool
  yield_on_return : Bool
  thread_mlfqs_load_avg : Int

/-- Ways in which a kernel routine stops without returning. -/
inductive fault
  | assert_thread_running
  | assert_not_intr_context
  | assert_status_blocked
  | assert_status_sleep
  | assert_cur_not_running
  | assert_is_thread_next
  | assert_is_thread
  | assert_priority_range
  | assert_thread_mlfqs
  | assert_load_segment
  | null_pointer
  | out_of_fuel
  | assert_list_not_empty
  | uninitialised_pointer
  | panic_frame_table
  | panic_swap
  | panic_install_page
  | assert_user_vaddr
  | assert_kernel_vaddr
  | assert_lock_not_held
  | page_fault (vaddr : Nat)
  deriving DecidableEq, Repr

/-- Store `st` in `t->status`. -/
def set_status (s : kernel) (t : Nat) (st : thread_status) : kernel :=
  { s with threads := Function.update s.threads t { s.threads t with status := st } }

/-! ## Priorities -/

/-- Returns the given thread's priority: the maximum of its own priority and the priority
of the first lock of its `lock_list`, when it has one. -/
def thread_explicit_get_priority (s : kernel) (t : Nat) : Int :=
  match (s.threads t).lock_list with
  | l :: _ => max (s.mem (s.locks l).priority) (s.threads t).priority
  | [] => (s.threads t).priority

/-- The running thread, with the sanity check of `thread_current ()`. -/
def thread_current (s : kernel) : Except fault Nat :=
  if (s.threads s.running).status = THREAD_RUNNING then .ok s.running
  else .error fault.assert_thread_running

/-- Returns the current thread's priority. -/
def thread_get_priority (s : kernel) : Except fault Int :=
  match thread_current s with
  | .ok cur => .ok (thread_explicit_get_priority s cur)
  | .error e => .error e

/-- Comparison used for the ready list: strictly higher effective priority. -/
def has_higher_priority (s : kernel) (a b : Nat) : Bool :=
  decide (thread_explicit_get_priority s a > thread_explicit_get_priority s b)

/-- Comparison used for the MLFQ queue: strictly higher `priority` member. -/
def thread_mlfqs_less_function (s : kernel) (a b : Nat) : Bool :=
  decide ((s.threads a).priority > (s.threads b).priority)

/-- Comparison used for the sleeping list: strictly earlier `wakeup_tick`. -/
def sleep_list_less_func (s : kernel) (a b : Nat) : Bool :=
  decide ((s.threads a).wakeup_tick < (s.threads b).wakeup_tick)

/-! ## Scheduling -/

/-- Pops the head of the run queue of the active scheduler, or returns `idle_thread` when
that queue is empty. -/
def next_thread_to_run (s : kernel) : Option Nat × kernel :=
  if s.thread_mlfqs then
    match s.thread_mlfqs_queue with
    | [] => (s.idle_thread, s)
    | t :: q => (some t, { s with thread_mlfqs_queue := q })
  else
    match s.ready_list with
    | [] => (s.idle_thread, s)
    | t :: q => (some t, { s with ready_list := q })

/-- Completes a thread switch: the thread now on the CPU is marked running and a new time
slice starts. -/
def thread_schedule_tail (s : kernel) (cur : Nat) : kernel :=
  { set_status s cur THREAD_RUNNING with running := cur, thread_ticks := 0 }

/-- Finds another thread to run and switches to it.  The running thread must already have
left the running state. -/
def schedule (s : kernel) : Except fault kernel :=
  let r := next_thread_to_run s
  if (s.threads s.running).status = THREAD_RUNNING then .error fault.assert_cur_not_running
  else
    match r.1 with
    | none => .error fault.assert_is_thread_next
    | some next => .ok (thread_schedule_tail r.2 next)

/-- Yields the CPU: the current thread, unless it is the idle thread, is put back on the
run queue by ordered insertion, and the scheduler runs. -/
def thread_yield (s : kernel) : Except fault kernel :=
  match thread_current s with
  | .error e => .error e
  | .ok cur =>
    if s.in_external_intr then .error fault.assert_not_intr_context
    else
      let s1 : kernel :=
        if s.idle_thread ≠ some cur then
          if s.thread_mlfqs then
            { s with thread_mlfqs_queue :=
                list_insert_ordered (thread_mlfqs_less_function s) cur s.thread_mlfqs_queue }
          else
            { s with ready_list :=
                list_insert_ordered (has_higher_priority s) cur s.ready_list }
        else s
      schedule (set_status s1 cur THREAD_READY)

/-- Puts the current thread to sleep until `thread_unblock` wakes it. -/
def thread_block (s : kernel) : Except fault kernel :=
  if s.in_external_intr then .error fault.assert_not_intr_context
  else
    match thread_current s with
    | .error e => .error e
    | .ok cur => schedule (set_status s cur THREAD_BLOCKED)

/-- Makes `t` ready.  Under MLFQ the thread is inserted and, when it outranks the running
thread, the running thread yields (on return from the interrupt when called from a
handler).  Under priority scheduling a thread that outranks a running non-idle thread is
pushed to the front and `thread_yield` is called directly. -/
def thread_enqueue (t : Nat) (s : kernel) : Except fault kernel :=
  let s0 := set_status s t THREAD_READY
  if s0.thread_mlfqs then
    match thread_get_priority s0 with
    | .error e => .error e
    | .ok running_pri =>
      let s1 : kernel :=
        { s0 with thread_mlfqs_queue :=
            list_insert_ordered (thread_mlfqs_less_function s0) t s0.thread_mlfqs_queue }
      if (s1.threads t).priority > running_pri then
        if s1.in_external_intr then .ok { s1 with yield_on_return := true }
        else thread_yield s1
      else .ok s1
  else
    match thread_get_priority s0 with
    | .error e => .error e
    | .ok running_pri =>
      let new_pri := thread_explicit_get_priority s0 t
      match thread_current s0 with
      | .error e => .error e
      | .ok cur =>
        if s0.idle_thread ≠ some cur ∧ new_pri > running_pri then
          thread_yield { s0 with ready_list := t :: s0.ready_list }
        else
          .ok { s0 with ready_list :=
                  list_insert_ordered (has_higher_priority s0) t s0.ready_list }

/-- Returns true if `t` appears to point to a valid thread: it is not the null identifier
0 and `thread_create` (or `thread_init`) has set it up. -/
def is_thread (s : kernel) (t : Nat) : Bool :=
  decide (0 < t ∧ t < s.next_tid)

/-- Transitions a blocked thread to the ready-to-run state. -/
def thread_unblock (t : Nat) (s : kernel) : Except fault kernel :=
  if is_thread s t then
    if (s.threads t).status = THREAD_BLOCKED then thread_enqueue t s
    else .error fault.assert_status_blocked
  else .error fault.assert_is_thread

/-- Puts the current thread to sleep until the absolute tick `now + ticks`, where `now` is
the value of `timer_ticks ()` at the call.  `ASSERT (t->status != THREAD_SLEEP)` cannot
fail once `thread_current ()` has checked that the caller is running. -/
def thread_sleep (now ticks : Int) (s : kernel) : Except fault kernel :=
  if s.in_external_intr then .error fault.assert_not_intr_context
  else
    match thread_current s with
    | .error e => .error e
    | .ok t =>
      let s1 : kernel :=
        { s with threads :=
            Function.update s.threads t { s.threads t with wakeup_tick := now + ticks } }
      let s2 : kernel :=
        { s1 with sleeping_list :=
            list_insert_ordered (sleep_list_less_func s1) t s1.sleeping_list }
      schedule (set_status s2 t THREAD_SLEEP)

/-- The loop of `thread_sleep_ticker`: `l` is the part of the sleeping list from the
iterator `e` on. -/
def thread_sleep_ticker_loop (current_tick : Int) : List Nat → kernel → Except fault kernel
  | [], s => .ok s
  | t :: rest, s =>
    if (s.threads t).wakeup_tick > current_tick then .ok s
    else
      let s1 : kernel := { s with sleeping_list := rest }
      if (s1.threads t).status = THREAD_SLEEP then
        match thread_enqueue t s1 with
        | .error e => .error e
        | .ok s2 => thread_sleep_ticker_loop current_tick rest s2
      else .error fault.assert_status_sleep

/-- Wakes every thread at the head of the sleeping list whose `wakeup_tick` has been
reached; `current_tick` is the value of `timer_ticks ()`. -/
def thread_sleep_ticker (current_tick : Int) (s : kernel) : Except fault kernel :=
  thread_sleep_ticker_loop current_tick s.sleeping_list s

/-- Sets the current thread's priority to `new_priority` and yields. -/
def thread_set_priority (new_priority : Int) (s : kernel) : Except fault kernel :=
  match thread_current s with
  | .error e => .error e
  | .ok cur =>
    thread_yield
      { s with threads :=
          Function.update s.threads cur { s.threads cur with priority := new_priority } }

/-! ## Multi-level feedback queue recomputations -/

/-- Simple wrapper around the `nice` member of `t`. -/
def thread_mlfqs_get_nice (s : kernel) (t : Nat) : Except fault Int :=
  if s.thread_mlfqs then .ok (s.threads t).nice else .error fault.assert_thread_mlfqs

/-- The integer that `thread_mlfqs_recompute_priority` takes for `recent_cpu`:
`FIX_TO_INT_R_NEAR (t->recent_cpu)`. -/
def thread_mlfqs_get_recent_cpu (s : kernel) (t : Nat) : Except fault Int :=
  if s.thread_mlfqs then .ok (FIX_TO_INT_R_NEAR (s.threads t).recent_cpu)
  else .error fault.assert_thread_mlfqs

/-- Recomputes the priority of thread `t`:
`PRI_MAX - (thread_mlfqs_get_recent_cpu (t) / 4) - (thread_mlfqs_get_nice (t) * 2)`,
clamped to `[PRI_MIN, PRI_MAX]`; `/` is C integer division. -/
def thread_mlfqs_recompute_priority (s : kernel) (t : Nat) : Except fault kernel :=
  if s.thread_mlfqs then
    match thread_mlfqs_get_recent_cpu s t, thread_mlfqs_get_nice s t with
    | .ok rc, .ok n =>
      let new_priority := PRI_MAX - rc.tdiv 4 - n * 2
      let new_priority := if new_priority > PRI_MAX then PRI_MAX else new_priority
      let new_priority := if new_priority < PRI_MIN then PRI_MIN else new_priority
      .ok { s with threads :=
              Function.update s.threads t { s.threads t with priority := new_priority } }
    | .error e, _ => .error e
    | _, .error e => .error e
  else .error fault.assert_thread_mlfqs

/-- Recomputes the `recent_cpu` value of thread `t`:
`coefficient * recent_cpu + nice` with `coefficient = 2 * load_avg / (2 * load_avg + 1)`,
all in 17.14 fixed point. -/
def thread_mlfqs_recompute_recent_cpu (s : kernel) (t : Nat) : Except fault kernel :=
  if s.thread_mlfqs then
    let twice_load_avg := MUL_FIXED_INT s.thread_mlfqs_load_avg 2
    let coefficient := DIV_FIXED twice_load_avg (ADD_FIXED_INT twice_load_avg 1)
    match thread_mlfqs_get_nice s t with
    | .error e => .error e
    | .ok n =>
      let recent_cpu := ADD_FIXED_INT (MUL_FIXED coefficient (s.threads t).recent_cpu) n
      .ok { s with threads :=
              Function.update s.threads t { s.threads t with recent_cpu := recent_cpu } }
  else .error fault.assert_thread_mlfqs

/-- Returns the current thread's nice value. -/
def thread_get_nice (s : kernel) : Except fault Int :=
  match thread_current s with
  | .error e => .error e
  | .ok cur => thread_mlfqs_get_nice s cur

/-! ## Thread creation -/

/-- Does basic initialization of `t` as a blocked thread: every member is zeroed, the lock
list is empty, and the priority is `priority`, or the MLFQ priority under `-o mlfqs`. -/
def init_thread (s : kernel) (t : Nat) (priority : Int) : Except fault kernel :=
  if PRI_MIN ≤ priority ∧ priority ≤ PRI_MAX then
    let zeroed : thread :=
      { status := THREAD_BLOCKED, priority := 0, lock_list := [], blocker := none,
        wakeup_tick := 0, nice := 0, recent_cpu := 0 }
    let s1 : kernel := { s with threads := Function.update s.threads t zeroed }
    if s1.thread_mlfqs then thread_mlfqs_recompute_priority s1 t
    else
      .ok { s1 with threads :=
              Function.update s1.threads t { s1.threads t with priority := priority } }
  else .error fault.assert_priority_range

/-- Creates a new kernel thread with the given initial priority and adds it to the ready
queue.  `page` tells whether `palloc_get_page` found a page; without one the call returns
`TID_ERROR` and leaves the kernel as it was.  The new thread is keyed by the identifier
that `allocate_tid` hands out. -/
def thread_create (page : Bool) (priority : Int) (s : kernel) : Except fault kernel :=
  if page then
    let t := s.next_tid
    match init_thread s t priority with
    | .error e => .error e
    | .ok s1 =>
      let s2 : kernel := { s1 with next_tid := s1.next_tid + 1 }
      let s3 : kernel :=
        { s2 with threads := Function.update s2.threads t { s2.threads t with wakeup_tick := 0 } }
      if s3.thread_mlfqs then
        match thread_get_nice s3 with
        | .error e => .error e
        | .ok n =>
          thread_unblock t
            { s3 with threads := Function.update s3.threads t { s3.threads t with nice := n } }
      else thread_unblock t s3
  else .ok s

/-! ## Priority donation through locks -/

/-- Modelled from the spec: `synch.c` is not among the sources; the comparison that keeps a
thread's held locks ordered by the locks' priority, descending. -/
def lock_has_higher_priority (s : kernel) (a b : Nat) : Bool :=
  decide (s.mem (s.locks a).priority > s.mem (s.locks b).priority)

/-- The cascade of a donation.  If the acceptor is blocked on a lock whose priority is
below the donated lock's, the blocker's priority pointer is redirected to the donated
lock's cell, and the cascade continues with the blocker's holder while that holder is
itself blocked on something.  `fuel` bounds the number of calls. -/
def thread_donate_priority_lock_rec :
    Nat → kernel → Nat → Nat → Except fault kernel
  | 0, _, _, _ => .error fault.out_of_fuel
  | fuel + 1, s, acceptor, lk =>
    if (s.threads acceptor).status = THREAD_BLOCKED then
      match (s.threads acceptor).blocker with
      | none => .ok s
      | some b =>
        if s.mem (s.locks b).priority < s.mem (s.locks lk).priority then
          let s1 : kernel :=
            { s with locks :=
                Function.update s.locks b { s.locks b with priority := (s.locks lk).priority } }
          match (s1.locks b).holder with
          | none => .error fault.null_pointer
          | some h =>
            if ((s1.threads h).blocker).isSome then thread_donate_priority_lock_rec fuel s1 h lk
            else .ok s1
        else .ok s
    else .ok s

/-- Pushes `lk` into the acceptor's lock list, ordered by priority, and cascades. -/
def thread_donate_priority_lock (fuel : Nat) (s : kernel) (acceptor lk : Nat) :
    Except fault kernel :=
  let lock_list :=
    list_insert_ordered (lock_has_higher_priority s) lk (s.threads acceptor).lock_list
  let s1 : kernel :=
    { s with threads :=
        Function.update s.threads acceptor { s.threads acceptor with lock_list := lock_list } }
  thread_donate_priority_lock_rec fuel s1 acceptor lk

/-- Removes `lk` from the lock list it is on (`list_remove (&lock->elem)`). -/
def thread_restore_priority_lock (s : kernel) (lk : Nat) : kernel :=
  { s with threads := fun t => { s.threads t with lock_list := (s.threads t).lock_list.erase lk } }

/-! ## Running handlers and the states the scheduler can reach -/

/-- Modelled from the spec: `interrupt.c` is not among the sources; runs `handler` as an
external interrupt handler, so that `intr_context ()` holds while it runs. -/
def in_external_interrupt (handler : kernel → Except fault kernel) (s : kernel) :
    Except fault kernel :=
  match handler { s with in_external_intr := true } with
  | .error e => .error e
  | .ok s1 => .ok { s1 with in_external_intr := false }

/-- The scheduler entry points that the queue invariants are stated over.  `unblock` and
`tick` carry what the environment supplies: whether the caller is an interrupt handler,
and the value of `timer_ticks ()`.  `block` is `thread_block`, by which the synchronisation
primitives (and the idle thread) give up the CPU. -/
inductive kernel_op
  | create (page : Bool) (priority : Int)
  | unblock (t : Nat) (from_handler : Bool)
  | yield
  | set_priority (new_priority : Int)
  | sleep (now ticks : Int)
  | tick (now : Int)
  | block

/-- Executes one entry point.  The timer tick runs `thread_sleep_ticker` in interrupt
context.  The idle thread's body only blocks and halts, so `sleep` applies to a running
thread other than the idle thread; a call that does not apply leaves the state alone. -/
def run_op : kernel_op → kernel → Except fault kernel
  | .create page priority, s => thread_create page priority s
  | .unblock t false, s => thread_unblock t s
  | .unblock t true, s => in_external_interrupt (thread_unblock t) s
  | .yield, s => thread_yield s
  | .set_priority p, s => thread_set_priority p s
  | .sleep now ticks, s =>
    if s.idle_thread = some s.running then .ok s else thread_sleep now ticks s
  | .tick now, s => in_external_interrupt (thread_sleep_ticker now) s
  | .block, s => thread_block s

/-- States reached from `s0` by entry points that return. -/
inductive reachable (s0 : kernel) : kernel → Prop
  | init : reachable s0 s0
  | step {s s' : kernel} (op : kernel_op) :
      reachable s0 s → run_op op s = .ok s' → reachable s0 s'

/-- Runs a sequence of entry points; a call that panics is left out. -/
def exec : List kernel_op → kernel → kernel
  | [], s => s
  | op :: ops, s =>
    match run_op op s with
    | .ok s1 => exec ops s1
    | .error _ => exec ops s

/-- The zeroed `struct thread` with a given status and priority. -/
def mk_thread (st : thread_status) (priority : Int) : thread :=
  { status := st, priority := priority, lock_list := [], blocker := none,
    wakeup_tick := 0, nice := 0, recent_cpu := 0 }

/-- The kernel once `thread_start` has returned: `main` (identifier 1) runs at
`PRI_DEFAULT`, the idle thread (identifier 2) is blocked at `PRI_MIN` (under MLFQ
`init_thread` gave both the priority computed from zero `recent_cpu` and `nice`), every
queue is empty and no lock is held. -/
def started (mlfqs : Bool) : kernel :=
  { thread_mlfqs := mlfqs,
    threads := (fun t =>
      if t = 1 then mk_thread THREAD_RUNNING (if mlfqs then PRI_MAX else PRI_DEFAULT)
      else mk_thread THREAD_BLOCKED (if mlfqs then PRI_MAX else PRI_MIN)),
    locks := (fun _ => { holder := none, priority := 0 }),
    mem := (fun _ => 0),
    running := 1,
    idle_thread := some 2,
    ready_list := [],
    thread_mlfqs_queue := [],
    sleeping_list := [],
    next_tid := 3,
    thread_ticks := 0,
    in_external_intr := false,
    yield_on_return := false,
    thread_mlfqs_load_avg := INT_TO_FIX 0 }

/-! ## Invariants of the queues -/

/-- What holds of the queues whenever the scheduler is entered or left: statuses agree with
queue membership, no thread is queued twice, only the queue of the active scheduler is in
use, identifiers in use are below `next_tid`, the sleeping list is ascending in
`wakeup_tick` and the ready list is descending in effective priority. -/
structure queues_ok (s : kernel) : Prop where
  ready_status : ∀ t ∈ s.ready_list, (s.threads t).status = THREAD_READY
  mlfqs_status : ∀ t ∈ s.thread_mlfqs_queue, (s.threads t).status = THREAD_READY
  sleeping_status : ∀ t ∈ s.sleeping_list, (s.threads t).status = THREAD_SLEEP
  ready_nodup : s.ready_list.Nodup
  mlfqs_nodup : s.thread_mlfqs_queue.Nodup
  sleeping_nodup : s.sleeping_list.Nodup
  queue_mode : if s.thread_mlfqs then s.ready_list = [] else s.thread_mlfqs_queue = []
  idle_awake : ∀ i, s.idle_thread = some i → (s.threads i).status ≠ THREAD_SLEEP
  idle_fresh : ∀ i, s.idle_thread = some i → i < s.next_tid
  ready_fresh : ∀ t ∈ s.ready_list, t < s.next_tid
  mlfqs_fresh : ∀ t ∈ s.thread_mlfqs_queue, t < s.next_tid
  sleeping_fresh : ∀ t ∈ s.sleeping_list, t < s.next_tid
  sleeping_sorted :
    s.sleeping_list.Pairwise (fun a b => (s.threads a).wakeup_tick ≤ (s.threads b).wakeup_tick)
  ready_sorted :
    s.ready_list.Pairwise
      (fun a b => thread_explicit_get_priority s b ≤ thread_explicit_get_priority s a)

/-- The invariant between entry points: the queues are in order, the running thread is
marked running, and unless the idle thread runs no ready thread outranks the running
thread. -/
structure sched_inv (s : kernel) : Prop where
  queues : queues_ok s
  running_status : (s.threads s.running).status = THREAD_RUNNING
  running_fresh : s.running < s.next_tid
  ready_le_running : s.idle_thread ≠ some s.running →
    ∀ t ∈ s.ready_list,
      thread_explicit_get_priority s t ≤ thread_explicit_get_priority s s.running

/-- A thread that `thread_create` is still setting up: blocked, not running, with the
scheduler invariant in force around it. -/
def parked (s : kernel) (t : Nat) : Prop :=
  sched_inv s ∧ (s.threads t).status = THREAD_BLOCKED ∧ t ≠ s.running

/-- Two thread records that differ at most in `status`. -/
def same_attrs (a b : thread) : Prop :=
  a.priority = b.priority ∧ a.lock_list = b.lock_list ∧ a.blocker = b.blocker ∧
    a.wakeup_tick = b.wakeup_tick ∧ a.nice = b.nice ∧ a.recent_cpu = b.recent_cpu

/-- What no scheduler entry point changes: whether an interrupt handler is running, which
thread is the idle thread, and which scheduler is active. -/
def ctx_frame (s s' : kernel) : Prop :=
  s'.in_external_intr = s.in_external_intr ∧ s'.idle_thread = s.idle_thread ∧
    s'.thread_mlfqs = s.thread_mlfqs

/-- What a routine that only reschedules leaves alone: the sleeping list, the locks, the
priority cells, every member of every thread other than `status`, and the context. -/
def sleep_frame (s s' : kernel) : Prop :=
  s'.sleeping_list = s.sleeping_list ∧ s'.locks = s.locks ∧ s'.mem = s.mem ∧
    (∀ x, same_attrs (s'.threads x) (s.threads x)) ∧ ctx_frame s s'

/-! ## `userprog/process.c`: loading an ELF executable -/

/-- Modelled from the spec: `vaddr.h` is not among the sources; a page is 4 KiB. -/
def PGSIZE : Nat := 4096

/-- Modelled from the spec: `vaddr.h` is not among the sources; the bits of the offset
within a page. -/
def PGMASK : Nat := 4095

/-- Modelled from the spec: `vaddr.h` is not among the sources; the user/kernel split at
3 GiB. -/
def PHYS_BASE : Nat := 0xC0000000

/-- Modelled from the spec: `vaddr.h` is not among the sources; an address is a user
address when it lies below `PHYS_BASE`. -/
def is_user_vaddr (vaddr : Nat) : Bool := decide (vaddr < PHYS_BASE)

/-- Modelled from the spec: `round.h` is not among the sources; `x` rounded up to a
multiple of `step`, in 32-bit unsigned arithmetic. -/
def ROUND_UP (x step : Nat) : Nat := ((x + step - 1) % 2 ^ 32 / step * step) % 2 ^ 32

/-- Executable header; `e_ident` holds the 16 identification bytes, the other members are
16-bit or 32-bit unsigned values. -/
structure Elf32_Ehdr where
  e_ident : List Nat
  e_type : Nat
  e_machine : Nat
  e_version : Nat
  e_entry : Nat
  e_phoff : Nat
  e_shoff : Nat
  e_flags : Nat
  e_ehsize : Nat
  e_phentsize : Nat
  e_phnum : Nat
  e_shentsize : Nat
  e_shnum : Nat
  e_shstrndx : Nat

/-- Program header; every member is a 32-bit unsigned value. -/
structure Elf32_Phdr where
  p_type : Nat
  p_offset : Nat
  p_vaddr : Nat
  p_paddr : Nat
  p_filesz : Nat
  p_memsz : Nat
  p_flags : Nat
  p_align : Nat

/-- The size of `struct Elf32_Ehdr`: 16 identification bytes, eight 16-bit and five 32-bit
members. -/
def sizeof_Elf32_Ehdr : Int := 52

/-- The size of `struct Elf32_Phdr`: eight 32-bit members. -/
def sizeof_Elf32_Phdr : Nat := 32

/-- What the collaborators of `load` answer: the page-directory and file-system calls, the
bytes that `file_read` delivers for the executable header and for the program header at a
file offset, and the per-page results of `palloc_get_page`, `file_read` and `install_page`
inside `load_segment`. -/
structure load_env where
  pagedir_create : Bool
  filesys_open : Bool
  file_length : Int
  read_ehdr : Int × Elf32_Ehdr
  read_phdr : Int → Int × Elf32_Phdr
  palloc_get_page : Nat → Bool
  file_read_page : Nat → Nat → Bool
  install_page : Nat → Bool → Bool
  setup_stack : Bool

/-- Checks whether `phdr` describes a valid, loadable segment in a file of the given
length. -/
def validate_segment (phdr : Elf32_Phdr) (file_length : Int) : Bool :=
  if phdr.p_offset &&& PGMASK ≠ phdr.p_vaddr &&& PGMASK then false
  else if phdr.p_offset > (file_length % 2 ^ 32).toNat then false
  else if phdr.p_memsz < phdr.p_filesz then false
  else if phdr.p_memsz = 0 then false
  else if !is_user_vaddr phdr.p_vaddr then false
  else if !is_user_vaddr ((phdr.p_vaddr + phdr.p_memsz) % 2 ^ 32) then false
  else if (phdr.p_vaddr + phdr.p_memsz) % 2 ^ 32 < phdr.p_vaddr then false
  else if phdr.p_vaddr < PGSIZE then false
  else true

/-- The loop of `load_segment`: one page per iteration, `fuel` bounds the iterations. -/
def load_segment_loop :
    Nat → load_env → Nat → Nat → Nat → Bool → Except fault Bool
  | 0, _, _, _, _, _ => .error fault.out_of_fuel
  | fuel + 1, env, upage, read_bytes, zero_bytes, writable =>
    if read_bytes > 0 ∨ zero_bytes > 0 then
      let page_read_bytes := if read_bytes < PGSIZE then read_bytes else PGSIZE
      let page_zero_bytes := PGSIZE - page_read_bytes
      if !env.palloc_get_page upage then .ok false
      else if !env.file_read_page upage page_read_bytes then .ok false
      else if !env.install_page upage writable then .ok false
      else
        load_segment_loop fuel env ((upage + PGSIZE) % 2 ^ 32) (read_bytes - page_read_bytes)
          ((zero_bytes + 2 ^ 32 - page_zero_bytes) % 2 ^ 32) writable
    else .ok true

/-- Loads a segment starting at offset `ofs` in the file at address `upage`: `read_bytes`
bytes are read from the file and the following `zero_bytes` bytes are zeroed. -/
def load_segment (fuel : Nat) (env : load_env) (ofs : Int) (upage read_bytes zero_bytes : Nat)
    (writable : Bool) : Except fault Bool :=
  if (read_bytes + zero_bytes) % 2 ^ 32 % PGSIZE ≠ 0 then .error fault.assert_load_segment
  else if upage % PGSIZE ≠ 0 then .error fault.assert_load_segment
  else if ofs.tmod PGSIZE ≠ 0 then .error fault.assert_load_segment
  else load_segment_loop fuel env upage read_bytes zero_bytes writable

/-- Conversion of a 32-bit unsigned value to `off_t` (a 32-bit signed integer). -/
def to_off_t (x : Nat) : Int :=
  if x % 2 ^ 32 < 2 ^ 31 then ((x % 2 ^ 32 : Nat) : Int) else ((x % 2 ^ 32 : Nat) : Int) - 2 ^ 32

/-- The program-header loop of `load`: `n` headers remain to be read, the next one at
`file_ofs`.  The result is false where the source jumps to `done`. -/
def load_program_headers (fuel : Nat) (env : load_env) : Nat → Int → Except fault Bool
  | 0, _ => .ok true
  | n + 1, file_ofs =>
    if file_ofs < 0 ∨ file_ofs > env.file_length then .ok false
    else if (env.read_phdr file_ofs).1 ≠ sizeof_Elf32_Phdr then .ok false
    else
      let phdr := (env.read_phdr file_ofs).2
      let file_ofs := file_ofs + sizeof_Elf32_Phdr
      if phdr.p_type = 2 ∨ phdr.p_type = 3 ∨ phdr.p_type = 5 then .ok false
      else if phdr.p_type = 1 then
        if validate_segment phdr env.file_length then
          let writable := decide (phdr.p_flags &&& 2 ≠ 0)
          let file_page := phdr.p_offset &&& (2 ^ 32 - 1 - PGMASK)
          let mem_page := phdr.p_vaddr &&& (2 ^ 32 - 1 - PGMASK)
          let page_offset := phdr.p_vaddr &&& PGMASK
          let read_bytes :=
            if phdr.p_filesz > 0 then (page_offset + phdr.p_filesz) % 2 ^ 32 else 0
          let zero_bytes :=
            if phdr.p_filesz > 0 then
              (ROUND_UP ((page_offset + phdr.p_memsz) % 2 ^ 32) PGSIZE + 2 ^ 32 - read_bytes)
                % 2 ^ 32
            else ROUND_UP ((page_offset + phdr.p_memsz) % 2 ^ 32) PGSIZE
          match load_segment fuel env (to_off_t file_page) mem_page read_bytes zero_bytes
              writable with
          | .error e => .error e
          | .ok false => .ok false
          | .ok true => load_program_headers fuel env n file_ofs
        else .ok false
      else load_program_headers fuel env n file_ofs

/-- Loads an ELF executable into the current thread; returns true if successful, false
otherwise.  The header is rejected when it was not read in full, when its first seven
identification bytes are not `0x7F 'E' 'L' 'F' 1 1 1`, or when `e_type`, `e_machine`,
`e_version`, `e_phentsize` or `e_phnum` is off. -/
def load (fuel : Nat) (env : load_env) : Except fault Bool :=
  if !env.pagedir_create then .ok false
  else if !env.filesys_open then .ok false
  else
    let ehdr := env.read_ehdr.2
    if env.read_ehdr.1 ≠ sizeof_Elf32_Ehdr
        ∨ ehdr.e_ident.take 7 ≠ [0x7F, 0x45, 0x4C, 0x46, 1, 1, 1]
        ∨ ehdr.e_type ≠ 2
        ∨ ehdr.e_machine ≠ 3
        ∨ ehdr.e_version ≠ 1
        ∨ ehdr.e_phentsize ≠ sizeof_Elf32_Phdr
        ∨ ehdr.e_phnum > 1024 then .ok false
    else
      match load_program_headers fuel env ehdr.e_phnum (to_off_t ehdr.e_phoff) with
      | .error e => .error e
      | .ok false => .ok false
      | .ok true => if !env.setup_stack then .ok false else .ok true

/-! ## The claims in the words of the specification, and concrete scenes -/

/-- The effective priority in the words of the specification: the maximum of the base
priority and the priorities of all locks on the thread's lock list. -/
def effective_priority_spec (s : kernel) (t : Nat) : Int :=
  ((s.threads t).lock_list.map (fun l => s.mem (s.locks l).priority)).foldl max
    (s.threads t).priority

/-- The MLFQ priority in the words of the specification: `PRI_MAX - recent_cpu / 4 -
nice * 2` clamped to `[PRI_MIN, PRI_MAX]`, where `recent_cpu / 4` is the real value of the
17.14 number `recent_cpu` divided by 4 and rounded toward zero. -/
def mlfqs_priority_spec (recent_cpu nice : Int) : Int :=
  max PRI_MIN (min PRI_MAX (PRI_MAX - recent_cpu.tdiv (4 * FIXED_POINT_F) - nice * 2))

/-- A donation scene.  Thread 1 (L, base priority `l`) holds locks 1 (A) and 2 (C) and is
ready; thread 2 (M, base `m`) holds lock 3 (B) and is blocked on A; thread 4 (W, base `w`)
is blocked on C; thread 3 (H, base `h`) runs and is about to block on B.  Each lock's
`semaphore.priority` points to its own cell, which holds its waiter's priority.  No
donation has been recorded yet. -/
def donation_scene (l m w h : Int) : kernel :=
  { thread_mlfqs := false,
    threads := (fun t =>
      if t = 1 then
        { mk_thread THREAD_READY l with }
      else if t = 2 then
        { mk_thread THREAD_BLOCKED m with blocker := some 1 }
      else if t = 3 then
        { mk_thread THREAD_RUNNING h with blocker := some 3 }
      else if t = 4 then
        { mk_thread THREAD_BLOCKED w with blocker := some 2 }
      else mk_thread THREAD_BLOCKED PRI_MIN),
    locks := (fun k =>
      if k = 3 then { holder := some 2, priority := 3 }
      else { holder := some 1, priority := k }),
    mem := (fun c => if c = 1 then m else if c = 2 then w else if c = 3 then h else 0),
    running := 3,
    idle_thread := some 5,
    ready_list := [1],
    thread_mlfqs_queue := [],
    sleeping_list := [],
    next_tid := 6,
    thread_ticks := 0,
    in_external_intr := false,
    yield_on_return := false,
    thread_mlfqs_load_avg := 0 }

/-- M's wait on A is donated to L, then H's wait on B is donated to M (and cascades). -/
def donate_chain (s : kernel) : Except fault kernel :=
  (thread_donate_priority_lock 8 s 1 1).bind fun s1 => thread_donate_priority_lock 8 s1 2 3

/-- As `donate_chain`, with W's wait on C donated to L in between. -/
def donate_chain_two_locks (s : kernel) : Except fault kernel :=
  (thread_donate_priority_lock 8 s 1 1).bind fun s1 =>
    (thread_donate_priority_lock 8 s1 1 2).bind fun s2 => thread_donate_priority_lock 8 s2 2 3

/-- After `donate_chain_two_locks`, H blocks, so that L runs, and L sets its own priority
to `p`. -/
def donate_then_set_priority (s : kernel) (p : Int) : Except fault kernel :=
  (donate_chain_two_locks s).bind fun s1 =>
    (thread_block s1).bind fun s2 => thread_set_priority p s2

/-- The kernel in MLFQ mode with the given load average, and with the `recent_cpu` and the
`nice` of `main` set to the given 17.14 number and integer. -/
def mlfqs_scene (load_avg recent_cpu nice : Int) : kernel :=
  { started true with
    thread_mlfqs_load_avg := load_avg,
    threads := Function.update (started true).threads 1
      { (started true).threads 1 with recent_cpu := recent_cpu, nice := nice } }

/-- Two threads of priority 40 are created and go to sleep until tick 10 while `main`
(priority 31) keeps running. -/
def two_sleepers : kernel :=
  exec [.create true 40, .create true 40, .sleep 0 10, .sleep 0 10] (started false)

/-- The alarm scene: `main` creates threads 3, 4 and 5 at its own priority and goes to
sleep for 100 ticks; then thread 3 sleeps for 30 ticks, thread 4 for 10 and thread 5 for
20, all from tick 0, and the idle thread runs. -/
def three_sleepers : kernel :=
  exec [.create true 31, .create true 31, .create true 31, .sleep 0 100, .sleep 0 30,
    .sleep 0 10, .sleep 0 20] (started false)

/-- From boot, `main` sleeps for two ticks, so the idle thread runs, and the timer
interrupt of tick 2 wakes `main`. -/
def woken_under_idle : kernel :=
  exec [.sleep 0 2, .tick 2] (started false)

/-- From boot, a thread of priority 10 is created while `main` runs at priority 31. -/
def low_priority_child : kernel :=
  exec [.create true 10] (started false)

/-- The checks on the executable header in the words of the specification: the header was
read in full, the magic is `0x7F 'E' 'L' 'F'`, the class is 32-bit, the data encoding is
little-endian, the version is 1 (in the identification bytes and in `e_version`), the type
is `ET_EXEC`, the machine is `EM_386`, `e_phentsize` is the size of a program header and
there are at most 1024 program headers. -/
def elf_header_ok (bytes_read : Int) (ehdr : Elf32_Ehdr) : Prop :=
  bytes_read = sizeof_Elf32_Ehdr ∧
  ehdr.e_ident.take 4 = [0x7F, 0x45, 0x4C, 0x46] ∧
  ehdr.e_ident.get? 4 = some 1 ∧
  ehdr.e_ident.get? 5 = some 1 ∧
  ehdr.e_ident.get? 6 = some 1 ∧
  ehdr.e_version = 1 ∧
  ehdr.e_type = 2 ∧
  ehdr.e_machine = 3 ∧
  ehdr.e_phentsize = sizeof_Elf32_Phdr ∧
  ehdr.e_phnum ≤ 1024

/-- A well-formed executable header with `phnum` program headers at file offset 52. -/
def sample_ehdr (phnum : Nat) : Elf32_Ehdr :=
  { e_ident := [0x7F, 0x45, 0x4C, 0x46, 1, 1, 1, 0, 0, 0, 0, 0, 0, 0, 0, 0],
    e_type := 2, e_machine := 3, e_version := 1, e_entry := 0x08048000, e_phoff := 52,
    e_shoff := 0, e_flags := 0, e_ehsize := 52, e_phentsize := 32, e_phnum := phnum,
    e_shentsize := 40, e_shnum := 0, e_shstrndx := 0 }

/-- A loadable segment of 0x2000 bytes (0x1234 of them in the file) at 0x08048000. -/
def sample_phdr : Elf32_Phdr :=
  { p_type := 1, p_offset := 0x1000, p_vaddr := 0x08048000, p_paddr := 0x08048000,
    p_filesz := 0x1234, p_memsz := 0x2000, p_flags := 5, p_align := 0x1000 }

/-- Collaborators that never fail, around an executable of 0x4000 bytes whose header is
`ehdr` and whose program headers are all `sample_phdr`. -/
def sample_env (ehdr : Elf32_Ehdr) : load_env :=
  { pagedir_create := true, filesys_open := true, file_length := 0x4000,
    read_ehdr := (52, ehdr), read_phdr := (fun _ => (32, sample_phdr)),
    palloc_get_page := (fun _ => true), file_read_page := (fun _ _ => true),
    install_page := (fun _ _ => true), setup_stack := true }

/-- The sleeping list is in ascending order of `wakeup_tick`. -/
def sleeping_sorted (s : kernel) : Prop :=
  s.sleeping_list.Pairwise (fun a b => (s.threads a).wakeup_tick ≤ (s.threads b).wakeup_tick)

/-! ## `userprog/syscall.c`: user pointers, stack arguments and dispatch -/

/-- The 32-bit little-endian word whose first byte is at `a`; `mem` holds one byte per
address. -/
def load_u32 (mem : Nat → Nat) (a : Nat) : Nat :=
  mem a + 256 * mem (a + 1) + 65536 * mem (a + 2) + 16777216 * mem (a + 3)

/-- The value of a 32-bit pattern read as `int32_t` or `int`. -/
def to_int32 (x : Nat) : Int :=
  if x % 2 ^ 32 < 2 ^ 31 then ((x % 2 ^ 32 : Nat) : Int) else ((x % 2 ^ 32 : Nat) : Int) - 2 ^ 32

/-- A buffer handed to the console or to the file system, or a key taken from the
keyboard. -/
inductive io_call
  | input_getc
  | putbuf (buffer size : Nat)
  | file_read (fd : Int) (buffer size : Nat)
  | file_write (fd : Int) (buffer size : Nat)
  deriving DecidableEq, Repr

/-- What a system call handler sees of the calling process. `pagedir_get_page` tells
whether the current page directory maps an address (`pagedir.c` is not among the
sources); `mem` is memory by byte; `exit_status` and `eax` are the process and interrupt
frame members the handlers write; `file_descriptor_table` tells which descriptors are
open, `key` is the next byte of `input_getc` and `transferred` what `file_read` and
`file_write` return; `calls` lists, oldest first, the buffers handed out so far. -/
structure syscall_state where
  pagedir_get_page : Nat → Bool
  mem : Nat → Nat
  exit_status : Int
  eax : Nat
  file_descriptor_table : Int → Bool
  key : Nat
  transferred : Int → Nat → Int
  calls : List io_call

/-- The ways a handler ends without returning to the user program. -/
inductive syscall_stop
  | thread_exit (s : syscall_state)
  | assert_syscall_number
  | outside_handler_table (index : Int)

/-- Store the status and leave through `thread_exit`, which does not return. -/
def exit_syscall (s : syscall_state) (status : Int) : syscall_stop :=
  syscall_stop.thread_exit { s with exit_status := status }

/-- Leave with status -1 unless `pointer` is non-null, below `PHYS_BASE` and mapped. -/
def validate_user_pointer (s : syscall_state) (pointer : Nat) : Except syscall_stop syscall_state :=
  if pointer = 0 ∨ is_user_vaddr pointer = false ∨ s.pagedir_get_page pointer = false then
    Except.error (exit_syscall s (-1))
  else Except.ok s

/-- The `index`-th argument word above the system call number; only the address of the
word itself is validated before the four bytes are read. -/
def get_stack_argument (s : syscall_state) (esp index : Nat) : Except syscall_stop Nat :=
  let pointer := (esp + 4 * (index + 1)) % 2 ^ 32
  match validate_user_pointer s pointer with
  | Except.error e => Except.error e
  | Except.ok _ => Except.ok (load_u32 s.mem pointer)

/-- The lookup of `process.c`: descriptors 0 and 1 are never in the table. -/
def process_get_file_descriptor_struct (s : syscall_state) (fd : Int) : Bool :=
  if fd < 2 then false else s.file_descriptor_table fd

/-- The handler of `read`. -/
def read_handler (s : syscall_state) (esp : Nat) : Except syscall_stop syscall_state :=
  match get_stack_argument s esp 0 with
  | Except.error e => Except.error e
  | Except.ok a0 =>
  match get_stack_argument s esp 1 with
  | Except.error e => Except.error e
  | Except.ok buffer =>
  match get_stack_argument s esp 2 with
  | Except.error e => Except.error e
  | Except.ok size =>
  match validate_user_pointer s buffer with
  | Except.error e => Except.error e
  | Except.ok _ =>
    let fd := to_int32 a0
    if fd = 0 then
      let s1 := { s with calls := s.calls ++ [io_call.input_getc] }
      if 0 < size then
        Except.ok { s1 with mem := Function.update s1.mem buffer (s.key % 256), eax := 1 }
      else Except.ok { s1 with eax := 0 }
    else if process_get_file_descriptor_struct s fd then
      Except.ok { s with calls := s.calls ++ [io_call.file_read fd buffer size],
                         eax := (s.transferred fd size % 2 ^ 32).toNat }
    else Except.ok { s with eax := 2 ^ 32 - 1 }

/-- The handler of `write`. -/
def write_handler (s : syscall_state) (esp : Nat) : Except syscall_stop syscall_state :=
  match get_stack_argument s esp 0 with
  | Except.error e => Except.error e
  | Except.ok a0 =>
  match get_stack_argument s esp 1 with
  | Except.error e => Except.error e
  | Except.ok buffer =>
  match get_stack_argument s esp 2 with
  | Except.error e => Except.error e
  | Except.ok size =>
  match validate_user_pointer s buffer with
  | Except.error e => Except.error e
  | Except.ok _ =>
    let fd := to_int32 a0
    if fd = 1 then
      Except.ok { s with calls := s.calls ++ [io_call.putbuf buffer size], eax := size }
    else if process_get_file_descriptor_struct s fd then
      Except.ok { s with calls := s.calls ++ [io_call.file_write fd buffer size],
                         eax := (s.transferred fd size % 2 ^ 32).toNat }
    else Except.ok { s with eax := 2 ^ 32 - 1 }

/-- The entries of `syscall_handlers[]`. -/
inductive syscall_name
  | halt_handler | exit_handler | exec_handler | wait_handler | create_handler
  | remove_handler | open_handler | filesize_handler | read_handler | write_handler
  | seek_handler | tell_handler | close_handler
  deriving DecidableEq, Repr

/-- The table of handlers, in the order of the source. -/
def syscall_handlers : List syscall_name :=
  [syscall_name.halt_handler, syscall_name.exit_handler, syscall_name.exec_handler,
   syscall_name.wait_handler, syscall_name.create_handler, syscall_name.remove_handler,
   syscall_name.open_handler, syscall_name.filesize_handler, syscall_name.read_handler,
   syscall_name.write_handler, syscall_name.seek_handler, syscall_name.tell_handler,
   syscall_name.close_handler]

/-- Modelled from the spec: `syscall-nr.h` is not among the sources; the numbered surface
has the thirteen calls 0 to 12, and the constant is a plain `int`. -/
def SYS_NUM_SYSCALLS : Int := 13

/-- The handler of interrupt 0x30 up to the call through the table: the result is the
entry that is invoked. The number is compared as a signed value against the upper bound
only; an index outside the table reads whatever lies beside it. -/
def syscall_handler (s : syscall_state) (esp : Nat) : Except syscall_stop syscall_name :=
  match validate_user_pointer s esp with
  | Except.error e => Except.error e
  | Except.ok _ =>
    let syscall_number := to_int32 (load_u32 s.mem esp)
    if syscall_number < SYS_NUM_SYSCALLS then
      if 0 ≤ syscall_number then
        match syscall_handlers.get? syscall_number.toNat with
        | some h => Except.ok h
        | none => Except.error (syscall_stop.outside_handler_table syscall_number)
      else Except.error (syscall_stop.outside_handler_table syscall_number)
    else Except.error syscall_stop.assert_syscall_number

/-! ## `userprog/process.c`: the command line and the initial user stack -/

/-- Modelled from the spec: `lib/string.c` is not among the sources; the tokens that
repeated `strtok_r (.., " ", ..)` yields are the maximal runs of bytes other than the
space (32). `cur` is the run being read. -/
def strtok_r_loop : List Nat → List Nat → List (List Nat)
  | [], cur => if cur.isEmpty then [] else [cur]
  | c :: rest, cur =>
    if c = 32 then (if cur.isEmpty then strtok_r_loop rest [] else cur :: strtok_r_loop rest [])
    else strtok_r_loop rest (cur ++ [c])

/-- The argument list and count that `process_load_setup` hands to the new thread:
`strlcpy` keeps at most `PGSIZE - 1` bytes of the command line, and every token is pushed
at the front of the list. -/
def process_load_setup_args (file_name : List Nat) : List (List Nat) × Nat :=
  (strtok_r_loop (file_name.take (PGSIZE - 1)) []).foldl
    (fun acc token => (token :: acc.1, acc.2 + 1)) ([], 0)

/-- Memory after the bytes `bs` have been stored from address `a` upwards. -/
def store_bytes (mem : Nat → Nat) (a : Nat) (bs : List Nat) : Nat → Nat :=
  fun x => if a ≤ x ∧ x < a + bs.length then bs.getD (x - a) 0 else mem x

/-- The four bytes of a 32-bit value, lowest first. -/
def word_bytes (v : Nat) : List Nat :=
  [v % 256, v / 256 % 256, v / 65536 % 256, v / 16777216 % 256]

/-- The user stack while `start_process` fills it: `if_.esp`, user memory, and the
address and length of every store made so far, latest first. -/
structure user_stack where
  esp : Nat
  mem : Nat → Nat
  stores : List (Nat × Nat)

/-- Lower `esp` by the size of the object and store it there; no bound is checked.
`mapped` tells which user addresses the page directory of the process maps; a store that
touches an address it does not map raises a page fault. -/
def push (mapped : Nat → Bool) (st : user_stack) (bs : List Nat) : Except fault user_stack :=
  if (List.range bs.length).all (fun i => mapped (st.esp - bs.length + i)) then
    Except.ok { esp := st.esp - bs.length,
                mem := store_bytes st.mem (st.esp - bs.length) bs,
                stores := (st.esp - bs.length, bs.length) :: st.stores }
  else Except.error (fault.page_fault (st.esp - bs.length))

/-- The first loop of `start_process`: every string of the list, from its beginning, is
copied below the previous one with its terminator, and the list entry is redirected to
the copy; the second component lists the new `token` pointers in list order. -/
def push_strings (mapped : Nat → Bool) :
    List (List Nat) → user_stack → Except fault (user_stack × List Nat)
  | [], st => Except.ok (st, [])
  | token :: rest, st =>
    match push mapped st (token ++ [0]) with
    | Except.error e => Except.error e
    | Except.ok st1 =>
      match push_strings mapped rest st1 with
      | Except.error e => Except.error e
      | Except.ok r => Except.ok (r.1, st1.esp :: r.2)

/-- The second loop of `start_process`: the `token` pointers are pushed in list order. -/
def push_pointers (mapped : Nat → Bool) : List Nat → user_stack → Except fault user_stack
  | [], st => Except.ok st
  | p :: rest, st =>
    match push mapped st (word_bytes p) with
    | Except.error e => Except.error e
    | Except.ok st1 => push_pointers mapped rest st1

/-- The stack that `start_process` builds after a successful `load`: the strings, one
zero byte commented as word alignment, the null sentinel, the pointers, the address of
the lowest pointer, `argc`, and a zero return address. -/
def start_process_stack (mapped : Nat → Bool) (argv : List (List Nat)) (argc : Nat)
    (st : user_stack) : Except fault user_stack :=
  (push_strings mapped argv st).bind fun r =>
  (push mapped r.1 [0]).bind fun st2 =>
  (push mapped st2 (word_bytes 0)).bind fun st3 =>
  (push_pointers mapped r.2 st3).bind fun st4 =>
  (push mapped st4 (word_bytes st4.esp)).bind fun st5 =>
  (push mapped st5 (word_bytes argc)).bind fun st6 =>
  push mapped st6 (word_bytes 0)

/-- The stack of a new process for the command line `file_name`, once `load` has
succeeded: `setup_stack` has left `esp` at `PHYS_BASE` above the one page it mapped, and
`mapped` is the page directory that `load` leaves. `list_back` is applied to the argument
list first (`list.c` is not among the sources; it asserts that the list is not empty). -/
def start_process (file_name : List Nat) (mem : Nat → Nat) (mapped : Nat → Bool) :
    Except fault user_stack :=
  if (process_load_setup_args file_name).1.isEmpty then
    Except.error fault.assert_list_not_empty
  else
    start_process_stack mapped (process_load_setup_args file_name).1
      (process_load_setup_args file_name).2 { esp := PHYS_BASE, mem := mem, stores := [] }

/-- The page directory in which the page that `setup_stack` installs, from
`PHYS_BASE - PGSIZE` up to `PHYS_BASE`, is the only one mapped near the stack (the
segments of the executable lie elsewhere and are left out). -/
def stack_page : Nat → Bool :=
  fun a => decide (PHYS_BASE - PGSIZE ≤ a ∧ a < PHYS_BASE)

/-- The stack after `esp` has been lowered by the size of the object and the object
stored there, as `push` leaves it when the store does not fault. -/
def pushed (st : user_stack) (bs : List Nat) : user_stack :=
  { esp := st.esp - bs.length,
    mem := store_bytes st.mem (st.esp - bs.length) bs,
    stores := (st.esp - bs.length, bs.length) :: st.stores }

/-- The stack and the new `token` pointers, in list order, that `push_strings` leaves
when no store faults. -/
def pushed_strings : List (List Nat) → user_stack → user_stack × List Nat
  | [], st => (st, [])
  | token :: rest, st =>
    let st1 := pushed st (token ++ [0])
    ((pushed_strings rest st1).1, st1.esp :: (pushed_strings rest st1).2)

/-- The stack that `push_pointers` leaves when no store faults. -/
def pushed_pointers : List Nat → user_stack → user_stack
  | [], st => st
  | p :: rest, st => pushed_pointers rest (pushed st (word_bytes p))

/-- The stack that `start_process_stack` leaves when no store faults. -/
def built_stack (argv : List (List Nat)) (argc : Nat) (st : user_stack) : user_stack :=
  let r := pushed_strings argv st
  let st2 := pushed r.1 [0]
  let st3 := pushed st2 (word_bytes 0)
  let st4 := pushed_pointers r.2 st3
  let fst_arg_ptr := st4.esp
  let st5 := pushed st4 (word_bytes fst_arg_ptr)
  let st6 := pushed st5 (word_bytes argc)
  pushed st6 (word_bytes 0)

/-- The layout that a program finds at `esp` when it starts with the arguments `tokens`:
a zero return address, the count, the address of the first pointer, one pointer per
token to a copy of it that ends in a zero byte and lies between `esp` and `PHYS_BASE`,
and a zero after the pointers. -/
def argv_layout (tokens : List (List Nat)) (st : user_stack) : Prop :=
  load_u32 st.mem st.esp = 0 ∧
  load_u32 st.mem (st.esp + 4) = tokens.length ∧
  load_u32 st.mem (st.esp + 8) = st.esp + 12 ∧
  (∀ i, i < tokens.length →
    (∀ j, j < (tokens.getD i []).length →
      st.mem (load_u32 st.mem (st.esp + 12 + 4 * i) + j) = (tokens.getD i []).getD j 0) ∧
    st.mem (load_u32 st.mem (st.esp + 12 + 4 * i) + (tokens.getD i []).length) = 0 ∧
    st.esp ≤ load_u32 st.mem (st.esp + 12 + 4 * i) ∧
    load_u32 st.mem (st.esp + 12 + 4 * i) + (tokens.getD i []).length < PHYS_BASE) ∧
  load_u32 st.mem (st.esp + 12 + 4 * tokens.length) = 0

/-- The bytes that the packed arguments of the tokens take: strings with terminators,
the pad byte, the sentinel, one pointer each, and the three words below them. -/
def packed_size (tokens : List (List Nat)) : Nat :=
  (tokens.map (fun t => t.length + 1)).sum + 1 + 4 + 4 * tokens.length + 12

/-- The command line `echo a b`. -/
def echo_a_b : List Nat := [101, 99, 104, 111, 32, 97, 32, 98]

/-- The command line `echo` followed by one argument of 4080 letters. -/
def long_argument : List Nat := [101, 99, 104, 111, 32] ++ List.replicate 4080 120

/-- A process with one mapped page at 0x08048000 and its stack page below `PHYS_BASE`;
at 0xBFFFFFF0 lie a system call number and three argument words. -/
def syscall_scene (number a0 a1 a2 : Nat) : syscall_state :=
  { pagedir_get_page := fun a =>
      decide (0x08048000 ≤ a ∧ a < 0x08049000) || decide (PHYS_BASE - PGSIZE ≤ a ∧ a < PHYS_BASE),
    mem := store_bytes (store_bytes (store_bytes (store_bytes (fun _ => 0)
      0xBFFFFFF0 (word_bytes number)) 0xBFFFFFF4 (word_bytes a0))
      0xBFFFFFF8 (word_bytes a1)) 0xBFFFFFFC (word_bytes a2),
    exit_status := 0,
    eax := 0,
    file_descriptor_table := fun fd => decide (fd = 2),
    key := 0,
    transferred := fun _ size => size,
    calls := [] }

/-- The scene with the two bytes at and above `PHYS_BASE` set to 0xAA and 0xBB. -/
def straddle_scene : syscall_state :=
  { syscall_scene 1 0 0 0 with
    mem := store_bytes (fun _ => 0) PHYS_BASE [0xAA, 0xBB] }

/-! ## `vm/frame.c`: the frame table and eviction -/

/-- Modelled from the spec: `vm/page.h` is not among the sources; a page descriptor with
its user address, the bits of `page_status` that `frame.c` tests or writes, and `aux`. -/
structure page where
  vaddr : Nat
  in_memory : Bool
  swap : Bool
  filesys : Bool
  memory_mapped : Bool
  aux : Nat
  deriving DecidableEq, Repr

/-- An entry of the frame table (`vm/frame.h` is not among the sources; the members are
those `frame.c` uses); `page` names the page descriptor the entry points to, which is
never the null pointer. -/
structure frame where
  page : Nat
  frame_addr : Nat
  owner_id : Int
  unused_count : Int
  deriving DecidableEq, Repr

/-- What `aux` of a memory-mapped page points to: the mapping and the range of the file
that the page holds (`vm/mmap.h` is not among the sources). -/
structure page_mmap_info where
  mapid : Nat
  offset : Nat
  length : Nat
  deriving DecidableEq, Repr

/-- The state `frame.c` works on. `frame_table` lists the entries in the order the hash
iterator yields them; `pages` are the page descriptors; `pool` holds the free pages of
the user pool and `swap_slots` the free swap slots (`palloc.c` and `swap.c` are not among
the sources); `thread_lookup` tells whether a thread with the id exists;
`pagedir_is_dirty`, `pagedir_is_accessed` and `pagedir` give, by owner and address, the
bits and mappings of the page directories (`pagedir.c` is not among the sources);
`current` is the id of the running thread; `palloc_calls` counts the calls of
`palloc_get_page`; `mmap_info` is the record an `aux` pointer leads to; `written_back`
lists the mapping, frame, offset and length of every `mmap_write_back_data`, and
`swapped_out` the slot and frame of every `swap_save`. -/
structure frame_state where
  frame_table : List frame
  pages : Nat → page
  pool : List Nat
  swap_slots : List Nat
  thread_lookup : Int → Bool
  pagedir_is_dirty : Int → Nat → Bool
  pagedir_is_accessed : Int → Nat → Bool
  pagedir : Int → Nat → Option Nat
  current : Int
  palloc_calls : Nat
  mmap_info : Nat → page_mmap_info
  written_back : List (Nat × Nat × Nat × Nat)
  swapped_out : List (Nat × Nat)

/-- The locals of `frame_allocator_choose_eviction_frame`; `eviction_candidate` is the
position of the entry it points to, `none` while it is not yet assigned, and `visited`
counts the entries the loop has fetched. -/
structure sweep where
  eviction_candidate : Option Nat
  least_used : Int
  dirty_candidate : Bool
  accessed_candidate : Bool
  visited : Nat
  deriving DecidableEq, Repr

/-- The loop of `frame_allocator_choose_eviction_frame` over the entries from position
`i` on; the result is the entries with their new counts and the locals at the end. The
two `break`s leave the remaining entries as they are. -/
def choose_eviction_loop (s : frame_state) :
    List frame → Nat → sweep → Except fault (List frame × sweep)
  | [], _, acc => Except.ok ([], acc)
  | f :: rest, i, acc =>
    if s.thread_lookup f.owner_id = false then Except.error fault.null_pointer
    else
      let dirty := s.pagedir_is_dirty f.owner_id f.frame_addr
      let accessed := s.pagedir_is_accessed f.owner_id f.frame_addr
      if accessed = true ∧ acc.accessed_candidate = false then
        Except.ok ({ f with unused_count := 0 } :: rest, { acc with visited := acc.visited + 1 })
      else
        let c1 := if accessed then f.unused_count else f.unused_count + 1
        if dirty = true ∧ acc.dirty_candidate = false then
          Except.ok ({ f with unused_count := 0 } :: rest,
            { acc with visited := acc.visited + 1 })
        else
          let c2 := if dirty then c1 else c1 + 1
          let c3 := c2 + 1
          let acc3 : sweep :=
            if acc.least_used < c3 ∧ (s.pages f.page).filesys = false then
              { eviction_candidate := some i, least_used := c3, dirty_candidate := dirty,
                accessed_candidate := accessed, visited := acc.visited + 1 }
            else { acc with visited := acc.visited + 1 }
          match choose_eviction_loop s rest (i + 1) acc3 with
          | Except.error e => Except.error e
          | Except.ok (r, a) => Except.ok ({ f with unused_count := c3 } :: r, a)

/-- The locals before the loop: no candidate, `least_used = 0`, both flags true. -/
def sweep_start : sweep :=
  { eviction_candidate := none, least_used := 0, dirty_candidate := true,
    accessed_candidate := true, visited := 0 }

/-- Choose the entry to evict: sweep, reset the count of the candidate and return it
with the locals of the sweep. -/
def frame_allocator_choose_eviction_frame (s : frame_state) :
    Except fault (frame_state × frame × sweep) :=
  match choose_eviction_loop s s.frame_table 0 sweep_start with
  | Except.error e => Except.error e
  | Except.ok (table, acc) =>
    match acc.eviction_candidate with
    | none => Except.error fault.uninitialised_pointer
    | some i =>
      match table.get? i with
      | none => Except.error fault.uninitialised_pointer
      | some f =>
        Except.ok ({ s with frame_table := table.set i { f with unused_count := 0 } },
          { f with unused_count := 0 }, acc)

/-- Save the contents of a frame that is about to be freed. -/
def frame_allocator_save_frame (s : frame_state) (f : frame) : Except fault frame_state :=
  if s.thread_lookup f.owner_id = false then Except.error fault.panic_frame_table
  else
    let dirty_flag := s.pagedir_is_dirty f.owner_id (s.pages f.page).vaddr
    if (s.pages f.page).memory_mapped = true ∧ dirty_flag = true then
      let mmap_info := s.mmap_info (s.pages f.page).aux
      Except.ok { s with written_back := s.written_back
        ++ [(mmap_info.mapid, f.frame_addr, mmap_info.offset, mmap_info.length)] }
    else if (s.pages f.page).filesys = false then
      match s.swap_slots with
      | [] => Except.error fault.panic_swap
      | slot :: free =>
        Except.ok { s with
          swap_slots := free,
          pages := Function.update s.pages f.page
            { s.pages f.page with swap := true, in_memory := false, aux := slot },
          swapped_out := s.swapped_out ++ [(slot, f.frame_addr)] }
    else Except.ok s

/-- Remove the entry with the key `frame_addr` from the table. -/
def frame_unmap (s : frame_state) (frame_addr : Nat) : frame_state :=
  { s with frame_table := s.frame_table.eraseP (fun f => f.frame_addr == frame_addr) }

/-- Give a page back to the pool and drop its entry and its mapping. -/
def frame_allocator_free_user_page (s : frame_state) (kernel_vaddr : Nat) :
    Except fault frame_state :=
  let s1 := { s with pool := kernel_vaddr :: s.pool }
  match s1.frame_table.find? (fun f => f.frame_addr == kernel_vaddr) with
  | none => Except.error fault.panic_frame_table
  | some f =>
    let s2 := { s1 with
      pages := Function.update s1.pages f.page { s1.pages f.page with in_memory := false } }
    if s2.thread_lookup f.owner_id = false then Except.error fault.panic_frame_table
    else
      let s3 := { s2 with
        pagedir := Function.update s2.pagedir f.owner_id
          (Function.update (s2.pagedir f.owner_id) (s2.pages f.page).vaddr none) }
      Except.ok (frame_unmap s3 kernel_vaddr)

/-- Evict one frame: choose it, save it, free it. -/
def frame_allocator_evict_page (s : frame_state) : Except fault frame_state :=
  match frame_allocator_choose_eviction_frame s with
  | Except.error e => Except.error e
  | Except.ok (s1, f, _) =>
    match frame_allocator_save_frame s1 f with
    | Except.error e => Except.error e
    | Except.ok s2 => frame_allocator_free_user_page s2 f.frame_addr

/-- Take a page from the user pool, if one is free. -/
def palloc_get_page (s : frame_state) : frame_state × Option Nat :=
  match s.pool with
  | [] => ({ s with palloc_calls := s.palloc_calls + 1 }, none)
  | p :: free => ({ s with palloc_calls := s.palloc_calls + 1, pool := free }, some p)

/-- Enter a new frame for `page` into the table; an entry with the same key keeps its
place and no second one is added. -/
def frame_map (s : frame_state) (frame_addr page : Nat) : frame_state :=
  if s.frame_table.any (fun f => f.frame_addr == frame_addr) then s
  else { s with frame_table :=
    { page := page, frame_addr := frame_addr, owner_id := s.current, unused_count := 0 }
      :: s.frame_table }

/-- The mapping step of `process.c`: it fails when the user page is already mapped. -/
def install_page (s : frame_state) (upage kpage : Nat) : Option frame_state :=
  match s.pagedir s.current upage with
  | some _ => none
  | none => some { s with
      pagedir := Function.update s.pagedir s.current
        (Function.update (s.pagedir s.current) upage (some kpage)) }

/-- Get a frame for the page descriptor `page`: when the pool is empty one frame is
evicted and the allocation is tried once more. -/
def frame_allocator_get_user_page (s : frame_state) (page : Nat) :
    Except fault (frame_state × Nat) :=
  let user_vaddr := (s.pages page).vaddr
  if is_user_vaddr user_vaddr = false then Except.error fault.assert_user_vaddr
  else
    let mapped (s1 : frame_state) (kernel_vaddr : Nat) : Except fault (frame_state × Nat) :=
      match install_page s1 user_vaddr kernel_vaddr with
      | none => Except.error fault.panic_install_page
      | some s2 => Except.ok (frame_map s2 kernel_vaddr page, kernel_vaddr)
    match palloc_get_page s with
    | (s1, some kernel_vaddr) => mapped s1 kernel_vaddr
    | (s1, none) =>
      match frame_allocator_evict_page s1 with
      | Except.error e => Except.error e
      | Except.ok s2 =>
        match palloc_get_page s2 with
        | (_, none) => Except.error fault.assert_kernel_vaddr
        | (s3, some kernel_vaddr) => mapped s3 kernel_vaddr

/-- A state with the given table, page descriptors and pool, one free swap slot, all
owners alive and no accessed or dirty bit other than those of `bits`. -/
def frame_scene (table : List frame) (pages : Nat → page) (pool : List Nat)
    (bits : Nat → Bool) : frame_state :=
  { frame_table := table, pages := pages, pool := pool, swap_slots := [7],
    thread_lookup := fun _ => true,
    pagedir_is_dirty := fun _ _ => false,
    pagedir_is_accessed := fun _ a => bits a,
    pagedir := fun _ _ => none,
    current := 1, palloc_calls := 0,
    mmap_info := fun _ => { mapid := 0, offset := 0, length := 0 },
    written_back := [], swapped_out := [] }

/-- A page descriptor at `vaddr`, in memory, backed by the file system or not. -/
def mk_page (vaddr : Nat) (filesys : Bool) : page :=
  { vaddr := vaddr, in_memory := true, swap := false, filesys := filesys,
    memory_mapped := false, aux := 0 }

/-- A full pool and a table whose only frame holds a page backed by the file system;
page 2 waits for a frame. -/
def only_filesys_frame : frame_state :=
  frame_scene [{ page := 1, frame_addr := 0xC0100000, owner_id := 1, unused_count := 0 }]
    (fun n => if n = 1 then mk_page 0x08048000 true else mk_page 0x08049000 false)
    [] (fun _ => false)

/-- Three frames of pages that are not backed by the file system; the second has its
accessed bit set, the third has gone unused for a hundred sweeps. -/
def three_frames : frame_state :=
  frame_scene
    [{ page := 1, frame_addr := 0xC0100000, owner_id := 1, unused_count := 0 },
     { page := 2, frame_addr := 0xC0101000, owner_id := 1, unused_count := 0 },
     { page := 3, frame_addr := 0xC0102000, owner_id := 1, unused_count := 100 }]
    (fun n => mk_page (0x08048000 + n * 4096) false)
    [] (fun a => decide (a = 0xC0101000))

/-- Two lists of entries that differ in the counts at most. -/
def same_frames (l r : List frame) : Prop :=
  l.map (fun f => (f.page, f.frame_addr, f.owner_id))
    = r.map (fun f => (f.page, f.frame_addr, f.owner_id))

/-! ## `userprog/process.c`: the rendezvous of parent and child -/

/-- Modelled from the spec: `threads/thread.h` is not among the sources; the error value
of `tid_t`. -/
def TID_ERROR : Int := -1

/-- A call the running thread makes on the anchor lock or the condition variable of the
thread `t`. -/
inductive sync_call
  | lock_acquire (t : Nat)
  | cond_wait (t : Nat)
  | cond_signal (t : Nat)
  | lock_release (t : Nat)
  deriving DecidableEq, Repr

/-- What `process_load_setup` and `process_wait` see: the thread structures on the
running thread's `children` list in list order, the `tid` and `exit_status` members of
every thread structure, the anchors the running thread holds (named by their thread),
and the calls it has made, oldest first. The functions are modelled for any list;
nothing under `src` links a new thread into `children`, and `process_reachable` below
gives the states that the sources produce. -/
structure process_state where
  children : List Nat
  tid : Nat → Int
  exit_status : Nat → Int
  held : List Nat
  calls : List sync_call

/-- What the other threads have changed when a waiting thread runs again. -/
structure wake_up where
  children : List Nat
  exit_status : Nat → Int

/-- How a function of the running thread ends: it returns, it stays blocked in
`cond_wait` because nobody signals, or an assertion fails. -/
inductive outcome
  | returned (value : Int) (w : process_state)
  | blocked (w : process_state)
  | panic (f : fault)

/-- Modelled from the spec: `threads/synch.c` is not among the sources; acquiring a lock
the thread already holds is an error. -/
def lock_acquire (w : process_state) (t : Nat) : Except fault process_state :=
  if t ∈ w.held then Except.error fault.assert_lock_not_held
  else Except.ok { w with held := t :: w.held, calls := w.calls ++ [sync_call.lock_acquire t] }

/-- Modelled from the spec: `threads/synch.c` is not among the sources; the lock is
given up. -/
def lock_release (w : process_state) (t : Nat) : process_state :=
  { w with held := w.held.erase t, calls := w.calls ++ [sync_call.lock_release t] }

/-- Modelled from the spec: `threads/synch.c` is not among the sources; the first
waiter, if any, is made ready. -/
def cond_signal (w : process_state) (t : Nat) : process_state :=
  { w with calls := w.calls ++ [sync_call.cond_signal t] }

/-- Modelled from the spec: `threads/synch.c` is not among the sources; the thread
gives up the lock and sleeps until a signal, then holds the lock again. `env` tells what
the others have done by then, or `none` when no signal ever comes. -/
def cond_wait (env : Nat → process_state → Option wake_up) (w : process_state) (t : Nat) :
    Option process_state :=
  match env t w with
  | none => none
  | some u => some { w with children := u.children, exit_status := u.exit_status,
                            calls := w.calls ++ [sync_call.cond_wait t] }

/-- The loop of `process_load_setup` over `children`: at every entry with the new
thread's id the parent waits for the report and returns -1 at once when the child has
stored -1. The loop goes on with the entries that followed when it began. -/
def process_load_setup_loop (env : Nat → process_state → Option wake_up) (tid : Int) :
    List Nat → process_state → outcome
  | [], w => outcome.returned tid w
  | t :: rest, w =>
    if w.tid t = tid then
      match lock_acquire w t with
      | Except.error f => outcome.panic f
      | Except.ok w1 =>
        match cond_wait env w1 t with
        | none => outcome.blocked w1
        | some w2 =>
          if w2.exit_status t = -1 then outcome.returned (-1) w2
          else process_load_setup_loop env tid rest (lock_release (cond_signal w2 t) t)
    else process_load_setup_loop env tid rest w

/-- The body of `exec`. `page` tells whether `palloc_get_page` gave a page, `malloc n`
whether the allocation number `n` succeeds (0 for the setup data, then one for each
token), and `tid` is the result of `thread_create`. -/
def process_load_setup (env : Nat → process_state → Option wake_up) (page : Bool)
    (malloc : Nat → Bool) (file_name : List Nat) (tid : Int) (w : process_state) : outcome :=
  if page = false then outcome.returned TID_ERROR w
  else if malloc 0 = false then outcome.returned TID_ERROR w
  else if (List.range (strtok_r_loop (file_name.take (PGSIZE - 1)) []).length).all
      (fun i => malloc (i + 1)) = false then outcome.returned TID_ERROR w
  else if (process_load_setup_args file_name).1.isEmpty then
    outcome.panic fault.assert_list_not_empty
  else process_load_setup_loop env tid w.children w

/-- The loop of `process_wait` over `children`. -/
def process_wait_loop (env : Nat → process_state → Option wake_up) (child_tid : Int) :
    List Nat → process_state → outcome
  | [], w => outcome.returned (-1) w
  | t :: rest, w =>
    if w.tid t = child_tid then
      match lock_acquire w t with
      | Except.error f => outcome.panic f
      | Except.ok w1 =>
        match cond_wait env w1 t with
        | none => outcome.blocked w1
        | some w2 =>
          outcome.returned (w2.exit_status t) (lock_release (cond_signal w2 t) t)
    else process_wait_loop env child_tid rest w

/-- Wait for the child with the id `child_tid` and return its exit status. -/
def process_wait (env : Nat → process_state → Option wake_up) (child_tid : Int)
    (w : process_state) : outcome :=
  process_wait_loop env child_tid w.children w

/-- One behaviour of the other threads: the child `t` stores 1 or -1 in its
`exit_status` and signals, as `start_process` does on either outcome of `load`, and a
thread that is waiting on `t` at that moment runs again; no other condition variable is
signalled. -/
def start_process_report (t : Nat) (success : Bool) : Nat → process_state → Option wake_up :=
  fun c w =>
    if c = t then
      some { children := w.children,
             exit_status := Function.update w.exit_status t (if success then 1 else -1) }
    else none

/-- The exit of the child `t` as a parent waiting on it finds it: `exit_syscall` has
stored `status`, and `process_exit` has taken the child off the list before its
broadcast. -/
def process_exit_report (t : Nat) (status : Int) : Nat → process_state → Option wake_up :=
  fun c w =>
    if c = t then
      some { children := w.children.erase t,
             exit_status := Function.update w.exit_status t status }
    else none

/-- A parent with the children 5 and 6, whose ids are 5 and 6, holding no lock. -/
def two_children : process_state :=
  { children := [5, 6], tid := fun t => (t : Int), exit_status := fun _ => 0,
    held := [], calls := [] }

/-- Three frames of pages that are not backed by the file system: the first accessed and
dirty, the second neither, the third dirty only and unused for five sweeps. The bits are
set for the frame address and for the user address alike. -/
def accessed_dirty_frames : frame_state :=
  { frame_scene
      [{ page := 1, frame_addr := 0xC0100000, owner_id := 1, unused_count := 0 },
       { page := 2, frame_addr := 0xC0101000, owner_id := 1, unused_count := 0 },
       { page := 3, frame_addr := 0xC0102000, owner_id := 1, unused_count := 5 }]
      (fun n => mk_page (0x08048000 + n * 4096) false)
      [] (fun a => decide (a = 0xC0100000 ∨ a = 0x08049000)) with
    pagedir_is_dirty := fun _ a =>
      decide (a = 0xC0100000 ∨ a = 0x08049000 ∨ a = 0xC0102000 ∨ a = 0x0804B000) }

/-- States reached from `s0` by calls of the three entry points of `frame.c` that
return, with any thread running and any accessed and dirty bits in between. -/
inductive frame_reachable (s0 : frame_state) : frame_state → Prop
  | init : frame_reachable s0 s0
  | get_user_page {s s1 : frame_state} (page kernel_vaddr : Nat) :
      frame_reachable s0 s →
      frame_allocator_get_user_page s page = Except.ok (s1, kernel_vaddr) →
      frame_reachable s0 s1
  | free_user_page {s s1 : frame_state} (kernel_vaddr : Nat) :
      frame_reachable s0 s →
      frame_allocator_free_user_page s kernel_vaddr = Except.ok s1 →
      frame_reachable s0 s1
  | evict_page {s s1 : frame_state} :
      frame_reachable s0 s → frame_allocator_evict_page s = Except.ok s1 →
      frame_reachable s0 s1
  | switch {s : frame_state} (t : Int) (dirty accessed : Int → Nat → Bool) :
      frame_reachable s0 s →
      frame_reachable s0
        { s with current := t, pagedir_is_dirty := dirty, pagedir_is_accessed := accessed }

/-- What `frame.c` keeps of the relation between the frame table, the page descriptors
and the page directories: the keys of the table are distinct, the page directory of the
owner of every entry maps the user address of its page to the frame, and every page
descriptor marked as in memory has an entry. -/
structure frame_inv (s : frame_state) : Prop where
  keys : (s.frame_table.map (fun f => f.frame_addr)).Nodup
  mapped : ∀ f ∈ s.frame_table, s.pagedir f.owner_id (s.pages f.page).vaddr = some f.frame_addr
  in_memory : ∀ p, (s.pages p).in_memory = true → ∃ f ∈ s.frame_table, f.page = p

/-- One frame, holding page 1 of thread 1, which is marked as in memory and mapped; no
other page is in memory, the pool is empty and one swap slot is free. -/
def resident_page : frame_state :=
  { frame_scene [{ page := 1, frame_addr := 0xC0100000, owner_id := 1, unused_count := 0 }]
      (fun n => { mk_page (0x08048000 + n * 4096) false with in_memory := decide (n = 1) })
      [] (fun _ => false) with
    pagedir := fun t u => if t = 1 ∧ u = 0x08049000 then some 0xC0100000 else none }

/-- The scene of `two_sleepers` as the timer interrupt handler sees it. -/
def two_sleepers_in_handler : kernel :=
  { two_sleepers with in_external_intr := true }

/-- The ready list is in descending order of effective priority. -/
def ready_sorted (s : kernel) : Prop :=
  s.ready_list.Pairwise
    (fun a b => thread_explicit_get_priority s b ≤ thread_explicit_get_priority s a)

/-- A chain of three locks: thread 1 runs and holds lock 1; thread 2 holds lock 2 and is
blocked on lock 1; thread 3 holds lock 3 and is blocked on lock 2; the priority cell of
lock `k` is cell `k`, holding 30, 40 and 50 for the locks 1, 2 and 3. -/
def lock_chain : kernel :=
  { started false with
    threads := (fun t =>
      if t = 2 then { mk_thread THREAD_BLOCKED 30 with blocker := some 1 }
      else if t = 3 then { mk_thread THREAD_BLOCKED 40 with blocker := some 2 }
      else (started false).threads t),
    locks := (fun k => { holder := some k, priority := k }),
    mem := (fun c => if c = 1 then 30 else if c = 2 then 40 else if c = 3 then 50 else 0),
    next_tid := 5 }

/-- The `read_bytes` that `load` computes for a loadable segment, in 32-bit unsigned
arithmetic: the bytes of the file up to the end of the segment's data, counted from the
start of its first page. -/
def segment_read_bytes (phdr : Elf32_Phdr) : Nat :=
  if phdr.p_filesz > 0 then ((phdr.p_vaddr &&& PGMASK) + phdr.p_filesz) % 2 ^ 32 else 0

/-- The `zero_bytes` that `load` computes for a loadable segment, in 32-bit unsigned
arithmetic: what is left of the segment's pages after `read_bytes`. -/
def segment_zero_bytes (phdr : Elf32_Phdr) : Nat :=
  if phdr.p_filesz > 0 then
    (ROUND_UP (((phdr.p_vaddr &&& PGMASK) + phdr.p_memsz) % 2 ^ 32) PGSIZE + 2 ^ 32
      - segment_read_bytes phdr) % 2 ^ 32
  else ROUND_UP (((phdr.p_vaddr &&& PGMASK) + phdr.p_memsz) % 2 ^ 32) PGSIZE

/-- The process-level members of a thread as `init_thread` leaves them, for a thread
that holds no anchor: `list_init (&t->children)` makes the list empty. The ids of the
other threads are their numbers. -/
def fresh_parent : process_state :=
  { children := [], tid := fun t => (t : Int), exit_status := fun _ => 0,
    held := [], calls := [] }

/-- The process-level members of the running thread in the states that the sources
produce. `init_thread` makes `children` empty and nothing under `src` inserts into the
list: `thread_create` returns a new id without linking the thread. The running thread
calls `process_load_setup` and `process_wait`; `process_exit` of another thread removes
its `procelem`; the `tid` and `exit_status` members of the other threads change as they
are created and run. -/
inductive process_reachable : process_state → Prop
  | init (tid : Nat → Int) (exit_status : Nat → Int) :
      process_reachable
        { children := [], tid := tid, exit_status := exit_status, held := [], calls := [] }
  | load_setup {w w1 : process_state} (env : Nat → process_state → Option wake_up)
      (page : Bool) (malloc : Nat → Bool) (file_name : List Nat) (tid v : Int) :
      process_reachable w →
      process_load_setup env page malloc file_name tid w = outcome.returned v w1 →
      process_reachable w1
  | wait {w w1 : process_state} (env : Nat → process_state → Option wake_up)
      (child_tid v : Int) :
      process_reachable w →
      process_wait env child_tid w = outcome.returned v w1 →
      process_reachable w1
  | child_exit {w : process_state} (c : Nat) :
      process_reachable w →
      process_reachable { w with children := w.children.erase c }
  | members {w : process_state} (tid : Nat → Int) (exit_status : Nat → Int) :
      process_reachable w →
      process_reachable { w with tid := tid, exit_status := exit_status }

theorem list_insert_ordered_perm {α : Type} (less : α → α → Bool) (elem : α) (l : List α) :
    (list_insert_ordered less elem l).Perm (elem :: l) := by
  induction l with
  | nil => simp [list_insert_ordered]
  | cons e l ih =>
    unfold list_insert_ordered
    split
    · exact List.Perm.refl _
    · exact (List.Perm.cons e ih).trans (List.Perm.swap elem e l)

theorem mem_list_insert_ordered {α : Type} (less : α → α → Bool) (elem x : α) (l : List α) :
    x ∈ list_insert_ordered less elem l ↔ x = elem ∨ x ∈ l := by
  rw [(list_insert_ordered_perm less elem l).mem_iff]
  simp

theorem nodup_list_insert_ordered {α : Type} (less : α → α → Bool) (elem : α) (l : List α)
    (hl : l.Nodup) (he : elem ∉ l) : (list_insert_ordered less elem l).Nodup := by
  rw [(list_insert_ordered_perm less elem l).nodup_iff]
  exact List.nodup_cons.mpr ⟨he, hl⟩

theorem pairwise_list_insert_ordered {α : Type} (R : α → α → Prop) (less : α → α → Bool)
    (elem : α) (l : List α) (hl : l.Pairwise R)
    (hlt : ∀ x, less elem x = true → R elem x)
    (hge : ∀ x, less elem x = false → R x elem)
    (htrans : ∀ x y, R elem x → R x y → R elem y) :
    (list_insert_ordered less elem l).Pairwise R := by
  induction l with
  | nil => simp [list_insert_ordered]
  | cons e l ih =>
    have hl1 := List.pairwise_cons.mp hl
    unfold list_insert_ordered
    split
    · rename_i h
      refine List.pairwise_cons.mpr ⟨?_, hl⟩
      intro y hy
      rcases List.mem_cons.mp hy with rfl | hy
      · exact hlt _ h
      · exact htrans e y (hlt _ h) (hl1.1 y hy)
    · rename_i h
      refine List.pairwise_cons.mpr ⟨?_, ih hl1.2⟩
      intro y hy
      rcases (mem_list_insert_ordered less elem y l).mp hy with rfl | hy
      · exact hge _ (by simpa using h)
      · exact hl1.1 y hy

/-! ## Frame facts -/

theorem eff_congr {s s' : kernel} {t : Nat}
    (h1 : (s'.threads t).lock_list = (s.threads t).lock_list)
    (h2 : (s'.threads t).priority = (s.threads t).priority)
    (h3 : s'.locks = s.locks) (h4 : s'.mem = s.mem) :
    thread_explicit_get_priority s' t = thread_explicit_get_priority s t := by
  unfold thread_explicit_get_priority
  rw [h1, h2, h3, h4]

theorem eff_set_status (s : kernel) (u : Nat) (st : thread_status) (t : Nat) :
    thread_explicit_get_priority (set_status s u st) t = thread_explicit_get_priority s t := by
  apply eff_congr <;> by_cases h : t = u <;> simp [set_status, Function.update_apply, h]

theorem eff_update_ne (s : kernel) (u : Nat) (r : thread) (t : Nat) (h : t ≠ u) :
    thread_explicit_get_priority { s with threads := Function.update s.threads u r } t =
      thread_explicit_get_priority s t := by
  apply eff_congr <;> simp [Function.update_apply, h]

theorem queues_ok_congr {s s' : kernel} (h : queues_ok s)
    (hmode : s'.thread_mlfqs = s.thread_mlfqs) (hthreads : s'.threads = s.threads)
    (hlocks : s'.locks = s.locks) (hmem : s'.mem = s.mem)
    (hidle : s'.idle_thread = s.idle_thread) (hready : s'.ready_list = s.ready_list)
    (hmlfqs : s'.thread_mlfqs_queue = s.thread_mlfqs_queue)
    (hsleep : s'.sleeping_list = s.sleeping_list) (hnext : s.next_tid ≤ s'.next_tid) :
    queues_ok s' := by
  have heff : ∀ t, thread_explicit_get_priority s' t = thread_explicit_get_priority s t :=
    fun t => eff_congr (by rw [hthreads]) (by rw [hthreads]) hlocks hmem
  obtain ⟨h1, h2, h3, h4, h5, h6, h7, h8, h9, h10, h11, h12, h13, h14⟩ := h
  constructor
  · rw [hready, hthreads]; exact h1
  · rw [hmlfqs, hthreads]; exact h2
  · rw [hsleep, hthreads]; exact h3
  · rw [hready]; exact h4
  · rw [hmlfqs]; exact h5
  · rw [hsleep]; exact h6
  · rw [hmode, hready, hmlfqs]; exact h7
  · rw [hidle, hthreads]; exact h8
  · rw [hidle]; exact fun i hi => lt_of_lt_of_le (h9 i hi) hnext
  · rw [hready]; exact fun t ht => lt_of_lt_of_le (h10 t ht) hnext
  · rw [hmlfqs]; exact fun t ht => lt_of_lt_of_le (h11 t ht) hnext
  · rw [hsleep]; exact fun t ht => lt_of_lt_of_le (h12 t ht) hnext
  · rw [hsleep, hthreads]; exact h13
  · rw [hready]; simpa only [heff] using h14

/-- Rewriting the record of a thread that is on no queue keeps the queues in order, as long
as the idle thread is not put to sleep. -/
theorem queues_ok_update {s : kernel} (h : queues_ok s) (u : Nat) (r : thread)
    (hr : u ∉ s.ready_list) (hm : u ∉ s.thread_mlfqs_queue) (hs : u ∉ s.sleeping_list)
    (hi : s.idle_thread = some u → r.status ≠ THREAD_SLEEP) :
    queues_ok { s with threads := Function.update s.threads u r } := by
  obtain ⟨h1, h2, h3, h4, h5, h6, h7, h8, h9, h10, h11, h12, h13, h14⟩ := h
  have ne_of_mem : ∀ {l : List Nat} {t : Nat}, u ∉ l → t ∈ l → t ≠ u := by
    intro l t hu ht e; exact hu (e ▸ ht)
  constructor
  · intro t ht
    simpa [Function.update_apply, ne_of_mem hr ht] using h1 t ht
  · intro t ht
    simpa [Function.update_apply, ne_of_mem hm ht] using h2 t ht
  · intro t ht
    simpa [Function.update_apply, ne_of_mem hs ht] using h3 t ht
  · exact h4
  · exact h5
  · exact h6
  · exact h7
  · intro i hi'
    by_cases e : i = u
    · subst e; simpa [Function.update_apply] using hi hi'
    · simpa [Function.update_apply, e] using h8 i hi'
  · exact h9
  · exact h10
  · exact h11
  · exact h12
  · refine List.Pairwise.imp_of_mem ?_ h13
    intro a b ha hb hab
    simpa [Function.update_apply, ne_of_mem hs ha, ne_of_mem hs hb] using hab
  · refine List.Pairwise.imp_of_mem ?_ h14
    intro a b ha hb hab
    show thread_explicit_get_priority { s with threads := Function.update s.threads u r } b ≤
      thread_explicit_get_priority { s with threads := Function.update s.threads u r } a
    rw [eff_update_ne s u r a (ne_of_mem hr ha), eff_update_ne s u r b (ne_of_mem hr hb)]
    exact hab

theorem queues_ok_set_ready {s : kernel} (h : queues_ok s) (l : List Nat)
    (hmode : s.thread_mlfqs = false ∨ l = [])
    (hst : ∀ t ∈ l, (s.threads t).status = THREAD_READY) (hnd : l.Nodup)
    (hf : ∀ t ∈ l, t < s.next_tid)
    (hsorted : l.Pairwise
      (fun a b => thread_explicit_get_priority s b ≤ thread_explicit_get_priority s a)) :
    queues_ok { s with ready_list := l } := by
  obtain ⟨h1, h2, h3, h4, h5, h6, h7, h8, h9, h10, h11, h12, h13, h14⟩ := h
  refine ⟨hst, h2, h3, hnd, h5, h6, ?_, h8, h9, hf, h11, h12, h13, hsorted⟩
  show (if s.thread_mlfqs = true then l = [] else s.thread_mlfqs_queue = [])
  rcases hmode with hm | hl
  · simpa [hm] using h7
  · subst hl
    by_cases hm : s.thread_mlfqs = true
    · simp [hm]
    · simpa [hm] using h7

theorem queues_ok_set_mlfqs {s : kernel} (h : queues_ok s) (l : List Nat)
    (hmode : s.thread_mlfqs = true ∨ l = [])
    (hst : ∀ t ∈ l, (s.threads t).status = THREAD_READY) (hnd : l.Nodup)
    (hf : ∀ t ∈ l, t < s.next_tid) :
    queues_ok { s with thread_mlfqs_queue := l } := by
  obtain ⟨h1, h2, h3, h4, h5, h6, h7, h8, h9, h10, h11, h12, h13, h14⟩ := h
  refine ⟨h1, hst, h3, h4, hnd, h6, ?_, h8, h9, h10, hf, h12, h13, h14⟩
  show (if s.thread_mlfqs = true then s.ready_list = [] else l = [])
  rcases hmode with hm | hl
  · simpa [hm] using h7
  · subst hl
    by_cases hm : s.thread_mlfqs = true
    · simpa [hm] using h7
    · simp [hm]

theorem queues_ok_set_sleeping {s : kernel} (h : queues_ok s) (l : List Nat)
    (hst : ∀ t ∈ l, (s.threads t).status = THREAD_SLEEP) (hnd : l.Nodup)
    (hf : ∀ t ∈ l, t < s.next_tid)
    (hsorted : l.Pairwise
      (fun a b => (s.threads a).wakeup_tick ≤ (s.threads b).wakeup_tick)) :
    queues_ok { s with sleeping_list := l } := by
  obtain ⟨h1, h2, h3, h4, h5, h6, h7, h8, h9, h10, h11, h12, h13, h14⟩ := h
  exact ⟨h1, h2, hst, h4, h5, hnd, h7, h8, h9, h10, h11, hf, hsorted, h14⟩

/-- Ordered insertion of a ready thread into the ready list of the priority scheduler. -/
theorem queues_ok_ready_insert {s : kernel} (h : queues_ok s) (u : Nat)
    (hmode : s.thread_mlfqs = false) (hst : (s.threads u).status = THREAD_READY)
    (hr : u ∉ s.ready_list) (hf : u < s.next_tid) :
    queues_ok
      { s with ready_list := list_insert_ordered (has_higher_priority s) u s.ready_list } := by
  apply queues_ok_set_ready h _ (Or.inl hmode)
  · intro t ht
    rcases (mem_list_insert_ordered _ _ _ _).mp ht with rfl | ht
    · exact hst
    · exact h.ready_status t ht
  · exact nodup_list_insert_ordered _ _ _ h.ready_nodup hr
  · intro t ht
    rcases (mem_list_insert_ordered _ _ _ _).mp ht with rfl | ht
    · exact hf
    · exact h.ready_fresh t ht
  · apply pairwise_list_insert_ordered _ _ _ _ h.ready_sorted
    · intro x hx
      have := of_decide_eq_true hx
      exact le_of_lt this
    · intro x hx
      have := of_decide_eq_false hx
      exact not_lt.mp this
    · intro x y hx hy
      exact le_trans hy hx

/-- Ordered insertion of a ready thread into the MLFQ queue. -/
theorem queues_ok_mlfqs_insert {s : kernel} (h : queues_ok s) (u : Nat)
    (less : Nat → Nat → Bool)
    (hmode : s.thread_mlfqs = true) (hst : (s.threads u).status = THREAD_READY)
    (hr : u ∉ s.thread_mlfqs_queue) (hf : u < s.next_tid) :
    queues_ok
      { s with thread_mlfqs_queue := list_insert_ordered less u s.thread_mlfqs_queue } := by
  apply queues_ok_set_mlfqs h _ (Or.inl hmode)
  · intro t ht
    rcases (mem_list_insert_ordered _ _ _ _).mp ht with rfl | ht
    · exact hst
    · exact h.mlfqs_status t ht
  · exact nodup_list_insert_ordered _ _ _ h.mlfqs_nodup hr
  · intro t ht
    rcases (mem_list_insert_ordered _ _ _ _).mp ht with rfl | ht
    · exact hf
    · exact h.mlfqs_fresh t ht

/-- Ordered insertion of a sleeping thread into the sleeping list. -/
theorem queues_ok_sleeping_insert {s : kernel} (h : queues_ok s) (u : Nat)
    (hst : (s.threads u).status = THREAD_SLEEP)
    (hr : u ∉ s.sleeping_list) (hf : u < s.next_tid) :
    queues_ok
      { s with sleeping_list := list_insert_ordered (sleep_list_less_func s) u s.sleeping_list } := by
  apply queues_ok_set_sleeping h _
  · intro t ht
    rcases (mem_list_insert_ordered _ _ _ _).mp ht with rfl | ht
    · exact hst
    · exact h.sleeping_status t ht
  · exact nodup_list_insert_ordered _ _ _ h.sleeping_nodup hr
  · intro t ht
    rcases (mem_list_insert_ordered _ _ _ _).mp ht with rfl | ht
    · exact hf
    · exact h.sleeping_fresh t ht
  · apply pairwise_list_insert_ordered _ _ _ _ h.sleeping_sorted
    · intro x hx
      exact le_of_lt (of_decide_eq_true hx)
    · intro x hx
      exact not_lt.mp (of_decide_eq_false hx)
    · intro x y hx hy
      exact le_trans hx hy

/-- The state in which `schedule` leaves the kernel once it has chosen `next`: the queues
stay in order, and `next` is marked running. -/
theorem sched_inv_schedule_tail {s : kernel} (h : queues_ok s) (next : Nat)
    (hr : next ∉ s.ready_list) (hm : next ∉ s.thread_mlfqs_queue)
    (hs : next ∉ s.sleeping_list) (hf : next < s.next_tid)
    (hle : s.idle_thread ≠ some next → ∀ t ∈ s.ready_list,
      thread_explicit_get_priority s t ≤ thread_explicit_get_priority s next) :
    sched_inv (thread_schedule_tail s next) := by
  have hq : queues_ok (set_status s next THREAD_RUNNING) :=
    queues_ok_update h next _ hr hm hs (fun _ => by simp)
  refine ⟨queues_ok_congr hq rfl rfl rfl rfl rfl rfl rfl rfl (le_refl _), ?_, hf, ?_⟩
  · simp [thread_schedule_tail, set_status]
  · intro hi t ht
    have e : ∀ x, thread_explicit_get_priority (thread_schedule_tail s next) x =
        thread_explicit_get_priority s x := by
      intro x
      exact (eff_congr rfl rfl rfl rfl).trans (eff_set_status s next THREAD_RUNNING x)
    rw [e, e]
    exact hle hi t ht

theorem not_mem_sleeping_of_status {s : kernel} (h : queues_ok s) {t : Nat}
    (ht : (s.threads t).status ≠ THREAD_SLEEP) : t ∉ s.sleeping_list :=
  fun hm => ht (h.sleeping_status t hm)

theorem not_mem_ready_of_status {s : kernel} (h : queues_ok s) {t : Nat}
    (ht : (s.threads t).status ≠ THREAD_READY) : t ∉ s.ready_list :=
  fun hm => ht (h.ready_status t hm)

theorem not_mem_mlfqs_of_status {s : kernel} (h : queues_ok s) {t : Nat}
    (ht : (s.threads t).status ≠ THREAD_READY) : t ∉ s.thread_mlfqs_queue :=
  fun hm => ht (h.mlfqs_status t hm)

/-- A call of `schedule` that returns re-establishes the scheduler invariant from queues
that are in order. -/
theorem schedule_inv {s s' : kernel} (hq : queues_ok s) (h : schedule s = .ok s') :
    sched_inv s' ∧ s'.sleeping_list = s.sleeping_list ∧
      s'.in_external_intr = s.in_external_intr ∧ s'.thread_mlfqs = s.thread_mlfqs ∧
      s'.idle_thread = s.idle_thread ∧ s'.next_tid = s.next_tid := by
  unfold schedule at h
  by_cases hrun : (s.threads s.running).status = THREAD_RUNNING
  · simp [hrun] at h
  · simp only [hrun, if_false] at h
    have idle_case : ∀ i, s.idle_thread = some i → s.ready_list = [] →
        s.thread_mlfqs_queue = [] → sched_inv (thread_schedule_tail s i) := by
      intro i hi hr hm
      apply sched_inv_schedule_tail hq i
      · simp [hr]
      · simp [hm]
      · exact not_mem_sleeping_of_status hq (hq.idle_awake i hi)
      · exact hq.idle_fresh i hi
      · intro _ t ht
        simp [hr] at ht
    have hmode := hq.queue_mode
    by_cases hm : s.thread_mlfqs = true
    · rw [if_pos hm] at hmode
      cases hl : s.thread_mlfqs_queue with
      | nil =>
        have hn : next_thread_to_run s = (s.idle_thread, s) := by
          unfold next_thread_to_run; rw [if_pos hm, hl]
        rw [hn] at h
        cases hi : s.idle_thread with
        | none => rw [hi] at h; simp at h
        | some i =>
          rw [hi] at h
          cases h
          exact ⟨idle_case i hi hmode hl, rfl, rfl, rfl, hi, rfl⟩
      | cons n q =>
        have hn : next_thread_to_run s = (some n, { s with thread_mlfqs_queue := q }) := by
          unfold next_thread_to_run; rw [if_pos hm, hl]
        rw [hn] at h
        cases h
        have hnd := hq.mlfqs_nodup
        rw [hl] at hnd
        have hq1 : queues_ok { s with thread_mlfqs_queue := q } := by
          apply queues_ok_set_mlfqs hq q (Or.inl hm)
          · intro t ht; exact hq.mlfqs_status t (by rw [hl]; exact List.mem_cons_of_mem _ ht)
          · exact (List.nodup_cons.mp hnd).2
          · intro t ht; exact hq.mlfqs_fresh t (by rw [hl]; exact List.mem_cons_of_mem _ ht)
        have hn : (s.threads n).status = THREAD_READY :=
          hq.mlfqs_status n (by rw [hl]; exact List.mem_cons_self _ _)
        refine ⟨?_, rfl, rfl, rfl, rfl, rfl⟩
        apply sched_inv_schedule_tail hq1 n
        · show n ∉ s.ready_list
          rw [hmode]; exact List.not_mem_nil _
        · exact (List.nodup_cons.mp hnd).1
        · exact not_mem_sleeping_of_status hq (by rw [hn]; decide)
        · exact hq.mlfqs_fresh n (by rw [hl]; exact List.mem_cons_self _ _)
        · intro _ t ht
          have : t ∈ s.ready_list := ht
          simp [hmode] at this
    · rw [if_neg hm] at hmode
      cases hl : s.ready_list with
      | nil =>
        have hn : next_thread_to_run s = (s.idle_thread, s) := by
          unfold next_thread_to_run; rw [if_neg hm, hl]
        rw [hn] at h
        cases hi : s.idle_thread with
        | none => rw [hi] at h; simp at h
        | some i =>
          rw [hi] at h
          cases h
          exact ⟨idle_case i hi hl hmode, rfl, rfl, rfl, hi, rfl⟩
      | cons n q =>
        have hn : next_thread_to_run s = (some n, { s with ready_list := q }) := by
          unfold next_thread_to_run; rw [if_neg hm, hl]
        rw [hn] at h
        cases h
        have hnd := hq.ready_nodup
        have hso := hq.ready_sorted
        rw [hl] at hnd hso
        have hq1 : queues_ok { s with ready_list := q } := by
          apply queues_ok_set_ready hq q (Or.inl (by simpa using hm))
          · intro t ht; exact hq.ready_status t (by rw [hl]; exact List.mem_cons_of_mem _ ht)
          · exact (List.nodup_cons.mp hnd).2
          · intro t ht; exact hq.ready_fresh t (by rw [hl]; exact List.mem_cons_of_mem _ ht)
          · exact (List.pairwise_cons.mp hso).2
        have hn : (s.threads n).status = THREAD_READY :=
          hq.ready_status n (by rw [hl]; exact List.mem_cons_self _ _)
        refine ⟨?_, rfl, rfl, rfl, rfl, rfl⟩
        apply sched_inv_schedule_tail hq1 n
        · exact (List.nodup_cons.mp hnd).1
        · show n ∉ s.thread_mlfqs_queue
          rw [hmode]; exact List.not_mem_nil _
        · exact not_mem_sleeping_of_status hq (by rw [hn]; decide)
        · exact hq.ready_fresh n (by rw [hl]; exact List.mem_cons_self _ _)
        · intro _ t ht
          exact (List.pairwise_cons.mp hso).1 t ht

theorem has_higher_priority_set_status (s : kernel) (u : Nat) (st : thread_status) :
    has_higher_priority (set_status s u st) = has_higher_priority s := by
  funext a b
  simp only [has_higher_priority, eff_set_status]

/-- A call of `thread_yield` that returns re-establishes the scheduler invariant, whatever
the priority of the running thread was. -/
theorem thread_yield_inv {s s' : kernel} (hq : queues_ok s) (hrf : s.running < s.next_tid)
    (h : thread_yield s = .ok s') :
    sched_inv s' ∧ s'.sleeping_list = s.sleeping_list ∧
      s'.in_external_intr = s.in_external_intr ∧ s'.thread_mlfqs = s.thread_mlfqs ∧
      s'.idle_thread = s.idle_thread ∧ s'.next_tid = s.next_tid := by
  unfold thread_yield thread_current at h
  by_cases hrun : (s.threads s.running).status = THREAD_RUNNING
  · rw [if_pos hrun] at h
    by_cases hintr : s.in_external_intr = true
    · simp [hintr] at h
    · simp only [] at h
      rw [if_neg hintr] at h
      have hnr : s.running ∉ s.ready_list :=
        not_mem_ready_of_status hq (by rw [hrun]; decide)
      have hnm : s.running ∉ s.thread_mlfqs_queue :=
        not_mem_mlfqs_of_status hq (by rw [hrun]; decide)
      have hns : s.running ∉ s.sleeping_list :=
        not_mem_sleeping_of_status hq (by rw [hrun]; decide)
      have hq2 : queues_ok (set_status s s.running THREAD_READY) :=
        queues_ok_update hq _ _ hnr hnm hns (fun _ => by simp)
      have hst2 : ((set_status s s.running THREAD_READY).threads s.running).status =
          THREAD_READY := by simp [set_status]
      by_cases hidle : s.idle_thread = some s.running
      · rw [if_neg (not_not.mpr hidle)] at h
        have := schedule_inv hq2 h
        exact this
      · rw [if_pos hidle] at h
        by_cases hm : s.thread_mlfqs = true
        · rw [if_pos hm] at h
          have hq3 := queues_ok_mlfqs_insert hq2 s.running (thread_mlfqs_less_function s)
            hm hst2 hnm hrf
          have := schedule_inv hq3 h
          exact this
        · rw [if_neg hm] at h
          have hm' : s.thread_mlfqs = false := by simpa using hm
          have hq3 := queues_ok_ready_insert hq2 s.running hm' hst2 hnr hrf
          rw [has_higher_priority_set_status] at hq3
          have := schedule_inv hq3 h
          exact this
  · rw [if_neg hrun] at h
    simp at h

/-- A call of `thread_enqueue` that returns, on a thread that is blocked or was just taken
off the sleeping list, keeps the scheduler invariant and leaves the sleeping list alone. -/
theorem thread_enqueue_inv {s s' : kernel} {t : Nat} (hs : sched_inv s)
    (hst : (s.threads t).status = THREAD_BLOCKED ∨ (s.threads t).status = THREAD_SLEEP)
    (hnsl : t ∉ s.sleeping_list) (hf : t < s.next_tid)
    (h : thread_enqueue t s = .ok s') :
    sched_inv s' ∧ s'.sleeping_list = s.sleeping_list ∧
      s'.in_external_intr = s.in_external_intr ∧ s'.thread_mlfqs = s.thread_mlfqs ∧
      s'.idle_thread = s.idle_thread ∧ s'.next_tid = s.next_tid := by
  obtain ⟨hq, hrun, hrf, hle⟩ := hs
  have hne : s.running ≠ t := by
    intro e; rw [e] at hrun; rcases hst with h1 | h1 <;> rw [h1] at hrun <;> cases hrun
  have hnr : t ∉ s.ready_list :=
    not_mem_ready_of_status hq (by rcases hst with h1 | h1 <;> rw [h1] <;> decide)
  have hnm : t ∉ s.thread_mlfqs_queue :=
    not_mem_mlfqs_of_status hq (by rcases hst with h1 | h1 <;> rw [h1] <;> decide)
  have hq0 : queues_ok (set_status s t THREAD_READY) :=
    queues_ok_update hq _ _ hnr hnm hnsl (fun _ => by simp)
  have hst0 : ((set_status s t THREAD_READY).threads t).status = THREAD_READY := by
    simp [set_status]
  have hrun0 : ((set_status s t THREAD_READY).threads (set_status s t THREAD_READY).running).status
      = THREAD_RUNNING := by
    show ((set_status s t THREAD_READY).threads s.running).status = THREAD_RUNNING
    simpa [set_status, Function.update_apply, hne] using hrun
  have hcur : thread_current (set_status s t THREAD_READY) = .ok s.running := by
    unfold thread_current; rw [if_pos hrun0]; rfl
  have hgp : thread_get_priority (set_status s t THREAD_READY) =
      .ok (thread_explicit_get_priority (set_status s t THREAD_READY) s.running) := by
    unfold thread_get_priority; rw [hcur]
  unfold thread_enqueue at h
  simp only [] at h
  by_cases hm : s.thread_mlfqs = true
  · have hm0 : (set_status s t THREAD_READY).thread_mlfqs = true := hm
    rw [if_pos hm0, hgp] at h
    simp only [] at h
    have hq1 := queues_ok_mlfqs_insert hq0 t
      (thread_mlfqs_less_function (set_status s t THREAD_READY)) hm0 hst0 hnm hf
    have hready : s.ready_list = [] := by simpa [hm] using hq.queue_mode
    split at h
    · split at h
      · cases h
        refine ⟨⟨queues_ok_congr hq1 rfl rfl rfl rfl rfl rfl rfl rfl (le_refl _), hrun0, hrf, ?_⟩,
          rfl, rfl, rfl, rfl, rfl⟩
        intro _ x hx
        have : x ∈ s.ready_list := hx
        rw [hready] at this
        exact absurd this (List.not_mem_nil _)
      · have := thread_yield_inv hq1 hrf h
        exact this
    · cases h
      refine ⟨⟨hq1, hrun0, hrf, ?_⟩, rfl, rfl, rfl, rfl, rfl⟩
      intro _ x hx
      have : x ∈ s.ready_list := hx
      rw [hready] at this
      exact absurd this (List.not_mem_nil _)
  · have hm0 : ¬ (set_status s t THREAD_READY).thread_mlfqs = true := hm
    have hm' : (set_status s t THREAD_READY).thread_mlfqs = false := by simpa using hm
    rw [if_neg hm0, hgp] at h
    simp only [] at h
    rw [hcur] at h
    simp only [] at h
    split at h
    · rename_i hc
      have hq1 : queues_ok { set_status s t THREAD_READY with
          ready_list := t :: (set_status s t THREAD_READY).ready_list } := by
        apply queues_ok_set_ready hq0 _ (Or.inl hm')
        · intro x hx
          rcases List.mem_cons.mp hx with rfl | hx
          · exact hst0
          · exact hq0.ready_status x hx
        · exact List.nodup_cons.mpr ⟨hnr, hq.ready_nodup⟩
        · intro x hx
          rcases List.mem_cons.mp hx with rfl | hx
          · exact hf
          · exact hq.ready_fresh x hx
        · refine List.pairwise_cons.mpr ⟨?_, hq0.ready_sorted⟩
          intro x hx
          have h1 := hle hc.1 x hx
          rw [eff_set_status, eff_set_status]
          have h2 := hc.2
          rw [eff_set_status, eff_set_status] at h2
          exact le_trans h1 (le_of_lt h2)
      have := thread_yield_inv hq1 hrf h
      exact this
    · rename_i hc
      cases h
      have hq1 := queues_ok_ready_insert hq0 t hm' hst0 hnr hf
      refine ⟨⟨hq1, hrun0, hrf, ?_⟩, rfl, rfl, rfl, rfl, rfl⟩
      intro hi x hx
      have hi' : s.idle_thread ≠ some s.running := hi
      have e : ∀ y, thread_explicit_get_priority
          { set_status s t THREAD_READY with
            ready_list := list_insert_ordered
              (has_higher_priority (set_status s t THREAD_READY)) t
              (set_status s t THREAD_READY).ready_list } y =
          thread_explicit_get_priority s y := by
        intro y
        exact (eff_congr rfl rfl rfl rfl).trans (eff_set_status s t THREAD_READY y)
      show thread_explicit_get_priority _ x ≤ thread_explicit_get_priority _ s.running
      rw [e, e]
      rcases (mem_list_insert_ordered _ _ _ _).mp hx with rfl | hx
      · have h2 : ¬ (thread_explicit_get_priority (set_status s x THREAD_READY) x >
            thread_explicit_get_priority (set_status s x THREAD_READY) s.running) :=
          fun h3 => hc ⟨hi', h3⟩
        rw [eff_set_status, eff_set_status] at h2
        exact not_lt.mp h2
      · exact hle hi' x hx

theorem sched_inv_congr {s s' : kernel} (h : sched_inv s)
    (hmode : s'.thread_mlfqs = s.thread_mlfqs) (hthreads : s'.threads = s.threads)
    (hlocks : s'.locks = s.locks) (hmem : s'.mem = s.mem)
    (hidle : s'.idle_thread = s.idle_thread) (hready : s'.ready_list = s.ready_list)
    (hmlfqs : s'.thread_mlfqs_queue = s.thread_mlfqs_queue)
    (hsleep : s'.sleeping_list = s.sleeping_list) (hnext : s.next_tid ≤ s'.next_tid)
    (hrunning : s'.running = s.running) :
    sched_inv s' := by
  have heff : ∀ t, thread_explicit_get_priority s' t = thread_explicit_get_priority s t :=
    fun t => eff_congr (by rw [hthreads]) (by rw [hthreads]) hlocks hmem
  obtain ⟨hq, hrun, hrf, hle⟩ := h
  refine ⟨queues_ok_congr hq hmode hthreads hlocks hmem hidle hready hmlfqs hsleep hnext,
    ?_, ?_, ?_⟩
  · rw [hrunning, hthreads]; exact hrun
  · rw [hrunning]; exact lt_of_lt_of_le hrf hnext
  · rw [hidle, hrunning, hready]
    intro hi t ht
    rw [heff, heff]
    exact hle hi t ht

/-- Rewriting the record of a thread that is neither running nor queued keeps the
scheduler invariant. -/
theorem sched_inv_update {s : kernel} (h : sched_inv s) (u : Nat) (r : thread)
    (hr : u ∉ s.ready_list) (hm : u ∉ s.thread_mlfqs_queue) (hs : u ∉ s.sleeping_list)
    (hi : s.idle_thread = some u → r.status ≠ THREAD_SLEEP) (hu : u ≠ s.running) :
    sched_inv { s with threads := Function.update s.threads u r } := by
  obtain ⟨hq, hrun, hrf, hle⟩ := h
  refine ⟨queues_ok_update hq u r hr hm hs hi, ?_, hrf, ?_⟩
  · show ((Function.update s.threads u r) s.running).status = THREAD_RUNNING
    rw [Function.update_noteq (Ne.symm hu)]; exact hrun
  · intro hidle t ht
    have ht' : t ∈ s.ready_list := ht
    have htu : t ≠ u := fun e => hr (e ▸ ht')
    show thread_explicit_get_priority { s with threads := Function.update s.threads u r } t ≤
      thread_explicit_get_priority { s with threads := Function.update s.threads u r } s.running
    rw [eff_update_ne s u r t htu, eff_update_ne s u r s.running (Ne.symm hu)]
    exact hle hidle t ht'

theorem thread_unblock_inv {s s' : kernel} {t : Nat} (hs : sched_inv s)
    (h : thread_unblock t s = .ok s') :
    sched_inv s' ∧ s'.in_external_intr = s.in_external_intr := by
  unfold thread_unblock at h
  split at h
  · rename_i ht
    have hf : t < s.next_tid := (of_decide_eq_true ht).2
    split at h
    · rename_i hb
      have hnsl : t ∉ s.sleeping_list :=
        not_mem_sleeping_of_status hs.queues (by rw [hb]; decide)
      have := thread_enqueue_inv hs (Or.inl hb) hnsl hf h
      exact ⟨this.1, this.2.2.1⟩
    · simp at h
  · simp at h

theorem thread_set_priority_inv {s s' : kernel} (hs : sched_inv s) (p : Int)
    (h : thread_set_priority p s = .ok s') : sched_inv s' := by
  unfold thread_set_priority thread_current at h
  rw [if_pos hs.running_status] at h
  simp only [] at h
  have hrun := hs.running_status
  have hq := hs.queues
  have hq1 := queues_ok_update hq s.running { s.threads s.running with priority := p }
    (not_mem_ready_of_status hq (by rw [hrun]; decide))
    (not_mem_mlfqs_of_status hq (by rw [hrun]; decide))
    (not_mem_sleeping_of_status hq (by rw [hrun]; decide))
    (fun _ => by rw [hrun]; decide)
  exact (thread_yield_inv hq1 hs.running_fresh h).1

theorem thread_block_inv {s s' : kernel} (hs : sched_inv s)
    (h : thread_block s = .ok s') : sched_inv s' := by
  unfold thread_block thread_current at h
  split at h
  · simp at h
  · rw [if_pos hs.running_status] at h
    simp only [] at h
    have hrun := hs.running_status
    have hq := hs.queues
    have hq1 := queues_ok_update hq s.running
      { s.threads s.running with status := THREAD_BLOCKED }
      (not_mem_ready_of_status hq (by rw [hrun]; decide))
      (not_mem_mlfqs_of_status hq (by rw [hrun]; decide))
      (not_mem_sleeping_of_status hq (by rw [hrun]; decide))
      (fun _ => by simp)
    exact (schedule_inv hq1 h).1

theorem sleep_list_less_func_congr {s s' : kernel}
    (h : ∀ a, (s'.threads a).wakeup_tick = (s.threads a).wakeup_tick) :
    sleep_list_less_func s' = sleep_list_less_func s := by
  funext a b
  simp only [sleep_list_less_func, h]

theorem thread_sleep_inv {s s' : kernel} (hs : sched_inv s) (now ticks : Int)
    (hidle : s.idle_thread ≠ some s.running)
    (h : thread_sleep now ticks s = .ok s') : sched_inv s' := by
  unfold thread_sleep thread_current at h
  split at h
  · simp at h
  · rw [if_pos hs.running_status] at h
    simp only [] at h
    have hrun := hs.running_status
    have hq := hs.queues
    have hnsl := not_mem_sleeping_of_status hq (show (s.threads s.running).status ≠ THREAD_SLEEP
      by rw [hrun]; decide)
    have hqA := queues_ok_update hq s.running
      { s.threads s.running with wakeup_tick := now + ticks, status := THREAD_SLEEP }
      (not_mem_ready_of_status hq (by rw [hrun]; decide))
      (not_mem_mlfqs_of_status hq (by rw [hrun]; decide))
      hnsl (fun hi => absurd hi hidle)
    have hqB := queues_ok_sleeping_insert hqA s.running
      (by simp) hnsl hs.running_fresh
    have hless : sleep_list_less_func
        { s with
          threads :=
            Function.update s.threads s.running
              { s.threads s.running with wakeup_tick := now + ticks, status := THREAD_SLEEP } } =
        sleep_list_less_func
        { s with
          threads :=
            Function.update s.threads s.running
              { s.threads s.running with wakeup_tick := now + ticks } } := by
      apply sleep_list_less_func_congr
      intro a
      by_cases e : a = s.running <;> simp [Function.update_apply, e]
    rw [hless] at hqB
    refine (schedule_inv ?_ h).1
    exact queues_ok_congr hqB rfl (by simp [set_status]) rfl rfl rfl rfl rfl rfl (le_refl _)

theorem parked_update {s : kernel} {t : Nat} (h : parked s t) (r : thread)
    (hr : r.status = THREAD_BLOCKED) :
    parked { s with threads := Function.update s.threads t r } t := by
  obtain ⟨hs, hb, hne⟩ := h
  have hq := hs.queues
  refine ⟨sched_inv_update hs t r
    (not_mem_ready_of_status hq (by rw [hb]; decide))
    (not_mem_mlfqs_of_status hq (by rw [hb]; decide))
    (not_mem_sleeping_of_status hq (by rw [hb]; decide))
    (fun _ => by rw [hr]; decide) hne, ?_, hne⟩
  simp [hr]

theorem parked_next_tid {s : kernel} {t : Nat} (h : parked s t) :
    parked { s with next_tid := s.next_tid + 1 } t :=
  ⟨sched_inv_congr h.1 rfl rfl rfl rfl rfl rfl rfl rfl (Nat.le_succ _) rfl, h.2.1, h.2.2⟩

theorem init_thread_parked {s s1 : kernel} {t : Nat} {p : Int} (hs : sched_inv s)
    (ht : s.next_tid ≤ t) (h : init_thread s t p = .ok s1) :
    parked s1 t ∧ s1.next_tid = s.next_tid ∧ s1.thread_mlfqs = s.thread_mlfqs := by
  have hq := hs.queues
  have fresh : ∀ {l : List Nat}, (∀ x ∈ l, x < s.next_tid) → t ∉ l :=
    fun hl hm => absurd (hl t hm) (not_lt.mpr ht)
  have hne : t ≠ s.running := fun e => absurd hs.running_fresh (not_lt.mpr (e ▸ ht))
  have hidle : s.idle_thread ≠ some t := fun e => absurd (hq.idle_fresh t e) (not_lt.mpr ht)
  have h0 : parked
      { s with threads := Function.update s.threads t (mk_thread THREAD_BLOCKED 0) } t := by
    refine ⟨sched_inv_update hs t _ (fresh hq.ready_fresh) (fresh hq.mlfqs_fresh)
      (fresh hq.sleeping_fresh) (fun e => absurd e hidle) hne, ?_, hne⟩
    simp [mk_thread]
  unfold init_thread at h
  split at h
  · simp only [] at h
    split at h
    · rename_i hm
      unfold thread_mlfqs_recompute_priority thread_mlfqs_get_recent_cpu
        thread_mlfqs_get_nice at h
      rw [if_pos hm] at h
      simp only [if_pos hm] at h
      cases h
      exact ⟨parked_update h0 _ (by simp [mk_thread]), rfl, rfl⟩
    · cases h
      exact ⟨parked_update h0 _ (by simp [mk_thread]), rfl, rfl⟩
  · simp at h

theorem thread_create_inv {s s' : kernel} (hs : sched_inv s) (page : Bool) (p : Int)
    (h : thread_create page p s = .ok s') : sched_inv s' := by
  unfold thread_create at h
  split at h
  · simp only [] at h
    split at h
    · simp at h
    · rename_i s1 h1
      obtain ⟨hp1, hn1, hm1⟩ := init_thread_parked hs (le_refl _) h1
      have hp3 := parked_update (parked_next_tid hp1)
        { s1.threads s.next_tid with wakeup_tick := 0 } hp1.2.1
      split at h
      · split at h
        · simp at h
        · rename_i n hn
          have hp4 := parked_update hp3
            { (Function.update s1.threads s.next_tid
                { s1.threads s.next_tid with wakeup_tick := 0 }) s.next_tid with nice := n }
            (by simpa using hp1.2.1)
          exact (thread_unblock_inv hp4.1 h).1
      · exact (thread_unblock_inv hp3.1 h).1
  · cases h
    exact hs

theorem sched_inv_drop_sleeping {s : kernel} (hs : sched_inv s) (t : Nat) (rest : List Nat)
    (hl : s.sleeping_list = t :: rest) : sched_inv { s with sleeping_list := rest } := by
  obtain ⟨hq, hrun, hrf, hle⟩ := hs
  have hnd := hq.sleeping_nodup
  have hso := hq.sleeping_sorted
  rw [hl] at hnd hso
  refine ⟨queues_ok_set_sleeping hq rest ?_ (List.nodup_cons.mp hnd).2 ?_
    (List.pairwise_cons.mp hso).2, hrun, hrf, hle⟩
  · intro x hx; exact hq.sleeping_status x (by rw [hl]; exact List.mem_cons_of_mem _ hx)
  · intro x hx; exact hq.sleeping_fresh x (by rw [hl]; exact List.mem_cons_of_mem _ hx)

theorem thread_sleep_ticker_loop_inv (now : Int) :
    ∀ (l : List Nat) (s s' : kernel), sched_inv s → s.sleeping_list = l →
      thread_sleep_ticker_loop now l s = .ok s' →
      sched_inv s' ∧ s'.in_external_intr = s.in_external_intr := by
  intro l
  induction l with
  | nil =>
    intro s s' hs _ h
    unfold thread_sleep_ticker_loop at h
    cases h
    exact ⟨hs, rfl⟩
  | cons t rest ih =>
    intro s s' hs hl h
    unfold thread_sleep_ticker_loop at h
    split at h
    · cases h
      exact ⟨hs, rfl⟩
    · simp only [] at h
      split at h
      · rename_i hst
        split at h
        · simp at h
        · rename_i s2 h2
          have hs1 := sched_inv_drop_sleeping hs t rest hl
          have hnd := hs.queues.sleeping_nodup
          rw [hl] at hnd
          have hf : t < s.next_tid :=
            hs.queues.sleeping_fresh t (by rw [hl]; exact List.mem_cons_self _ _)
          obtain ⟨a, b, c, _⟩ :=
            thread_enqueue_inv hs1 (Or.inr hst) (List.nodup_cons.mp hnd).1 hf h2
          obtain ⟨d, e⟩ := ih s2 s' a b h
          exact ⟨d, e.trans c⟩
      · simp at h

theorem in_external_interrupt_inv {f : kernel → Except fault kernel}
    (hf : ∀ s s', sched_inv s → f s = .ok s' → sched_inv s')
    {s s' : kernel} (hs : sched_inv s) (h : in_external_interrupt f s = .ok s') :
    sched_inv s' := by
  unfold in_external_interrupt at h
  split at h
  · simp at h
  · rename_i s1 h1
    cases h
    have h0 : sched_inv { s with in_external_intr := true } :=
      sched_inv_congr hs rfl rfl rfl rfl rfl rfl rfl rfl (le_refl _) rfl
    exact sched_inv_congr (hf _ _ h0 h1) rfl rfl rfl rfl rfl rfl rfl rfl (le_refl _) rfl

/-- Every entry point that returns keeps the scheduler invariant. -/
theorem run_op_inv {s s' : kernel} (op : kernel_op) (hs : sched_inv s)
    (h : run_op op s = .ok s') : sched_inv s' := by
  cases op with
  | create page priority => exact thread_create_inv hs page priority h
  | unblock t from_handler =>
    cases from_handler with
    | false => exact (thread_unblock_inv hs h).1
    | true =>
      exact in_external_interrupt_inv (fun a b ha hab => (thread_unblock_inv ha hab).1) hs h
  | yield => exact (thread_yield_inv hs.queues hs.running_fresh h).1
  | set_priority p => exact thread_set_priority_inv hs p h
  | sleep now ticks =>
    change (if s.idle_thread = some s.running then Except.ok s
      else thread_sleep now ticks s) = Except.ok s' at h
    split at h
    · cases h; exact hs
    · rename_i hi
      exact thread_sleep_inv hs now ticks hi h
  | tick now =>
    exact in_external_interrupt_inv
      (fun a b ha hab => (thread_sleep_ticker_loop_inv now _ a b ha rfl hab).1) hs h
  | block => exact thread_block_inv hs h

theorem reachable_inv {s0 s : kernel} (h0 : sched_inv s0) (h : reachable s0 s) :
    sched_inv s := by
  induction h with
  | init => exact h0
  | step op _ hstep ih => exact run_op_inv op ih hstep

theorem reachable_trans_exec (ops : List kernel_op) :
    ∀ (s0 s : kernel), reachable s0 s → reachable s0 (exec ops s) := by
  induction ops with
  | nil => intro s0 s h; exact h
  | cons op ops ih =>
    intro s0 s h
    unfold exec
    split
    · rename_i s1 h1
      exact ih s0 s1 (reachable.step op h h1)
    · exact ih s0 s h

theorem started_inv (mlfqs : Bool) : sched_inv (started mlfqs) := by
  refine ⟨⟨?_, ?_, ?_, ?_, ?_, ?_, ?_, ?_, ?_, ?_, ?_, ?_, ?_, ?_⟩, ?_, ?_, ?_⟩ <;>
    simp [started, mk_thread]

/-! ## What rescheduling leaves alone -/

theorem same_attrs_refl (a : thread) : same_attrs a a := ⟨rfl, rfl, rfl, rfl, rfl, rfl⟩

theorem same_attrs_trans {a b c : thread} (h1 : same_attrs a b) (h2 : same_attrs b c) :
    same_attrs a c :=
  ⟨h1.1.trans h2.1, h1.2.1.trans h2.2.1, h1.2.2.1.trans h2.2.2.1,
    h1.2.2.2.1.trans h2.2.2.2.1, h1.2.2.2.2.1.trans h2.2.2.2.2.1,
    h1.2.2.2.2.2.trans h2.2.2.2.2.2⟩

theorem ctx_frame_refl (s : kernel) : ctx_frame s s := ⟨rfl, rfl, rfl⟩

theorem ctx_frame_trans {a b c : kernel} (h1 : ctx_frame a b) (h2 : ctx_frame b c) :
    ctx_frame a c :=
  ⟨h2.1.trans h1.1, h2.2.1.trans h1.2.1, h2.2.2.trans h1.2.2⟩

theorem sleep_frame_refl (s : kernel) : sleep_frame s s :=
  ⟨rfl, rfl, rfl, fun _ => same_attrs_refl _, ctx_frame_refl s⟩

theorem sleep_frame_trans {a b c : kernel} (h1 : sleep_frame a b) (h2 : sleep_frame b c) :
    sleep_frame a c :=
  ⟨h2.1.trans h1.1, h2.2.1.trans h1.2.1, h2.2.2.1.trans h1.2.2.1,
    fun x => same_attrs_trans (h2.2.2.2.1 x) (h1.2.2.2.1 x),
    ctx_frame_trans h1.2.2.2.2 h2.2.2.2.2⟩

theorem sleep_frame_of_eq {s s' : kernel} (h1 : s'.sleeping_list = s.sleeping_list)
    (h2 : s'.locks = s.locks) (h3 : s'.mem = s.mem) (h4 : s'.threads = s.threads)
    (h5 : ctx_frame s s') :
    sleep_frame s s' :=
  ⟨h1, h2, h3, fun x => by rw [h4]; exact same_attrs_refl _, h5⟩

theorem sleep_frame_ctx {s s' : kernel} (h : sleep_frame s s') : ctx_frame s s' := h.2.2.2.2

theorem sleep_frame_wakeup {s s' : kernel} (h : sleep_frame s s') (x : Nat) :
    (s'.threads x).wakeup_tick = (s.threads x).wakeup_tick := (h.2.2.2.1 x).2.2.2.1

theorem sleep_frame_eff {s s' : kernel} (h : sleep_frame s s') (x : Nat) :
    thread_explicit_get_priority s' x = thread_explicit_get_priority s x :=
  eff_congr (h.2.2.2.1 x).2.1 (h.2.2.2.1 x).1 h.2.1 h.2.2.1

theorem sleep_frame_set_status (s : kernel) (t : Nat) (st : thread_status) :
    sleep_frame s (set_status s t st) := by
  refine ⟨rfl, rfl, rfl, fun x => ?_, ctx_frame_refl s⟩
  by_cases e : x = t
  · subst e
    simp [set_status, same_attrs]
  · simp [set_status, Function.update_apply, e, same_attrs]

theorem schedule_frame {s s' : kernel} (h : schedule s = .ok s') : sleep_frame s s' := by
  unfold schedule at h
  simp only [] at h
  split at h
  · simp at h
  · split at h
    · simp at h
    · rename_i next hn
      cases h
      have h2 : sleep_frame s (next_thread_to_run s).2 := by
        unfold next_thread_to_run
        split <;> split <;> exact (sleep_frame_of_eq rfl rfl rfl rfl ⟨rfl, rfl, rfl⟩)
      have h3 : sleep_frame (next_thread_to_run s).2
          (thread_schedule_tail (next_thread_to_run s).2 next) :=
        sleep_frame_trans (sleep_frame_set_status _ next THREAD_RUNNING) (sleep_frame_of_eq rfl rfl rfl rfl ⟨rfl, rfl, rfl⟩)
      exact sleep_frame_trans h2 h3

theorem thread_yield_frame {s s' : kernel} (h : thread_yield s = .ok s') : sleep_frame s s' := by
  unfold thread_yield at h
  split at h
  · simp at h
  · split at h
    · simp at h
    · refine sleep_frame_trans ?_ (schedule_frame h)
      refine sleep_frame_trans ?_ (sleep_frame_set_status _ _ _)
      split
      · split <;> exact (sleep_frame_of_eq rfl rfl rfl rfl ⟨rfl, rfl, rfl⟩)
      · exact sleep_frame_refl s

theorem thread_enqueue_frame {s s' : kernel} {t : Nat} (h : thread_enqueue t s = .ok s') :
    sleep_frame s s' := by
  have h0 := sleep_frame_set_status s t THREAD_READY
  unfold thread_enqueue at h
  simp only [] at h
  split at h
  · split at h
    · simp at h
    · split at h
      · split at h
        · cases h
          exact sleep_frame_trans h0 (sleep_frame_of_eq rfl rfl rfl rfl ⟨rfl, rfl, rfl⟩)
        · have h1 := thread_yield_frame h
          exact sleep_frame_trans h0 (sleep_frame_trans (sleep_frame_of_eq rfl rfl rfl rfl ⟨rfl, rfl, rfl⟩) h1)
      · cases h
        exact sleep_frame_trans h0 (sleep_frame_of_eq rfl rfl rfl rfl ⟨rfl, rfl, rfl⟩)
  · split at h
    · simp at h
    · split at h
      · simp at h
      · split at h
        · have h1 := thread_yield_frame h
          exact sleep_frame_trans h0 (sleep_frame_trans (sleep_frame_of_eq rfl rfl rfl rfl ⟨rfl, rfl, rfl⟩) h1)
        · cases h
          exact sleep_frame_trans h0 (sleep_frame_of_eq rfl rfl rfl rfl ⟨rfl, rfl, rfl⟩)

theorem thread_unblock_ctx {s s' : kernel} {t : Nat} (h : thread_unblock t s = .ok s') :
    ctx_frame s s' := by
  unfold thread_unblock at h
  split at h
  · split at h
    · exact sleep_frame_ctx (thread_enqueue_frame h)
    · simp at h
  · simp at h

theorem init_thread_ctx {s s1 : kernel} {t : Nat} {p : Int} (h : init_thread s t p = .ok s1) :
    ctx_frame s s1 := by
  unfold init_thread at h
  split at h
  · simp only [] at h
    split at h
    · rename_i hm
      unfold thread_mlfqs_recompute_priority thread_mlfqs_get_recent_cpu
        thread_mlfqs_get_nice at h
      rw [if_pos hm] at h
      simp only [if_pos hm] at h
      cases h
      exact ⟨rfl, rfl, rfl⟩
    · cases h
      exact ⟨rfl, rfl, rfl⟩
  · simp at h

theorem thread_create_ctx {s s' : kernel} (page : Bool) (p : Int)
    (h : thread_create page p s = .ok s') : ctx_frame s s' := by
  unfold thread_create at h
  split at h
  · simp only [] at h
    split at h
    · simp at h
    · rename_i s1 h1
      have c1 := init_thread_ctx h1
      split at h
      · split at h
        · simp at h
        · have c2 := thread_unblock_ctx h
          exact ctx_frame_trans c1 (ctx_frame_trans ⟨rfl, rfl, rfl⟩ c2)
      · have c2 := thread_unblock_ctx h
        exact ctx_frame_trans c1 (ctx_frame_trans ⟨rfl, rfl, rfl⟩ c2)
  · cases h
    exact ctx_frame_refl s

theorem thread_set_priority_ctx {s s' : kernel} (p : Int)
    (h : thread_set_priority p s = .ok s') : ctx_frame s s' := by
  unfold thread_set_priority thread_current at h
  by_cases hrun : (s.threads s.running).status = THREAD_RUNNING
  · rw [if_pos hrun] at h
    have c2 := sleep_frame_ctx (thread_yield_frame h)
    exact ctx_frame_trans ⟨rfl, rfl, rfl⟩ c2
  · rw [if_neg hrun] at h
    simp at h

theorem thread_sleep_ctx {s s' : kernel} (now ticks : Int)
    (h : thread_sleep now ticks s = .ok s') : ctx_frame s s' := by
  unfold thread_sleep thread_current at h
  split at h
  · simp at h
  · by_cases hrun : (s.threads s.running).status = THREAD_RUNNING
    · rw [if_pos hrun] at h
      have c2 := sleep_frame_ctx (schedule_frame h)
      exact ctx_frame_trans ⟨rfl, rfl, rfl⟩ c2
    · rw [if_neg hrun] at h
      simp at h

theorem thread_block_ctx {s s' : kernel} (h : thread_block s = .ok s') : ctx_frame s s' := by
  unfold thread_block thread_current at h
  split at h
  · simp at h
  · by_cases hrun : (s.threads s.running).status = THREAD_RUNNING
    · rw [if_pos hrun] at h
      have c2 := sleep_frame_ctx (schedule_frame h)
      exact ctx_frame_trans ⟨rfl, rfl, rfl⟩ c2
    · rw [if_neg hrun] at h
      simp at h

theorem thread_sleep_ticker_loop_ctx (now : Int) :
    ∀ (l : List Nat) (s s' : kernel),
      thread_sleep_ticker_loop now l s = .ok s' → ctx_frame s s' := by
  intro l
  induction l with
  | nil =>
    intro s s' h
    unfold thread_sleep_ticker_loop at h
    cases h
    exact ctx_frame_refl s
  | cons t rest ih =>
    intro s s' h
    unfold thread_sleep_ticker_loop at h
    split at h
    · cases h
      exact ctx_frame_refl s
    · simp only [] at h
      split at h
      · split at h
        · simp at h
        · rename_i s2 h2
          have c2 := sleep_frame_ctx (thread_enqueue_frame h2)
          exact ctx_frame_trans ⟨rfl, rfl, rfl⟩ (ctx_frame_trans c2 (ih s2 s' h))
      · simp at h

/-- Between entry points no interrupt handler is running, and no entry point changes the
idle thread or the scheduler in use. -/
theorem run_op_ctx {s s' : kernel} (op : kernel_op) (hi : s.in_external_intr = false)
    (h : run_op op s = .ok s') :
    s'.in_external_intr = false ∧ s'.idle_thread = s.idle_thread ∧
      s'.thread_mlfqs = s.thread_mlfqs := by
  have of_ctx : ctx_frame s s' → s'.in_external_intr = false ∧
      s'.idle_thread = s.idle_thread ∧ s'.thread_mlfqs = s.thread_mlfqs :=
    fun c => ⟨c.1.trans hi, c.2.1, c.2.2⟩
  have of_handler : ∀ f : kernel → Except fault kernel,
      (∀ a b, f a = .ok b → ctx_frame a b) → in_external_interrupt f s = .ok s' →
      s'.in_external_intr = false ∧ s'.idle_thread = s.idle_thread ∧
        s'.thread_mlfqs = s.thread_mlfqs := by
    intro f hf hrun
    unfold in_external_interrupt at hrun
    split at hrun
    · simp at hrun
    · rename_i s1 h1
      cases hrun
      have c := hf _ _ h1
      exact ⟨rfl, c.2.1, c.2.2⟩
  cases op with
  | create page priority => exact of_ctx (thread_create_ctx page priority h)
  | unblock t from_handler =>
    cases from_handler with
    | false => exact of_ctx (thread_unblock_ctx h)
    | true => exact of_handler _ (fun a b hab => thread_unblock_ctx hab) h
  | yield => exact of_ctx (sleep_frame_ctx (thread_yield_frame h))
  | set_priority p => exact of_ctx (thread_set_priority_ctx p h)
  | sleep now ticks =>
    change (if s.idle_thread = some s.running then Except.ok s
      else thread_sleep now ticks s) = Except.ok s' at h
    split at h
    · cases h; exact ⟨hi, rfl, rfl⟩
    · exact of_ctx (thread_sleep_ctx now ticks h)
  | tick now =>
    exact of_handler _ (fun a b hab => thread_sleep_ticker_loop_ctx now _ a b hab) h
  | block => exact of_ctx (thread_block_ctx h)

theorem reachable_ctx {mlfqs : Bool} {s : kernel} (h : reachable (started mlfqs) s) :
    s.in_external_intr = false ∧ s.idle_thread = some 2 ∧ s.thread_mlfqs = mlfqs := by
  induction h with
  | init => exact ⟨rfl, rfl, rfl⟩
  | step op _ hstep ih =>
    obtain ⟨a, b, c⟩ := run_op_ctx op ih.1 hstep
    exact ⟨a, b.trans ih.2.1, c.trans ih.2.2⟩

/-! ## The sleeping list -/

theorem thread_sleep_ticker_loop_sleeping (now : Int) :
    ∀ (l : List Nat) (s s' : kernel), s.sleeping_list = l →
      thread_sleep_ticker_loop now l s = .ok s' →
      s'.sleeping_list = l.dropWhile (fun t => decide ((s.threads t).wakeup_tick ≤ now)) ∧
        ∀ x, (s'.threads x).wakeup_tick = (s.threads x).wakeup_tick := by
  intro l
  induction l with
  | nil =>
    intro s s' hl h
    unfold thread_sleep_ticker_loop at h
    cases h
    exact ⟨by simpa using hl, fun _ => rfl⟩
  | cons t rest ih =>
    intro s s' hl h
    unfold thread_sleep_ticker_loop at h
    split at h
    · rename_i hgt
      cases h
      refine ⟨?_, fun _ => rfl⟩
      rw [hl, List.dropWhile_cons_of_neg]
      simpa using hgt
    · rename_i hle
      simp only [] at h
      split at h
      · split at h
        · simp at h
        · rename_i s2 h2
          have f1 := (thread_enqueue_frame h2).1
          have f2 := sleep_frame_wakeup (thread_enqueue_frame h2)
          obtain ⟨a, b⟩ := ih s2 s' f1 h
          refine ⟨?_, fun x => (b x).trans (f2 x)⟩
          rw [a, List.dropWhile_cons_of_pos (by simpa using hle)]
          congr 1
          funext x
          rw [f2 x]
      · simp at h

/-- The sleeping list that `thread_sleep_ticker` leaves is what remains of the old one
after the leading entries with `wakeup_tick ≤ current_tick`; no `wakeup_tick` changes. -/
theorem thread_sleep_ticker_sleeping {now : Int} {s s' : kernel}
    (h : thread_sleep_ticker now s = .ok s') :
    s'.sleeping_list =
        s.sleeping_list.dropWhile (fun t => decide ((s.threads t).wakeup_tick ≤ now)) ∧
      ∀ x, (s'.threads x).wakeup_tick = (s.threads x).wakeup_tick :=
  thread_sleep_ticker_loop_sleeping now _ s s' rfl h

theorem dropWhile_eq_filter_of_sorted (key : Nat → Int) (now : Int) :
    ∀ l : List Nat, l.Pairwise (fun a b => key a ≤ key b) →
      l.dropWhile (fun t => decide (key t ≤ now)) = l.filter (fun t => decide (now < key t)) := by
  intro l
  induction l with
  | nil => intro _; rfl
  | cons t rest ih =>
    intro hs
    have hs1 := List.pairwise_cons.mp hs
    by_cases ht : key t ≤ now
    · rw [List.dropWhile_cons_of_pos (by simpa using ht),
        List.filter_cons_of_neg (by simpa using ht)]
      exact ih hs1.2
    · rw [List.dropWhile_cons_of_neg (by simpa using ht),
        List.filter_cons_of_pos (by simpa using ht)]
      congr 1
      symm
      apply List.filter_eq_self.mpr
      intro x hx
      have := hs1.1 x hx
      simp only [decide_eq_true_eq]
      omega

theorem list_insert_ordered_split (key : Nat → Int) (e : Nat) :
    ∀ l : List Nat, l.Pairwise (fun a b => key a ≤ key b) →
      ∃ l1 l2, l = l1 ++ l2 ∧
        list_insert_ordered (fun a b => decide (key a < key b)) e l = l1 ++ e :: l2 ∧
        (∀ x ∈ l1, key x ≤ key e) ∧ (∀ x ∈ l2, key e < key x) := by
  intro l
  induction l with
  | nil =>
    intro _
    exact ⟨[], [], rfl, rfl, by simp, by simp⟩
  | cons t rest ih =>
    intro hs
    have hs1 := List.pairwise_cons.mp hs
    by_cases ht : key e < key t
    · refine ⟨[], t :: rest, rfl, ?_, by simp, ?_⟩
      · simp [list_insert_ordered, ht]
      · intro x hx
        rcases List.mem_cons.mp hx with rfl | hx
        · exact ht
        · exact lt_of_lt_of_le ht (hs1.1 x hx)
    · obtain ⟨l1, l2, e1, e2, e3, e4⟩ := ih hs1.2
      refine ⟨t :: l1, l2, by rw [e1]; rfl, ?_, ?_, e4⟩
      · simp [list_insert_ordered, ht, e2]
      · intro x hx
        rcases List.mem_cons.mp hx with rfl | hx
        · exact not_lt.mp ht
        · exact e3 x hx

theorem schedule_spec {s s' : kernel} (h : schedule s = .ok s') :
    ∃ next, (next_thread_to_run s).1 = some next ∧
      s' = thread_schedule_tail (next_thread_to_run s).2 next := by
  unfold schedule at h
  simp only [] at h
  split at h
  · simp at h
  · split at h
    · simp at h
    · rename_i next hn
      cases h
      exact ⟨next, hn, rfl⟩

theorem schedule_total {s : kernel} {n : Nat}
    (hrun : (s.threads s.running).status ≠ THREAD_RUNNING)
    (hnext : (next_thread_to_run s).1 = some n) :
    schedule s = .ok (thread_schedule_tail (next_thread_to_run s).2 n) := by
  unfold schedule
  simp only []
  rw [if_neg hrun, hnext]

theorem next_thread_to_run_threads (s : kernel) :
    (next_thread_to_run s).2.threads = s.threads ∧
      (next_thread_to_run s).2.sleeping_list = s.sleeping_list := by
  unfold next_thread_to_run
  split <;> split <;> exact ⟨rfl, rfl⟩

/-- With the idle thread to fall back on, `next_thread_to_run` finds a thread, and it is
one of the queued threads or the idle thread. -/
theorem next_thread_to_run_some (s : kernel) (i : Nat) (hi : s.idle_thread = some i) :
    ∃ n, (next_thread_to_run s).1 = some n ∧
      (n ∈ s.ready_list ∨ n ∈ s.thread_mlfqs_queue ∨ n = i) := by
  unfold next_thread_to_run
  split
  · cases hl : s.thread_mlfqs_queue with
    | nil => exact ⟨i, hi, Or.inr (Or.inr rfl)⟩
    | cons n q => exact ⟨n, rfl, Or.inr (Or.inl (List.mem_cons_self _ _))⟩
  · cases hl : s.ready_list with
    | nil => exact ⟨i, hi, Or.inr (Or.inr rfl)⟩
    | cons n q => exact ⟨n, rfl, Or.inl (List.mem_cons_self _ _)⟩

/-- The effect of `thread_sleep` on a running thread other than the idle thread: the call
returns, the caller's `wakeup_tick` is `now + ticks`, its status is `THREAD_SLEEP`, and it
sits in the sleeping list after every entry that wakes no later and before every entry
that wakes later. -/
theorem thread_sleep_spec {s : kernel} (hs : sched_inv s) (now ticks : Int) (i : Nat)
    (hintr : s.in_external_intr = false) (hidle : s.idle_thread = some i)
    (hne : i ≠ s.running) :
    ∃ s', thread_sleep now ticks s = .ok s' ∧
      (s'.threads s.running).wakeup_tick = now + ticks ∧
      (s'.threads s.running).status = THREAD_SLEEP ∧
      ∃ l1 l2, s.sleeping_list = l1 ++ l2 ∧ s'.sleeping_list = l1 ++ s.running :: l2 ∧
        (∀ x ∈ l1, (s.threads x).wakeup_tick ≤ now + ticks) ∧
        (∀ x ∈ l2, now + ticks < (s.threads x).wakeup_tick) := by
  have hrun := hs.running_status
  have hq := hs.queues
  have hnr : s.running ∉ s.ready_list := not_mem_ready_of_status hq (by rw [hrun]; decide)
  have hnm : s.running ∉ s.thread_mlfqs_queue :=
    not_mem_mlfqs_of_status hq (by rw [hrun]; decide)
  have hns : s.running ∉ s.sleeping_list :=
    not_mem_sleeping_of_status hq (by rw [hrun]; decide)
  obtain ⟨X, hX⟩ : ∃ X : kernel, X = set_status
      { s with
        threads :=
          Function.update s.threads s.running
            { s.threads s.running with wakeup_tick := now + ticks },
        sleeping_list :=
          list_insert_ordered
            (sleep_list_less_func
              { s with
                threads :=
                  Function.update s.threads s.running
                    { s.threads s.running with wakeup_tick := now + ticks } })
            s.running s.sleeping_list }
      s.running THREAD_SLEEP := ⟨_, rfl⟩
  have hdef : thread_sleep now ticks s = schedule X := by
    have hni : ¬ s.in_external_intr = true := by rw [hintr]; decide
    unfold thread_sleep thread_current
    rw [if_neg hni, if_pos hrun, hX]
  have hXcur : X.threads s.running =
      { s.threads s.running with wakeup_tick := now + ticks, status := THREAD_SLEEP } := by
    rw [hX]; simp [set_status]
  have hXother : ∀ x, x ≠ s.running → X.threads x = s.threads x := by
    intro x hx; rw [hX]; simp [set_status, Function.update_apply, hx]
  have hXrun : (X.threads X.running).status ≠ THREAD_RUNNING := by
    have : X.running = s.running := by rw [hX]; rfl
    rw [this, hXcur]; simp
  obtain ⟨n, hn, hmem⟩ := next_thread_to_run_some X i (by rw [hX]; exact hidle)
  have hncur : n ≠ s.running := by
    rcases hmem with h1 | h1 | h1
    · intro e; rw [hX, e] at h1; exact hnr h1
    · intro e; rw [hX, e] at h1; exact hnm h1
    · rw [h1]; exact hne
  refine ⟨_, hdef.trans (schedule_total hXrun hn), ?_, ?_, ?_⟩
  · show ((Function.update (next_thread_to_run X).2.threads n _) s.running).wakeup_tick = _
    rw [Function.update_noteq (Ne.symm hncur), (next_thread_to_run_threads X).1, hXcur]
  · show ((Function.update (next_thread_to_run X).2.threads n _) s.running).status = _
    rw [Function.update_noteq (Ne.symm hncur), (next_thread_to_run_threads X).1, hXcur]
  · have hkey : ∀ x ∈ s.sleeping_list,
        ((Function.update s.threads s.running
          { s.threads s.running with wakeup_tick := now + ticks }) x).wakeup_tick =
        (s.threads x).wakeup_tick := by
      intro x hx
      have : x ≠ s.running := fun e => hns (e ▸ hx)
      rw [Function.update_noteq this]
    obtain ⟨l1, l2, e1, e2, e3, e4⟩ := list_insert_ordered_split
      (fun a => ((Function.update s.threads s.running
          { s.threads s.running with wakeup_tick := now + ticks }) a).wakeup_tick)
      s.running s.sleeping_list
      (List.Pairwise.imp_of_mem (fun {a b} ha hb hab => by
        show ((Function.update s.threads s.running _) a).wakeup_tick ≤
          ((Function.update s.threads s.running _) b).wakeup_tick
        rw [hkey a ha, hkey b hb]; exact hab) hq.sleeping_sorted)
    refine ⟨l1, l2, e1, ?_, ?_, ?_⟩
    · show (next_thread_to_run X).2.sleeping_list = _
      rw [(next_thread_to_run_threads X).2, hX]
      exact e2
    · intro x hx
      have hx' : x ∈ s.sleeping_list := by rw [e1]; exact List.mem_append_left _ hx
      have := e3 x hx
      simp only [] at this
      rw [hkey x hx', Function.update_same] at this
      exact this
    · intro x hx
      have hx' : x ∈ s.sleeping_list := by rw [e1]; exact List.mem_append_right _ hx
      have := e4 x hx
      simp only [] at this
      rw [hkey x hx', Function.update_same] at this
      exact this

/-! ## The scheduler claims -/

/-- C1 as stated fails: after `main` has slept and been woken by the timer interrupt while
the idle thread runs, `main` (priority 31) is on the ready list and the running idle
thread has priority 0. -/
theorem C1_idle_outranked :
    reachable (started false) woken_under_idle ∧
    woken_under_idle.idle_thread = some woken_under_idle.running ∧
    1 ∈ woken_under_idle.ready_list ∧
    thread_explicit_get_priority woken_under_idle woken_under_idle.running <
      thread_explicit_get_priority woken_under_idle 1 :=
  ⟨reachable_trans_exec _ _ _ reachable.init, by decide, by decide, by decide⟩

/-- C1, amended: in priority mode, in every state reached from boot through
`thread_create`, `thread_unblock`, `thread_yield`, `thread_set_priority`, `thread_sleep`
and the timer tick (and `thread_block`), if the running thread is not the idle thread then
every thread on the ready list has effective priority at most that of the running
thread. -/
theorem C1_ready_le_running (s : kernel) (h : reachable (started false) s)
    (hidle : s.idle_thread ≠ some s.running) :
    ∀ t ∈ s.ready_list,
      thread_explicit_get_priority s t ≤ thread_explicit_get_priority s s.running :=
  (reachable_inv (started_inv false) h).ready_le_running hidle

/-- C1 (amended) at work: after `main` has created a thread of priority 10, `main` still
runs and the new thread, on the ready list, does not outrank it. -/
theorem C1_ready_le_running_witness :
    low_priority_child.idle_thread ≠ some low_priority_child.running ∧
    3 ∈ low_priority_child.ready_list ∧
    ∀ t ∈ low_priority_child.ready_list,
      thread_explicit_get_priority low_priority_child t ≤
        thread_explicit_get_priority low_priority_child low_priority_child.running :=
  ⟨by decide, by decide,
   C1_ready_le_running low_priority_child (reachable_trans_exec _ _ _ reachable.init)
     (by decide)⟩

/-! ## Priority donation -/

theorem foldl_max_of_le (xs : List Int) (a : Int) (h : ∀ x ∈ xs, x ≤ a) :
    xs.foldl max a = a := by
  induction xs with
  | nil => rfl
  | cons x xs ih =>
    have hx : x ≤ a := h x (List.mem_cons_self _ _)
    rw [List.foldl_cons, max_eq_left hx]
    exact ih (fun y hy => h y (List.mem_cons_of_mem _ hy))

/-- Where a thread's lock list is in descending order of lock priority, reading the first
lock is enough: `thread_explicit_get_priority` is the maximum over all held locks. -/
theorem explicit_eq_spec_of_sorted (s : kernel) (t : Nat)
    (h : (s.threads t).lock_list.Pairwise
      (fun a b => s.mem (s.locks b).priority ≤ s.mem (s.locks a).priority)) :
    thread_explicit_get_priority s t = effective_priority_spec s t := by
  unfold thread_explicit_get_priority effective_priority_spec
  cases hl : (s.threads t).lock_list with
  | nil => rfl
  | cons l rest =>
    rw [hl] at h
    have h1 := (List.pairwise_cons.mp h).1
    simp only [List.map_cons, List.foldl_cons]
    rw [foldl_max_of_le]
    · exact max_comm _ _
    · intro x hx
      obtain ⟨k, hk, rfl⟩ := List.mem_map.mp hx
      exact le_trans (h1 k hk) (le_max_right _ _)

/-- A donation does reach the holder when the lock that the acceptor waits for is the first
lock on the holder's list: if M is blocked on A, A is held by L, L is not blocked itself
and A heads L's lock list, then after `thread_donate_priority_lock (M, B)` with B above A
the effective priority of L is at least B's priority. -/
theorem donation_reaches_holder_of_first_lock (fuel : Nat) (s : kernel) (M L A B : Nat)
    (rest : List Nat)
    (hM : (s.threads M).status = THREAD_BLOCKED) (hb : (s.threads M).blocker = some A)
    (hA : (s.locks A).holder = some L) (hL : (s.threads L).blocker = none) (hne : L ≠ M)
    (hlist : (s.threads L).lock_list = A :: rest)
    (hp : s.mem (s.locks A).priority < s.mem (s.locks B).priority) :
    ∃ s', thread_donate_priority_lock (fuel + 1) s M B = .ok s' ∧
      s.mem (s.locks B).priority ≤ thread_explicit_get_priority s' L := by
  have hAB : B ≠ A := by
    intro e; rw [e] at hp; exact lt_irrefl _ hp
  unfold thread_donate_priority_lock thread_donate_priority_lock_rec
  simp only [Function.update_same, hM, hb, if_true, hp, Function.update_noteq hAB, hA,
    Function.update_noteq hne, hL, Option.isSome_none, Bool.false_eq_true, if_false]
  refine ⟨_, rfl, ?_⟩
  unfold thread_explicit_get_priority
  simp only [Function.update_noteq hne, hlist, Function.update_same]
  exact le_max_left _ _

/-- C2, evaluated: L holds lock A (waiter M, priority 30) and lock C (waiter W, priority
40), so its lock list is `[C, A]`.  When H (priority 50) blocks on lock B held by M, the
cascade raises A to 50 and leaves A behind C on L's list: `thread_explicit_get_priority`
reads the first lock only and returns 40, while the maximum over all of L's locks is 50. -/
theorem C2_first_lock_only :
    ∃ s, donate_chain_two_locks (donation_scene 20 30 40 50) = .ok s ∧
      (s.threads 1).lock_list = [2, 1] ∧
      s.mem (s.locks 2).priority = 40 ∧
      s.mem (s.locks 1).priority = 50 ∧
      thread_explicit_get_priority s 1 = 40 ∧
      effective_priority_spec s 1 = 50 := by
  refine ⟨_, rfl, ?_, ?_, ?_, ?_, ?_⟩ <;> decide

/-- C3, evaluated: with L = 31, M = 33, H = 35 and A the only lock on L's list the
donation of H through B reaches L, whose effective priority becomes 35; when L also holds
lock C with a waiter of priority 34, A is raised to 35 all the same and the effective
priority of L stays at 34, below the donated 35. -/
theorem C3_nested_donation_behind_other_lock :
    (∃ s, donate_chain (donation_scene 31 33 0 35) = .ok s ∧
      thread_explicit_get_priority s 1 = 35) ∧
    (∃ s, donate_chain_two_locks (donation_scene 31 33 34 35) = .ok s ∧
      (s.threads 2).blocker = some 1 ∧ (s.locks 1).holder = some 1 ∧
      (s.locks 3).holder = some 2 ∧
      s.mem (s.locks 3).priority = 35 ∧
      s.mem (s.locks 1).priority = 35 ∧
      thread_explicit_get_priority s 1 = 34) := by
  refine ⟨⟨_, rfl, ?_⟩, ⟨_, rfl, ?_, ?_, ?_, ?_, ?_, ?_⟩⟩ <;> decide

/-- What `thread_get_priority` returns to a thread that has just called
`thread_set_priority (p)`: `p`, or the maximum of `p` and the priority of the first lock
on its lock list. -/
theorem thread_set_priority_then_get {s s' : kernel} (p : Int)
    (h : thread_set_priority p s = .ok s') :
    thread_explicit_get_priority s' s.running =
      match (s.threads s.running).lock_list with
      | l :: _ => max (s.mem (s.locks l).priority) p
      | [] => p := by
  unfold thread_set_priority thread_current at h
  by_cases hrun : (s.threads s.running).status = THREAD_RUNNING
  · rw [if_pos hrun] at h
    have hf := sleep_frame_eff (thread_yield_frame h) s.running
    rw [hf]
    unfold thread_explicit_get_priority
    simp only [Function.update_same]
  · rw [if_neg hrun] at h
    simp at h

/-- C4, evaluated: L (lock list `[C, A]`, C at 36, A raised to 40 by the cascade) sets its
priority to 5 and keeps running; `thread_get_priority` then returns 36, while the maximum
of 5 and the highest priority donated through the locks L holds is 40. -/
theorem C4_get_priority_after_cascade :
    ∃ s, donate_then_set_priority (donation_scene 31 32 36 40) 5 = .ok s ∧
      s.running = 1 ∧
      (s.threads 1).priority = 5 ∧
      thread_get_priority s = .ok 36 ∧
      effective_priority_spec s 1 = 40 := by
  refine ⟨_, rfl, ?_, ?_, rfl, ?_⟩ <;> decide

/-! ## The sleeping-list claims -/

/-- Whenever `thread_sleep_ticker` returns, on a sorted sleeping list, the list it leaves
is sorted and holds exactly the threads with `wakeup_tick > current_tick`, in their old
order. -/
theorem thread_sleep_ticker_remaining {now : Int} {s s' : kernel} (hs : sleeping_sorted s)
    (h : thread_sleep_ticker now s = .ok s') :
    sleeping_sorted s' ∧
      s'.sleeping_list =
        s.sleeping_list.filter (fun t => decide (now < (s.threads t).wakeup_tick)) := by
  obtain ⟨h1, h2⟩ := thread_sleep_ticker_sleeping h
  refine ⟨?_, ?_⟩
  · unfold sleeping_sorted
    rw [h1]
    simp only [h2]
    exact List.Pairwise.sublist (List.dropWhile_sublist _) hs
  · rw [h1]
    exact dropWhile_eq_filter_of_sorted (fun t => (s.threads t).wakeup_tick) now _ hs

/-- C5: the sleeping list is sorted by ascending `wakeup_tick` in every state reached from
boot, under either scheduler.  In such a state `thread_sleep`, called by a running thread
other than the idle thread, returns with the caller's `wakeup_tick` at `now + ticks`, its
status `THREAD_SLEEP`, and the caller inserted after every entry that wakes no later and
before every entry that wakes later, the list still sorted.  `thread_sleep_ticker`
preserves sortedness from any state. -/
theorem C5_sleeping_list_sorted :
    (∀ (mlfqs : Bool) (s : kernel), reachable (started mlfqs) s →
      sleeping_sorted s ∧
      ∀ (now ticks : Int), s.idle_thread ≠ some s.running →
        ∃ s', thread_sleep now ticks s = .ok s' ∧
          (s'.threads s.running).wakeup_tick = now + ticks ∧
          (s'.threads s.running).status = THREAD_SLEEP ∧
          (∃ l1 l2, s.sleeping_list = l1 ++ l2 ∧ s'.sleeping_list = l1 ++ s.running :: l2 ∧
            (∀ x ∈ l1, (s.threads x).wakeup_tick ≤ now + ticks) ∧
            (∀ x ∈ l2, now + ticks < (s.threads x).wakeup_tick)) ∧
          sleeping_sorted s') ∧
    (∀ (now : Int) (s s' : kernel), sleeping_sorted s →
      thread_sleep_ticker now s = .ok s' → sleeping_sorted s') := by
  refine ⟨?_, ?_⟩
  · intro mlfqs s hreach
    have hs := reachable_inv (started_inv mlfqs) hreach
    obtain ⟨hintr, hidle, _⟩ := reachable_ctx hreach
    refine ⟨hs.queues.sleeping_sorted, ?_⟩
    intro now ticks hi
    have hne : 2 ≠ s.running := by
      intro e; apply hi; rw [hidle, e]
    obtain ⟨s', h1, h2, h3, h4⟩ := thread_sleep_spec hs now ticks 2 hintr hidle hne
    exact ⟨s', h1, h2, h3, h4, (thread_sleep_inv hs now ticks hi h1).queues.sleeping_sorted⟩
  · intro now s s' hs h
    exact (thread_sleep_ticker_remaining hs h).1

/-- C5 at work: with threads 3 and 4 asleep until tick 10, `main` goes to sleep at tick 7
for 2 ticks and is placed at the head of the sorted list; and the ticker keeps the list of
a reached state sorted. -/
theorem C5_sleeping_list_sorted_witness :
    sleeping_sorted two_sleepers ∧
    two_sleepers.sleeping_list = [3, 4] ∧
    two_sleepers.idle_thread ≠ some two_sleepers.running ∧
    (∃ s', thread_sleep 7 2 two_sleepers = .ok s' ∧
      (s'.threads two_sleepers.running).wakeup_tick = 7 + 2 ∧
      (s'.threads two_sleepers.running).status = THREAD_SLEEP ∧
      (∃ l1 l2, two_sleepers.sleeping_list = l1 ++ l2 ∧
        s'.sleeping_list = l1 ++ two_sleepers.running :: l2 ∧
        (∀ x ∈ l1, (two_sleepers.threads x).wakeup_tick ≤ 7 + 2) ∧
        (∀ x ∈ l2, 7 + 2 < (two_sleepers.threads x).wakeup_tick)) ∧
      sleeping_sorted s') ∧
    (∃ s', thread_sleep_ticker 10 woken_under_idle = .ok s' ∧ sleeping_sorted s') :=
  ⟨(C5_sleeping_list_sorted.1 false two_sleepers
      (reachable_trans_exec _ _ _ reachable.init)).1,
   by decide,
   by decide,
   (C5_sleeping_list_sorted.1 false two_sleepers
      (reachable_trans_exec _ _ _ reachable.init)).2 7 2 (by decide),
   ⟨_, rfl, C5_sleeping_list_sorted.2 10 woken_under_idle _
      (C5_sleeping_list_sorted.1 false woken_under_idle
        (reachable_trans_exec _ _ _ reachable.init)).1 rfl⟩⟩

/-- What `thread_enqueue` does when called from an interrupt handler and returning: `t` is
marked ready and put on a run queue, no other status changes, and nothing leaves a run
queue. -/
theorem thread_enqueue_in_handler {s s' : kernel} {t : Nat}
    (hi : s.in_external_intr = true) (h : thread_enqueue t s = .ok s') :
    (s'.threads t).status = THREAD_READY ∧
    (t ∈ s'.ready_list ∨ t ∈ s'.thread_mlfqs_queue) ∧
    (∀ x, x ≠ t → (s'.threads x).status = (s.threads x).status) ∧
    (∀ x, x ∈ s.ready_list → x ∈ s'.ready_list) ∧
    (∀ x, x ∈ s.thread_mlfqs_queue → x ∈ s'.thread_mlfqs_queue) ∧
    s'.in_external_intr = true := by
  have yield_fails : ∀ (a : kernel), a.in_external_intr = true → thread_yield a ≠ .ok s' := by
    intro a ha hy
    unfold thread_yield at hy
    split at hy
    · simp at hy
    · rw [if_pos ha] at hy
      simp at hy
  have hst : ((set_status s t THREAD_READY).threads t).status = THREAD_READY := by
    simp [set_status]
  have hother : ∀ x, x ≠ t →
      ((set_status s t THREAD_READY).threads x).status = (s.threads x).status := by
    intro x hx; simp [set_status, Function.update_apply, hx]
  unfold thread_enqueue at h
  simp only [] at h
  split at h
  · split at h
    · simp at h
    · split at h
      · split at h
        · cases h
          exact ⟨hst, Or.inr ((mem_list_insert_ordered _ _ _ _).mpr (Or.inl rfl)), hother,
            fun _ hx => hx, fun x hx => (mem_list_insert_ordered _ _ _ _).mpr (Or.inr hx), hi⟩
        · exact absurd h (yield_fails _ hi)
      · cases h
        exact ⟨hst, Or.inr ((mem_list_insert_ordered _ _ _ _).mpr (Or.inl rfl)), hother,
          fun _ hx => hx, fun x hx => (mem_list_insert_ordered _ _ _ _).mpr (Or.inr hx), hi⟩
  · split at h
    · simp at h
    · split at h
      · simp at h
      · split at h
        · exact absurd h (yield_fails _ hi)
        · cases h
          exact ⟨hst, Or.inl ((mem_list_insert_ordered _ _ _ _).mpr (Or.inl rfl)), hother,
            fun x hx => (mem_list_insert_ordered _ _ _ _).mpr (Or.inr hx), fun _ hx => hx, hi⟩

theorem thread_sleep_ticker_loop_keeps (now : Int) :
    ∀ (l : List Nat) (s s' : kernel), s.in_external_intr = true →
      thread_sleep_ticker_loop now l s = .ok s' →
      ∀ x, x ∉ l → (s'.threads x).status = (s.threads x).status ∧
        (x ∈ s.ready_list → x ∈ s'.ready_list) ∧
        (x ∈ s.thread_mlfqs_queue → x ∈ s'.thread_mlfqs_queue) := by
  intro l
  induction l with
  | nil =>
    intro s s' _ h x _
    unfold thread_sleep_ticker_loop at h
    cases h
    exact ⟨rfl, id, id⟩
  | cons t rest ih =>
    intro s s' hi h x hx
    unfold thread_sleep_ticker_loop at h
    split at h
    · cases h
      exact ⟨rfl, id, id⟩
    · simp only [] at h
      split at h
      · split at h
        · simp at h
        · rename_i s2 h2
          obtain ⟨_, _, e3, e4, e5, e6⟩ :=
            thread_enqueue_in_handler (s := { s with sleeping_list := rest }) hi h2
          have hxt : x ≠ t := fun e => hx (e ▸ List.mem_cons_self _ _)
          have hxr : x ∉ rest := fun e => hx (List.mem_cons_of_mem _ e)
          obtain ⟨k1, k2, k3⟩ := ih s2 s' e6 h x hxr
          exact ⟨k1.trans (e3 x hxt), fun hm => k2 (e4 x hm), fun hm => k3 (e5 x hm)⟩
      · simp at h

theorem thread_sleep_ticker_loop_wakes (now : Int) :
    ∀ (l : List Nat) (s s' : kernel), s.in_external_intr = true → l.Nodup →
      l.Pairwise (fun a b => (s.threads a).wakeup_tick ≤ (s.threads b).wakeup_tick) →
      thread_sleep_ticker_loop now l s = .ok s' →
      ∀ x ∈ l, (s.threads x).wakeup_tick ≤ now →
        (s'.threads x).status = THREAD_READY ∧
          (x ∈ s'.ready_list ∨ x ∈ s'.thread_mlfqs_queue) := by
  intro l
  induction l with
  | nil => intro s s' _ _ _ _ x hx; simp at hx
  | cons t rest ih =>
    intro s s' hi hnd hso h x hx hdue
    have hnd1 := List.nodup_cons.mp hnd
    have hso1 := List.pairwise_cons.mp hso
    unfold thread_sleep_ticker_loop at h
    split at h
    · rename_i hgt
      exfalso
      rcases List.mem_cons.mp hx with rfl | hx
      · omega
      · have := hso1.1 x hx
        omega
    · simp only [] at h
      split at h
      · split at h
        · simp at h
        · rename_i s2 h2
          obtain ⟨e1, e2, _, _, _, e6⟩ :=
            thread_enqueue_in_handler (s := { s with sleeping_list := rest }) hi h2
          have hw := sleep_frame_wakeup (thread_enqueue_frame h2)
          rcases List.mem_cons.mp hx with rfl | hx
          · obtain ⟨k1, k2, k3⟩ := thread_sleep_ticker_loop_keeps now rest s2 s' e6 h x hnd1.1
            refine ⟨k1.trans e1, ?_⟩
            rcases e2 with e2 | e2
            · exact Or.inl (k2 e2)
            · exact Or.inr (k3 e2)
          · refine ih s2 s' e6 hnd1.2 ?_ h x hx ?_
            · refine List.Pairwise.imp ?_ hso1.2
              intro a b hab
              rw [hw a, hw b]; exact hab
            · rw [hw x]; exact hdue
      · simp at h

/-- Whenever the timer interrupt's `thread_sleep_ticker` returns, in a state where the
sleeping list is sorted and free of duplicates, every thread with
`wakeup_tick ≤ current_tick` has left the sleeping list, is marked ready and sits on a run
queue, and exactly the threads with `wakeup_tick > current_tick` remain on the list. -/
theorem thread_sleep_ticker_wakes_due {now : Int} {s s' : kernel}
    (hi : s.in_external_intr = true) (hnd : s.sleeping_list.Nodup) (hs : sleeping_sorted s)
    (h : thread_sleep_ticker now s = .ok s') :
    s'.sleeping_list =
        s.sleeping_list.filter (fun t => decide (now < (s.threads t).wakeup_tick)) ∧
    ∀ x ∈ s.sleeping_list, (s.threads x).wakeup_tick ≤ now →
      (s'.threads x).status = THREAD_READY ∧
        (x ∈ s'.ready_list ∨ x ∈ s'.thread_mlfqs_queue) :=
  ⟨(thread_sleep_ticker_remaining hs h).2,
   thread_sleep_ticker_loop_wakes now _ s s' hi hnd hs h⟩

/-- The alarm scene of the specification: threads 3, 4 and 5 sleep for 30, 10 and 20 ticks
from tick 0 under the idle thread.  The sleeping list holds them in the order 4, 5, 3
(wake-up ticks 10, 20, 30); nothing wakes at tick 9, and the interrupt of tick 10 wakes
thread 4 alone. -/
theorem three_sleepers_wake_in_tick_order :
    three_sleepers.sleeping_list = [4, 5, 3, 1] ∧
    three_sleepers.sleeping_list.map (fun t => (three_sleepers.threads t).wakeup_tick)
      = [10, 20, 30, 100] ∧
    three_sleepers.idle_thread = some three_sleepers.running ∧
    (exec [.tick 9] three_sleepers).ready_list = [] ∧
    (exec [.tick 10] three_sleepers).ready_list = [4] ∧
    (exec [.tick 10] three_sleepers).sleeping_list = [5, 3, 1] := by
  refine ⟨?_, ?_, ?_, ?_, ?_, ?_⟩ <;> decide

/-- C6, evaluated: `main` (priority 31) runs while threads 3 and 4 (priority 40) sleep
until tick 10.  The timer interrupt of tick 10 takes thread 3 off the sleeping list and
`thread_enqueue` calls `thread_yield` from the interrupt handler, whose
`ASSERT (!intr_context ())` fails: the kernel panics and thread 4 is never made ready. -/
theorem C6_ticker_panics_on_preempting_wakeup :
    reachable (started false) two_sleepers ∧
    two_sleepers.thread_mlfqs = false ∧
    two_sleepers.running = 1 ∧
    thread_explicit_get_priority two_sleepers 1 = 31 ∧
    two_sleepers.sleeping_list = [3, 4] ∧
    sleeping_sorted two_sleepers ∧
    (two_sleepers.threads 3).wakeup_tick = 10 ∧
    (two_sleepers.threads 4).wakeup_tick = 10 ∧
    thread_explicit_get_priority two_sleepers 3 = 40 ∧
    run_op (.tick 10) two_sleepers = .error fault.assert_not_intr_context :=
  ⟨reachable_trans_exec _ _ _ reachable.init, by decide, by decide, by decide, by decide,
   (reachable_inv (started_inv false)
     (reachable_trans_exec _ _ _ reachable.init)).queues.sleeping_sorted,
   by decide, by decide, by decide, rfl⟩

/-! ## MLFQ arithmetic -/

/-- What `thread_mlfqs_recompute_priority` stores: the clamped value of
`PRI_MAX - FIX_TO_INT_R_NEAR (recent_cpu) / 4 - nice * 2`. -/
theorem thread_mlfqs_recompute_priority_value (s : kernel) (t : Nat)
    (hm : s.thread_mlfqs = true) :
    ∃ s', thread_mlfqs_recompute_priority s t = .ok s' ∧
      (s'.threads t).priority =
        max PRI_MIN (min PRI_MAX
          (PRI_MAX - (FIX_TO_INT_R_NEAR (s.threads t).recent_cpu).tdiv 4
            - (s.threads t).nice * 2)) := by
  unfold thread_mlfqs_recompute_priority thread_mlfqs_get_recent_cpu thread_mlfqs_get_nice
  simp only [hm, if_true]
  refine ⟨_, rfl, ?_⟩
  simp only [Function.update_same]
  generalize PRI_MAX - (FIX_TO_INT_R_NEAR (s.threads t).recent_cpu).tdiv 4
    - (s.threads t).nice * 2 = v
  have h1 : PRI_MIN ≤ PRI_MAX := by decide
  split <;> split <;> omega

/-- C7, evaluated: for `recent_cpu` = 3.75 (the 17.14 number 61440) and `nice` = 0 the
code stores priority 62, because it rounds `recent_cpu` to the nearest integer 4 before
dividing by 4; the priority `PRI_MAX - trunc (recent_cpu / 4) - 2 * nice` of the
specification is 63. -/
theorem C7_recent_cpu_rounded_to_nearest :
    (∃ s', thread_mlfqs_recompute_priority (mlfqs_scene 0 61440 0) 1 = .ok s' ∧
      (s'.threads 1).priority = 62) ∧
    mlfqs_priority_spec ((mlfqs_scene 0 61440 0).threads 1).recent_cpu
      ((mlfqs_scene 0 61440 0).threads 1).nice = 63 := by
  refine ⟨⟨_, rfl, ?_⟩, ?_⟩
  · decide
  · decide

/-- C8: in MLFQ mode, for a non-negative load average, a non-negative prior `recent_cpu`
and a non-negative `nice`, `thread_mlfqs_recompute_recent_cpu` returns and leaves
`recent_cpu`, which is `(2 * load_avg) / (2 * load_avg + 1) * recent_cpu + nice` in 17.14
arithmetic, non-negative. -/
theorem C8_recent_cpu_nonneg (s : kernel) (t : Nat) (hm : s.thread_mlfqs = true)
    (hl : 0 ≤ s.thread_mlfqs_load_avg) (hr : 0 ≤ (s.threads t).recent_cpu)
    (hn : 0 ≤ (s.threads t).nice) :
    ∃ s', thread_mlfqs_recompute_recent_cpu s t = .ok s' ∧
      (s'.threads t).recent_cpu =
        ADD_FIXED_INT
          (MUL_FIXED
            (DIV_FIXED (MUL_FIXED_INT s.thread_mlfqs_load_avg 2)
              (ADD_FIXED_INT (MUL_FIXED_INT s.thread_mlfqs_load_avg 2) 1))
            (s.threads t).recent_cpu)
          (s.threads t).nice ∧
      0 ≤ (s'.threads t).recent_cpu := by
  unfold thread_mlfqs_recompute_recent_cpu thread_mlfqs_get_nice
  simp only [hm, if_true]
  refine ⟨_, rfl, by simp only [Function.update_same], ?_⟩
  simp only [Function.update_same]
  have hF : (0 : Int) ≤ FIXED_POINT_F := by decide
  have h2 : 0 ≤ MUL_FIXED_INT s.thread_mlfqs_load_avg 2 := by
    unfold MUL_FIXED_INT; omega
  have h3 : 0 ≤ ADD_FIXED_INT (MUL_FIXED_INT s.thread_mlfqs_load_avg 2) 1 := by
    unfold ADD_FIXED_INT; omega
  have h4 : 0 ≤ DIV_FIXED (MUL_FIXED_INT s.thread_mlfqs_load_avg 2)
      (ADD_FIXED_INT (MUL_FIXED_INT s.thread_mlfqs_load_avg 2) 1) := by
    unfold DIV_FIXED
    exact Int.tdiv_nonneg (Int.mul_nonneg h2 hF) h3
  have h5 : 0 ≤ MUL_FIXED
      (DIV_FIXED (MUL_FIXED_INT s.thread_mlfqs_load_avg 2)
        (ADD_FIXED_INT (MUL_FIXED_INT s.thread_mlfqs_load_avg 2) 1))
      (s.threads t).recent_cpu := by
    unfold MUL_FIXED
    exact Int.tdiv_nonneg (Int.mul_nonneg h4 hr) hF
  unfold ADD_FIXED_INT
  exact Int.add_nonneg h5 (Int.mul_nonneg hn hF)

/-- C8 at work: load average 1.0, `recent_cpu` 3.75 and `nice` 1. -/
theorem C8_recent_cpu_nonneg_witness :
    ∃ s', thread_mlfqs_recompute_recent_cpu (mlfqs_scene 16384 61440 1) 1 = .ok s' ∧
      (s'.threads 1).recent_cpu =
        ADD_FIXED_INT
          (MUL_FIXED
            (DIV_FIXED (MUL_FIXED_INT (mlfqs_scene 16384 61440 1).thread_mlfqs_load_avg 2)
              (ADD_FIXED_INT
                (MUL_FIXED_INT (mlfqs_scene 16384 61440 1).thread_mlfqs_load_avg 2) 1))
            ((mlfqs_scene 16384 61440 1).threads 1).recent_cpu)
          ((mlfqs_scene 16384 61440 1).threads 1).nice ∧
      0 ≤ (s'.threads 1).recent_cpu :=
  C8_recent_cpu_nonneg (mlfqs_scene 16384 61440 1) 1 rfl (by decide) (by decide) (by decide)

/-! ## ELF validation -/

theorem take_four_of_take_seven {l : List Nat} {a b c d e f g : Nat}
    (h : l.take 7 = [a, b, c, d, e, f, g]) :
    l.take 4 = [a, b, c, d] ∧ l.get? 4 = some e ∧ l.get? 5 = some f ∧ l.get? 6 = some g := by
  have hl : l = [a, b, c, d, e, f, g] ++ l.drop 7 := by
    rw [← h]; exact (List.take_append_drop 7 l).symm
  rw [hl]
  simp

theorem take_seven_of_take_four {l : List Nat} {a b c d e f g : Nat}
    (h4 : l.take 4 = [a, b, c, d]) (h5 : l.get? 4 = some e) (h6 : l.get? 5 = some f)
    (h7 : l.get? 6 = some g) : l.take 7 = [a, b, c, d, e, f, g] := by
  match l, h4, h5, h6, h7 with
  | x0 :: x1 :: x2 :: x3 :: x4 :: x5 :: x6 :: rest, h4, h5, h6, h7 =>
    simp at h4 h5 h6 h7
    obtain ⟨r0, r1, r2, r3⟩ := h4
    simp [r0, r1, r2, r3, h5, h6, h7]
  | [], h4, _, _, _ => simp at h4
  | [_], h4, _, _, _ => simp at h4
  | [_, _], h4, _, _, _ => simp at h4
  | [_, _, _], h4, _, _, _ => simp at h4
  | [_, _, _, _], _, h5, _, _ => simp at h5
  | [_, _, _, _, _], _, _, h6, _ => simp at h6
  | [_, _, _, _, _, _], _, _, _, h7 => simp at h7

/-- C9: `load` returns true only for an executable header that passes every check of the
specification, and a header (or a short read of it) that fails one of them makes `load`
return false. -/
theorem C9_load_checks_header (fuel : Nat) (env : load_env) :
    (load fuel env = .ok true → elf_header_ok env.read_ehdr.1 env.read_ehdr.2) ∧
    (¬ elf_header_ok env.read_ehdr.1 env.read_ehdr.2 → load fuel env = .ok false) := by
  have key : ¬ elf_header_ok env.read_ehdr.1 env.read_ehdr.2 → load fuel env = .ok false := by
    intro hbad
    unfold load
    split
    · rfl
    · split
      · rfl
      · simp only []
        split
        · rfl
        · rename_i hc
          exfalso
          apply hbad
          simp only [not_or, not_not, not_lt, Nat.not_lt, gt_iff_lt] at hc
          obtain ⟨c1, c2, c3, c4, c5, c6, c7⟩ := hc
          obtain ⟨i1, i2, i3, i4⟩ := take_four_of_take_seven c2
          exact ⟨c1, i1, i2, i3, i4, c5, c3, c4, c6, c7⟩
  refine ⟨?_, key⟩
  intro h
  by_contra hbad
  rw [key hbad] at h
  cases h

/-- C9 at work: a well-formed executable with one loadable segment is accepted with its
header passing every check, and the same executable with `e_machine` = 62 is refused. -/
theorem C9_load_checks_header_witness :
    (load 8 (sample_env (sample_ehdr 1)) = .ok true ∧
      elf_header_ok (sample_env (sample_ehdr 1)).read_ehdr.1
        (sample_env (sample_ehdr 1)).read_ehdr.2) ∧
    (¬ elf_header_ok (sample_env { sample_ehdr 1 with e_machine := 62 }).read_ehdr.1
        (sample_env { sample_ehdr 1 with e_machine := 62 }).read_ehdr.2 ∧
      load 8 (sample_env { sample_ehdr 1 with e_machine := 62 }) = .ok false) :=
  ⟨⟨rfl, (C9_load_checks_header 8 (sample_env (sample_ehdr 1))).1 rfl⟩,
   ⟨by unfold elf_header_ok; decide,
    (C9_load_checks_header 8 (sample_env { sample_ehdr 1 with e_machine := 62 })).2
      (by unfold elf_header_ok; decide)⟩⟩

theorem land_PGMASK (x : Nat) : x &&& PGMASK = x % PGSIZE := by
  have h := Nat.and_pow_two_sub_one_eq_mod x 12
  simpa [PGMASK, PGSIZE] using h

/-- C10: a program header that `validate_segment` accepts, its members being 32-bit
unsigned values, has `p_offset` and `p_vaddr` congruent modulo `PGSIZE`, `p_memsz` at least
`p_filesz` and positive, `p_vaddr` at least `PGSIZE`, and an exact sum
`p_vaddr + p_memsz` below `PHYS_BASE`; so every address of the segment is a user address
outside page 0. -/
theorem C10_validate_segment_accepts (phdr : Elf32_Phdr) (file_length : Int)
    (hv : phdr.p_vaddr < 2 ^ 32) (hm : phdr.p_memsz < 2 ^ 32)
    (h : validate_segment phdr file_length = true) :
    phdr.p_offset % PGSIZE = phdr.p_vaddr % PGSIZE ∧
    phdr.p_filesz ≤ phdr.p_memsz ∧
    0 < phdr.p_memsz ∧
    PGSIZE ≤ phdr.p_vaddr ∧
    phdr.p_vaddr + phdr.p_memsz < PHYS_BASE ∧
    ∀ a, phdr.p_vaddr ≤ a → a < phdr.p_vaddr + phdr.p_memsz →
      is_user_vaddr a = true ∧ PGSIZE ≤ a := by
  unfold validate_segment at h
  rw [land_PGMASK, land_PGMASK] at h
  split at h
  · cases h
  · rename_i h1
    split at h
    · cases h
    · split at h
      · cases h
      · rename_i h3
        split at h
        · cases h
        · rename_i h4
          split at h
          · cases h
          · rename_i h5
            split at h
            · cases h
            · rename_i h6
              split at h
              · cases h
              · rename_i h7
                split at h
                · cases h
                · rename_i h8
                  simp only [is_user_vaddr, PHYS_BASE, Bool.not_eq_true', decide_eq_false_iff_not,
                    not_not, not_lt] at h5 h6
                  simp only [not_not] at h1
                  simp only [PGSIZE, not_lt] at h8
                  simp only [not_lt] at h3 h7
                  have e32 : (2 : Nat) ^ 32 = 4294967296 := by norm_num
                  rw [e32] at h6 h7 hm hv
                  have hsum : phdr.p_vaddr + phdr.p_memsz < 3221225472 := by omega
                  refine ⟨h1, h3, Nat.pos_of_ne_zero h4, h8, hsum, ?_⟩
                  intro a ha1 ha2
                  refine ⟨?_, ?_⟩
                  · simp only [is_user_vaddr, PHYS_BASE, decide_eq_true_eq]
                    omega
                  · simp only [PGSIZE]
                    omega

/-- C10 at work: the segment at 0x08048000 of the sample executable is accepted. -/
theorem C10_validate_segment_accepts_witness :
    validate_segment sample_phdr 0x4000 = true ∧
    (sample_phdr.p_offset % PGSIZE = sample_phdr.p_vaddr % PGSIZE ∧
      sample_phdr.p_filesz ≤ sample_phdr.p_memsz ∧
      0 < sample_phdr.p_memsz ∧
      PGSIZE ≤ sample_phdr.p_vaddr ∧
      sample_phdr.p_vaddr + sample_phdr.p_memsz < PHYS_BASE ∧
      ∀ a, sample_phdr.p_vaddr ≤ a → a < sample_phdr.p_vaddr + sample_phdr.p_memsz →
        is_user_vaddr a = true ∧ PGSIZE ≤ a) :=
  ⟨by decide,
   C10_validate_segment_accepts sample_phdr 0x4000 (by decide) (by decide) (by decide)⟩

/-! ## The initial user stack -/

theorem strtok_r_loop_size (s : List Nat) : ∀ cur : List Nat,
    ((strtok_r_loop s cur).map (fun t => t.length + 1)).sum ≤ s.length + cur.length + 1 := by
  induction s with
  | nil =>
    intro cur
    cases cur <;> simp [strtok_r_loop]
  | cons c rest ih =>
    intro cur
    unfold strtok_r_loop
    by_cases hc : c = 32
    · rw [if_pos hc]
      cases cur with
      | nil =>
        have := ih []
        simp at this ⊢
        omega
      | cons a l =>
        have := ih []
        simp at this ⊢
        omega
    · rw [if_neg hc]
      have := ih (cur ++ [c])
      simp at this ⊢
      omega

theorem process_load_setup_args_foldl (l : List (List Nat)) : ∀ (acc : List (List Nat) × Nat),
    l.foldl (fun acc token => (token :: acc.1, acc.2 + 1)) acc
      = (l.reverse ++ acc.1, acc.2 + l.length) := by
  induction l with
  | nil => intro acc; simp
  | cons t rest ih =>
    intro acc
    rw [List.foldl_cons, ih]
    simp
    omega

theorem process_load_setup_args_eq (file_name : List Nat) :
    process_load_setup_args file_name
      = ((strtok_r_loop (file_name.take (PGSIZE - 1)) []).reverse,
         (strtok_r_loop (file_name.take (PGSIZE - 1)) []).length) := by
  unfold process_load_setup_args
  rw [process_load_setup_args_foldl]
  simp

theorem store_bytes_outside (mem : Nat → Nat) (a : Nat) (bs : List Nat) (x : Nat)
    (h : x < a ∨ a + bs.length ≤ x) : store_bytes mem a bs x = mem x := by
  unfold store_bytes
  rw [if_neg]
  omega

theorem store_bytes_inside (mem : Nat → Nat) (a : Nat) (bs : List Nat) (j : Nat)
    (h : j < bs.length) : store_bytes mem a bs (a + j) = bs.getD j 0 := by
  unfold store_bytes
  rw [if_pos (by omega)]
  congr 1
  omega

theorem load_u32_store_word (mem : Nat → Nat) (a v : Nat) :
    load_u32 (store_bytes mem a (word_bytes v)) a = v % 2 ^ 32 := by
  have h0 := store_bytes_inside mem a (word_bytes v) 0 (by simp [word_bytes])
  have h1 := store_bytes_inside mem a (word_bytes v) 1 (by simp [word_bytes])
  have h2 := store_bytes_inside mem a (word_bytes v) 2 (by simp [word_bytes])
  have h3 := store_bytes_inside mem a (word_bytes v) 3 (by simp [word_bytes])
  simp only [Nat.add_zero] at h0
  unfold load_u32
  rw [h0, h1, h2, h3]
  simp [word_bytes]
  omega

theorem load_u32_congr (m1 m2 : Nat → Nat) (a : Nat)
    (h : ∀ x, a ≤ x → x < a + 4 → m1 x = m2 x) : load_u32 m1 a = load_u32 m2 a := by
  unfold load_u32
  rw [h a (by omega) (by omega), h (a + 1) (by omega) (by omega),
    h (a + 2) (by omega) (by omega), h (a + 3) (by omega) (by omega)]

theorem pushed_mem_above (st : user_stack) (bs : List Nat) (h : bs.length ≤ st.esp) (x : Nat)
    (hx : st.esp ≤ x) : (pushed st bs).mem x = st.mem x := by
  unfold pushed
  exact store_bytes_outside _ _ _ _ (by omega)

theorem pushed_mem_at (st : user_stack) (bs : List Nat) (j : Nat) (hj : j < bs.length) :
    (pushed st bs).mem ((pushed st bs).esp + j) = bs.getD j 0 := by
  unfold pushed
  exact store_bytes_inside _ _ _ _ hj

theorem pushed_word_at (st : user_stack) (v : Nat) :
    load_u32 (pushed st (word_bytes v)).mem (pushed st (word_bytes v)).esp = v % 2 ^ 32 := by
  unfold pushed
  exact load_u32_store_word _ _ _

theorem pushed_word_above (st : user_stack) (bs : List Nat) (h : bs.length ≤ st.esp) (a : Nat)
    (ha : st.esp ≤ a) : load_u32 (pushed st bs).mem a = load_u32 st.mem a :=
  load_u32_congr _ _ _ (fun x hx _ => pushed_mem_above st bs h x (by omega))

theorem pushed_strings_spec (L : List (List Nat)) : ∀ st : user_stack,
    (L.map (fun t => t.length + 1)).sum ≤ st.esp →
    (pushed_strings L st).1.esp = st.esp - (L.map (fun t => t.length + 1)).sum ∧
    (pushed_strings L st).2.length = L.length ∧
    (∀ x, st.esp ≤ x → (pushed_strings L st).1.mem x = st.mem x) ∧
    ∀ i, i < L.length →
      (pushed_strings L st).1.esp ≤ (pushed_strings L st).2.getD i 0 ∧
      (pushed_strings L st).2.getD i 0 + (L.getD i []).length + 1 ≤ st.esp ∧
      ∀ j, j ≤ (L.getD i []).length →
        (pushed_strings L st).1.mem ((pushed_strings L st).2.getD i 0 + j)
          = ((L.getD i []) ++ [0]).getD j 0 := by
  induction L with
  | nil =>
    intro st _
    simp [pushed_strings]
  | cons t rest ih =>
    intro st h
    simp only [List.map_cons, List.sum_cons] at h
    have hlen : (t ++ [0]).length = t.length + 1 := by simp
    have hesp : (pushed st (t ++ [0])).esp = st.esp - (t.length + 1) := by
      simp [pushed]
    obtain ⟨e1, e2, e3, e4⟩ := ih (pushed st (t ++ [0])) (by rw [hesp]; omega)
    simp only [pushed_strings, List.map_cons, List.sum_cons, List.length_cons]
    refine ⟨by rw [e1, hesp]; omega, by rw [e2], ?_, ?_⟩
    · intro x hx
      rw [e3 x (by rw [hesp]; omega)]
      exact pushed_mem_above st _ (by rw [hlen]; omega) x hx
    · intro i hi
      cases i with
      | zero =>
        simp only [List.getD_cons_zero]
        refine ⟨by rw [e1]; omega, by rw [hesp]; omega, ?_⟩
        intro j hj
        rw [e3 _ (by omega)]
        exact pushed_mem_at st (t ++ [0]) j (by rw [hlen]; omega)
      | succ k =>
        simp only [List.getD_cons_succ]
        obtain ⟨f1, f2, f3⟩ := e4 k (by omega)
        exact ⟨f1, by rw [hesp] at f2; omega, f3⟩

theorem pushed_pointers_spec (ps : List Nat) : ∀ st : user_stack,
    4 * ps.length ≤ st.esp →
    (pushed_pointers ps st).esp = st.esp - 4 * ps.length ∧
    (∀ x, st.esp ≤ x → (pushed_pointers ps st).mem x = st.mem x) ∧
    ∀ i, i < ps.length →
      load_u32 (pushed_pointers ps st).mem (st.esp - 4 * (i + 1)) = ps.getD i 0 % 2 ^ 32 := by
  induction ps with
  | nil =>
    intro st _
    simp [pushed_pointers]
  | cons p rest ih =>
    intro st h
    simp only [List.length_cons] at h
    have hlen : (word_bytes p).length = 4 := by simp [word_bytes]
    have hesp : (pushed st (word_bytes p)).esp = st.esp - 4 := by
      simp [pushed, word_bytes]
    obtain ⟨e1, e2, e3⟩ := ih (pushed st (word_bytes p)) (by rw [hesp]; omega)
    simp only [pushed_pointers, List.length_cons]
    refine ⟨by rw [e1, hesp]; omega, ?_, ?_⟩
    · intro x hx
      rw [e2 x (by rw [hesp]; omega)]
      exact pushed_mem_above st _ (by rw [hlen]; omega) x hx
    · intro i hi
      cases i with
      | zero =>
        simp only [List.getD_cons_zero]
        have : st.esp - 4 * (0 + 1) = (pushed st (word_bytes p)).esp := by rw [hesp]
        rw [this, load_u32_congr _ (pushed st (word_bytes p)).mem _ (fun x hx _ => e2 x hx)]
        exact pushed_word_at st p
      | succ k =>
        simp only [List.getD_cons_succ]
        have := e3 k (by simp at hi; omega)
        rw [hesp] at this
        have e : st.esp - 4 * (k + 1 + 1) = st.esp - 4 - 4 * (k + 1) := by omega
        rw [e]
        exact this

theorem built_stack_layout (L : List (List Nat)) (argc : Nat) (st : user_stack)
    (h : packed_size L ≤ st.esp) (hE : st.esp < 2 ^ 32) (hc : argc < 2 ^ 32) :
    (built_stack L argc st).esp = st.esp - packed_size L ∧
    load_u32 (built_stack L argc st).mem (built_stack L argc st).esp = 0 ∧
    load_u32 (built_stack L argc st).mem ((built_stack L argc st).esp + 4)
      = argc ∧
    load_u32 (built_stack L argc st).mem ((built_stack L argc st).esp + 8)
      = (built_stack L argc st).esp + 12 ∧
    load_u32 (built_stack L argc st).mem
      ((built_stack L argc st).esp + 12 + 4 * L.length) = 0 ∧
    ∀ k, k < L.length →
      (built_stack L argc st).esp
        ≤ load_u32 (built_stack L argc st).mem
            ((built_stack L argc st).esp + 12 + 4 * (L.length - 1 - k)) ∧
      load_u32 (built_stack L argc st).mem
          ((built_stack L argc st).esp + 12 + 4 * (L.length - 1 - k))
        + (L.getD k []).length + 1 ≤ st.esp ∧
      ∀ j, j ≤ (L.getD k []).length →
        (built_stack L argc st).mem
          (load_u32 (built_stack L argc st).mem
            ((built_stack L argc st).esp + 12 + 4 * (L.length - 1 - k)) + j)
          = ((L.getD k []) ++ [0]).getD j 0 := by
  unfold packed_size at h
  obtain ⟨r1, r2, r3, r4⟩ := pushed_strings_spec L st (by omega)
  unfold packed_size
  simp only [built_stack]
  generalize pushed_strings L st = r at r1 r2 r3 r4
  generalize hS : (L.map (fun t => t.length + 1)).sum = S at h r1
  -- the pad byte and the sentinel
  have b2 : (pushed r.1 [0]).esp = st.esp - S - 1 := by simp [pushed, r1]
  have m2 : ∀ x, r.1.esp ≤ x → (pushed r.1 [0]).mem x = r.1.mem x :=
    fun x hx => pushed_mem_above _ _ (by simp; omega) x hx
  generalize pushed r.1 [0] = st2 at b2 m2
  have b3 : (pushed st2 (word_bytes 0)).esp = st.esp - S - 5 := by
    simp [pushed, word_bytes, b2]; omega
  have m3 : ∀ x, st2.esp ≤ x → (pushed st2 (word_bytes 0)).mem x = st2.mem x :=
    fun x hx => pushed_mem_above _ _ (by simp [word_bytes]; omega) x hx
  have w3 : load_u32 (pushed st2 (word_bytes 0)).mem (pushed st2 (word_bytes 0)).esp = 0 := by
    rw [pushed_word_at]; rfl
  generalize pushed st2 (word_bytes 0) = st3 at b3 m3 w3
  -- the pointers
  obtain ⟨b4, m4, w4⟩ := pushed_pointers_spec r.2 st3 (by rw [r2, b3]; omega)
  rw [r2, b3] at b4
  generalize pushed_pointers r.2 st3 = st4 at b4 m4 w4
  -- the three words below them
  have b5 : (pushed st4 (word_bytes st4.esp)).esp = st.esp - S - 5 - 4 * L.length - 4 := by
    simp [pushed, word_bytes, b4]
  have m5 : ∀ x, st4.esp ≤ x → (pushed st4 (word_bytes st4.esp)).mem x = st4.mem x :=
    fun x hx => pushed_mem_above _ _ (by simp [word_bytes]; omega) x hx
  have w5 : load_u32 (pushed st4 (word_bytes st4.esp)).mem (pushed st4 (word_bytes st4.esp)).esp
      = st4.esp := by
    rw [pushed_word_at]; exact Nat.mod_eq_of_lt (by omega)
  generalize pushed st4 (word_bytes st4.esp) = st5 at b5 m5 w5
  have b6 : (pushed st5 (word_bytes argc)).esp = st.esp - S - 5 - 4 * L.length - 8 := by
    simp [pushed, word_bytes, b5]; omega
  have m6 : ∀ x, st5.esp ≤ x → (pushed st5 (word_bytes argc)).mem x = st5.mem x :=
    fun x hx => pushed_mem_above _ _ (by simp [word_bytes]; omega) x hx
  have w6 : load_u32 (pushed st5 (word_bytes argc)).mem (pushed st5 (word_bytes argc)).esp
      = argc := by
    rw [pushed_word_at]; exact Nat.mod_eq_of_lt hc
  generalize pushed st5 (word_bytes argc) = st6 at b6 m6 w6
  have b7 : (pushed st6 (word_bytes 0)).esp = st.esp - S - 5 - 4 * L.length - 12 := by
    simp [pushed, word_bytes, b6]; omega
  have m7 : ∀ x, st6.esp ≤ x → (pushed st6 (word_bytes 0)).mem x = st6.mem x :=
    fun x hx => pushed_mem_above _ _ (by simp [word_bytes]; omega) x hx
  have w7 : load_u32 (pushed st6 (word_bytes 0)).mem (pushed st6 (word_bytes 0)).esp = 0 := by
    rw [pushed_word_at]; rfl
  generalize pushed st6 (word_bytes 0) = st7 at b7 m7 w7
  -- memory of the finished stack, read at or above each level
  have k6 : ∀ x, st6.esp ≤ x → st7.mem x = st6.mem x := m7
  have k5 : ∀ x, st5.esp ≤ x → st7.mem x = st5.mem x :=
    fun x hx => by rw [k6 x (by omega), m6 x hx]
  have k4 : ∀ x, st4.esp ≤ x → st7.mem x = st4.mem x :=
    fun x hx => by rw [k5 x (by omega), m5 x hx]
  have k3 : ∀ x, st3.esp ≤ x → st7.mem x = st3.mem x :=
    fun x hx => by rw [k4 x (by omega), m4 x hx]
  have k2 : ∀ x, st2.esp ≤ x → st7.mem x = st2.mem x :=
    fun x hx => by rw [k3 x (by omega), m3 x hx]
  have k1 : ∀ x, r.1.esp ≤ x → st7.mem x = r.1.mem x :=
    fun x hx => by rw [k2 x (by omega), m2 x hx]
  have ptr : ∀ k, k < L.length →
      load_u32 st7.mem (st7.esp + 12 + 4 * (L.length - 1 - k)) = r.2.getD k 0 := by
    intro k hk
    obtain ⟨f1, f2, _⟩ := r4 k hk
    have e : st7.esp + 12 + 4 * (L.length - 1 - k) = st3.esp - 4 * (k + 1) := by omega
    rw [e, load_u32_congr _ st4.mem _ (fun x hx _ => k4 x (by omega)), w4 k (by omega)]
    exact Nat.mod_eq_of_lt (by omega)
  refine ⟨by rw [b7]; omega, w7, ?_, ?_, ?_, ?_⟩
  · have e : st7.esp + 4 = st6.esp := by omega
    rw [e, load_u32_congr _ st6.mem _ (fun x hx _ => k6 x hx), w6]
  · have e : st7.esp + 8 = st5.esp := by omega
    rw [e, load_u32_congr _ st5.mem _ (fun x hx _ => k5 x hx), w5]
    omega
  · have e : st7.esp + 12 + 4 * L.length = st3.esp := by omega
    rw [e, load_u32_congr _ st3.mem _ (fun x hx _ => k3 x hx), w3]
  · intro k hk
    rw [ptr k hk]
    obtain ⟨f1, f2, f3⟩ := r4 k hk
    refine ⟨by omega, f2, ?_⟩
    intro j hj
    rw [k1 _ (by omega)]
    exact f3 j hj

theorem length_le_sum_lengths (l : List (List Nat)) :
    l.length ≤ (l.map (fun t => t.length + 1)).sum := by
  induction l with
  | nil => simp
  | cons t rest ih => simp only [List.length_cons, List.map_cons, List.sum_cons]; omega

theorem packed_size_reverse (l : List (List Nat)) : packed_size l.reverse = packed_size l := by
  unfold packed_size
  rw [List.length_reverse, List.map_reverse, List.sum_reverse]

theorem packed_size_tokens_le (file_name : List Nat) :
    packed_size (strtok_r_loop (file_name.take (PGSIZE - 1)) []) ≤ 5 * PGSIZE + 17 := by
  have h1 := strtok_r_loop_size (file_name.take (PGSIZE - 1)) []
  have h2 := length_le_sum_lengths (strtok_r_loop (file_name.take (PGSIZE - 1)) [])
  have h3 : (file_name.take (PGSIZE - 1)).length ≤ PGSIZE - 1 := by
    rw [List.length_take]; exact Nat.min_le_left _ _
  unfold packed_size
  simp only [PGSIZE, List.length_nil] at *
  omega

theorem getD_reverse_mirror (l : List (List Nat)) (i : Nat) (hi : i < l.length) :
    l.reverse.getD (l.length - 1 - i) [] = l.getD i [] := by
  rw [List.getD_eq_getElem?_getD, List.getD_eq_getElem?_getD,
    List.getElem?_reverse (by omega)]
  congr 2
  omega

theorem built_stack_esp (tokens : List (List Nat)) (mem : Nat → Nat)
    (hp : packed_size tokens ≤ 5 * PGSIZE + 17) :
    (built_stack tokens.reverse tokens.length
      { esp := PHYS_BASE, mem := mem, stores := [] }).esp = PHYS_BASE - packed_size tokens := by
  have := (built_stack_layout tokens.reverse tokens.length
    { esp := PHYS_BASE, mem := mem, stores := [] }
    (by rw [packed_size_reverse]; simp only [PGSIZE, PHYS_BASE] at *; omega)
    (by simp [PHYS_BASE])
    (by unfold packed_size at hp; simp only [PGSIZE] at hp; omega)).1
  rw [packed_size_reverse] at this
  exact this

theorem built_stack_argv (tokens : List (List Nat)) (mem : Nat → Nat)
    (hp : packed_size tokens ≤ 5 * PGSIZE + 17) :
    argv_layout tokens (built_stack tokens.reverse tokens.length
      { esp := PHYS_BASE, mem := mem, stores := [] }) := by
  obtain ⟨_, a0, a1, a2, a3, a4⟩ := built_stack_layout tokens.reverse tokens.length
    { esp := PHYS_BASE, mem := mem, stores := [] }
    (by rw [packed_size_reverse]; simp only [PGSIZE, PHYS_BASE] at *; omega)
    (by simp [PHYS_BASE])
    (by unfold packed_size at hp; simp only [PGSIZE] at hp; omega)
  rw [List.length_reverse] at a3 a4
  refine ⟨a0, a1, a2, ?_, a3⟩
  intro i hi
  obtain ⟨b1, b2, b3⟩ := a4 (tokens.length - 1 - i) (by omega)
  have e : tokens.length - 1 - (tokens.length - 1 - i) = i := by omega
  rw [e] at b1 b2 b3
  rw [getD_reverse_mirror tokens i hi] at b2 b3
  have b2' : load_u32 (built_stack tokens.reverse tokens.length
      { esp := PHYS_BASE, mem := mem, stores := [] }).mem
      ((built_stack tokens.reverse tokens.length
        { esp := PHYS_BASE, mem := mem, stores := [] }).esp + 12 + 4 * i)
      + (tokens.getD i []).length + 1 ≤ PHYS_BASE := b2
  refine ⟨?_, ?_, b1, Nat.lt_of_succ_le b2'⟩
  · intro j hj
    rw [b3 j (by omega), List.getD_append _ _ _ _ hj]
  · rw [b3 _ (le_refl _), List.getD_append_right _ _ _ _ (le_refl _)]
    simp

theorem pushed_stores (st : user_stack) (bs : List Nat) (hi : Nat) (h : bs.length ≤ st.esp)
    (he : st.esp ≤ hi) (hs : ∀ p ∈ st.stores, st.esp ≤ p.1 ∧ p.1 + p.2 ≤ hi) :
    ∀ p ∈ (pushed st bs).stores, (pushed st bs).esp ≤ p.1 ∧ p.1 + p.2 ≤ hi := by
  intro p hp
  simp only [pushed, List.mem_cons] at hp ⊢
  rcases hp with rfl | hp
  · simp only []
    omega
  · have := hs p hp
    omega

theorem pushed_strings_stores (L : List (List Nat)) (hi : Nat) : ∀ st : user_stack,
    (L.map (fun t => t.length + 1)).sum ≤ st.esp → st.esp ≤ hi →
    (∀ p ∈ st.stores, st.esp ≤ p.1 ∧ p.1 + p.2 ≤ hi) →
    ∀ p ∈ (pushed_strings L st).1.stores, (pushed_strings L st).1.esp ≤ p.1 ∧ p.1 + p.2 ≤ hi := by
  induction L with
  | nil => intro st _ _ hs; simpa [pushed_strings] using hs
  | cons t rest ih =>
    intro st h he hs
    simp only [List.map_cons, List.sum_cons] at h
    have hesp : (pushed st (t ++ [0])).esp = st.esp - (t.length + 1) := by simp [pushed]
    simp only [pushed_strings]
    exact ih (pushed st (t ++ [0])) (by rw [hesp]; omega) (by rw [hesp]; omega)
      (pushed_stores st _ hi (by simp; omega) he hs)

theorem pushed_pointers_stores (ps : List Nat) (hi : Nat) : ∀ st : user_stack,
    4 * ps.length ≤ st.esp → st.esp ≤ hi →
    (∀ p ∈ st.stores, st.esp ≤ p.1 ∧ p.1 + p.2 ≤ hi) →
    ∀ p ∈ (pushed_pointers ps st).stores, (pushed_pointers ps st).esp ≤ p.1 ∧ p.1 + p.2 ≤ hi := by
  induction ps with
  | nil => intro st _ _ hs; simpa [pushed_pointers] using hs
  | cons q rest ih =>
    intro st h he hs
    simp only [List.length_cons] at h
    have hesp : (pushed st (word_bytes q)).esp = st.esp - 4 := by simp [pushed, word_bytes]
    simp only [pushed_pointers]
    exact ih (pushed st (word_bytes q)) (by rw [hesp]; omega) (by rw [hesp]; omega)
      (pushed_stores st _ hi (by simp [word_bytes]; omega) he hs)

theorem built_stack_stores (L : List (List Nat)) (argc : Nat) (st : user_stack)
    (h : packed_size L ≤ st.esp) (hs : st.stores = []) :
    (∀ p ∈ (built_stack L argc st).stores,
      (built_stack L argc st).esp ≤ p.1 ∧ p.1 + p.2 ≤ st.esp) ∧
    ((built_stack L argc st).esp, 4) ∈ (built_stack L argc st).stores := by
  unfold packed_size at h
  obtain ⟨r1, r2, -, -⟩ := pushed_strings_spec L st (by omega)
  have s1 := pushed_strings_stores L st.esp st (by omega) (le_refl _) (by rw [hs]; simp)
  simp only [built_stack]
  generalize pushed_strings L st = r at r1 r2 s1
  generalize hS : (L.map (fun t => t.length + 1)).sum = S at h r1
  have b2 : (pushed r.1 [0]).esp = st.esp - S - 1 := by simp [pushed, r1]
  have s2 := pushed_stores r.1 [0] st.esp (by simp; omega) (by omega) s1
  generalize pushed r.1 [0] = st2 at b2 s2
  have b3 : (pushed st2 (word_bytes 0)).esp = st.esp - S - 5 := by
    simp [pushed, word_bytes, b2]; omega
  have s3 := pushed_stores st2 (word_bytes 0) st.esp (by simp [word_bytes]; omega) (by omega) s2
  generalize pushed st2 (word_bytes 0) = st3 at b3 s3
  obtain ⟨b4, -, -⟩ := pushed_pointers_spec r.2 st3 (by rw [r2, b3]; omega)
  have s4 := pushed_pointers_stores r.2 st.esp st3 (by rw [r2, b3]; omega) (by omega) s3
  rw [r2, b3] at b4
  generalize pushed_pointers r.2 st3 = st4 at b4 s4
  have b5 : (pushed st4 (word_bytes st4.esp)).esp = st.esp - S - 5 - 4 * L.length - 4 := by
    simp [pushed, word_bytes, b4]
  have s5 := pushed_stores st4 (word_bytes st4.esp) st.esp (by simp [word_bytes]; omega)
    (by omega) s4
  generalize pushed st4 (word_bytes st4.esp) = st5 at b5 s5
  have b6 : (pushed st5 (word_bytes argc)).esp = st.esp - S - 5 - 4 * L.length - 8 := by
    simp [pushed, word_bytes, b5]; omega
  have s6 := pushed_stores st5 (word_bytes argc) st.esp (by simp [word_bytes]; omega)
    (by omega) s5
  generalize pushed st5 (word_bytes argc) = st6 at b6 s6
  refine ⟨pushed_stores st6 (word_bytes 0) st.esp (by simp [word_bytes]; omega) (by omega) s6, ?_⟩
  simp [pushed, word_bytes]

theorem strtok_r_loop_replicate (c : Nat) (hc : c ≠ 32) (n : Nat) : ∀ cur : List Nat,
    strtok_r_loop (List.replicate (n + 1) c) cur = [cur ++ List.replicate (n + 1) c] := by
  induction n with
  | zero => intro cur; simp [strtok_r_loop, hc]
  | succ k ih =>
    intro cur
    rw [List.replicate_succ, strtok_r_loop, if_neg hc, ih]
    simp [List.replicate_succ]

theorem strtok_r_loop_long_argument :
    strtok_r_loop (long_argument.take (PGSIZE - 1)) []
      = [[101, 99, 104, 111], List.replicate 4080 120] := by
  have e : long_argument.take (PGSIZE - 1) = long_argument :=
    List.take_of_length_le (by
      show ([101, 99, 104, 111, 32] ++ List.replicate 4080 120).length ≤ 4096 - 1
      rw [List.length_append, List.length_replicate]
      decide)
  rw [e]
  show strtok_r_loop (101 :: 99 :: 104 :: 111 :: 32 :: List.replicate (4079 + 1) 120) [] = _
  rw [strtok_r_loop, if_neg (by decide), strtok_r_loop, if_neg (by decide),
    strtok_r_loop, if_neg (by decide), strtok_r_loop, if_neg (by decide),
    strtok_r_loop, if_pos rfl, if_neg (by decide),
    strtok_r_loop_replicate 120 (by decide)]
  rfl

theorem push_ok_eq {mapped : Nat → Bool} {st st1 : user_stack} {bs : List Nat}
    (h : push mapped st bs = Except.ok st1) : st1 = pushed st bs := by
  unfold push at h
  split at h
  · cases h; rfl
  · cases h

theorem push_in_page (mapped : Nat → Bool) (lo hi : Nat)
    (hmap : ∀ a, lo ≤ a → a < hi → mapped a = true) (st : user_stack) (bs : List Nat)
    (h1 : lo + bs.length ≤ st.esp) (h2 : st.esp ≤ hi) :
    push mapped st bs = Except.ok (pushed st bs) := by
  unfold push
  rw [if_pos]
  · rfl
  · rw [List.all_eq_true]
    intro i hi'
    rw [List.mem_range] at hi'
    exact hmap _ (by omega) (by omega)

theorem push_below_page (mapped : Nat → Bool) (lo : Nat) (hlow : mapped (lo - 1) = false)
    (hlo : 0 < lo) (st : user_stack) (bs : List Nat) (h1 : lo ≤ st.esp)
    (h2 : st.esp < lo + bs.length) :
    ∃ a, a < lo ∧ push mapped st bs = Except.error (fault.page_fault a) := by
  refine ⟨st.esp - bs.length, by omega, ?_⟩
  unfold push
  rw [if_neg]
  intro hall
  rw [List.all_eq_true] at hall
  have := hall (lo - 1 - (st.esp - bs.length)) (by rw [List.mem_range]; omega)
  have e : st.esp - bs.length + (lo - 1 - (st.esp - bs.length)) = lo - 1 := by omega
  rw [e, hlow] at this
  cases this

theorem bind_eq_ok {α β : Type} {x : Except fault α} {v : α} (f : α → Except fault β)
    (h : x = Except.ok v) : x.bind f = f v := by
  rw [h]; rfl

theorem bind_eq_error {α β : Type} {x : Except fault α} {e : fault} (f : α → Except fault β)
    (h : x = Except.error e) : x.bind f = Except.error e := by
  rw [h]; rfl

theorem bind_ok_inv {α β : Type} {x : Except fault α} {f : α → Except fault β} {y : β}
    (h : x.bind f = Except.ok y) : ∃ v, x = Except.ok v ∧ f v = Except.ok y := by
  cases x with
  | error e => cases h
  | ok v => exact ⟨v, rfl, h⟩

theorem push_strings_ok_eq (mapped : Nat → Bool) : ∀ (L : List (List Nat)) (st : user_stack)
    (r : user_stack × List Nat), push_strings mapped L st = Except.ok r →
    r = pushed_strings L st := by
  intro L
  induction L with
  | nil =>
    intro st r h
    simp only [push_strings] at h
    cases h
    rfl
  | cons t rest ih =>
    intro st r h
    simp only [push_strings] at h
    cases hp : push mapped st (t ++ [0]) with
    | error e => rw [hp] at h; cases h
    | ok st1 =>
      rw [hp] at h
      simp only [] at h
      cases hr : push_strings mapped rest st1 with
      | error e => rw [hr] at h; cases h
      | ok r1 =>
        rw [hr] at h
        simp only [] at h
        have e1 := push_ok_eq hp
        have e2 := ih st1 r1 hr
        subst e1
        subst e2
        cases h
        rfl

theorem push_strings_in_page (mapped : Nat → Bool) (lo hi : Nat)
    (hmap : ∀ a, lo ≤ a → a < hi → mapped a = true) : ∀ (L : List (List Nat))
    (st : user_stack), lo + (L.map (fun t => t.length + 1)).sum ≤ st.esp → st.esp ≤ hi →
    push_strings mapped L st = Except.ok (pushed_strings L st) := by
  intro L
  induction L with
  | nil => intro st _ _; rfl
  | cons t rest ih =>
    intro st h1 h2
    simp only [List.map_cons, List.sum_cons] at h1
    have hp := push_in_page mapped lo hi hmap st (t ++ [0])
      (by simp only [List.length_append, List.length_singleton]; omega) h2
    have hesp : (pushed st (t ++ [0])).esp = st.esp - (t.length + 1) := by simp [pushed]
    have hr := ih (pushed st (t ++ [0])) (by rw [hesp]; omega) (by rw [hesp]; omega)
    simp only [push_strings, hp, hr]
    rfl

theorem push_strings_below_page (mapped : Nat → Bool) (lo hi : Nat)
    (hmap : ∀ a, lo ≤ a → a < hi → mapped a = true) (hlow : mapped (lo - 1) = false)
    (hlo : 0 < lo) : ∀ (L : List (List Nat)) (st : user_stack), lo ≤ st.esp → st.esp ≤ hi →
    st.esp < lo + (L.map (fun t => t.length + 1)).sum →
    ∃ a, a < lo ∧ push_strings mapped L st = Except.error (fault.page_fault a) := by
  intro L
  induction L with
  | nil => intro st h1 _ h3; simp at h3; omega
  | cons t rest ih =>
    intro st h1 h2 h3
    simp only [List.map_cons, List.sum_cons] at h3
    rcases Nat.lt_or_ge st.esp (lo + (t.length + 1)) with c | c
    · obtain ⟨a, ha, hp⟩ := push_below_page mapped lo hlow hlo st (t ++ [0]) h1
        (by simp only [List.length_append, List.length_singleton]; omega)
      exact ⟨a, ha, by simp only [push_strings, hp]⟩
    · have hp := push_in_page mapped lo hi hmap st (t ++ [0])
        (by simp only [List.length_append, List.length_singleton]; omega) h2
      have hesp : (pushed st (t ++ [0])).esp = st.esp - (t.length + 1) := by simp [pushed]
      obtain ⟨a, ha, hr⟩ := ih (pushed st (t ++ [0])) (by rw [hesp]; omega)
        (by rw [hesp]; omega) (by rw [hesp]; omega)
      exact ⟨a, ha, by simp only [push_strings, hp, hr]⟩

theorem push_pointers_ok_eq (mapped : Nat → Bool) : ∀ (ps : List Nat) (st st1 : user_stack),
    push_pointers mapped ps st = Except.ok st1 → st1 = pushed_pointers ps st := by
  intro ps
  induction ps with
  | nil =>
    intro st st1 h
    simp only [push_pointers] at h
    cases h
    rfl
  | cons q rest ih =>
    intro st st1 h
    simp only [push_pointers] at h
    cases hp : push mapped st (word_bytes q) with
    | error e => rw [hp] at h; cases h
    | ok st2 =>
      rw [hp] at h
      simp only [] at h
      have e1 := push_ok_eq hp
      subst e1
      exact ih _ _ h

theorem push_pointers_in_page (mapped : Nat → Bool) (lo hi : Nat)
    (hmap : ∀ a, lo ≤ a → a < hi → mapped a = true) : ∀ (ps : List Nat) (st : user_stack),
    lo + 4 * ps.length ≤ st.esp → st.esp ≤ hi →
    push_pointers mapped ps st = Except.ok (pushed_pointers ps st) := by
  intro ps
  induction ps with
  | nil => intro st _ _; rfl
  | cons q rest ih =>
    intro st h1 h2
    simp only [List.length_cons] at h1
    have hlen : (word_bytes q).length = 4 := by simp [word_bytes]
    have hp := push_in_page mapped lo hi hmap st (word_bytes q) (by rw [hlen]; omega) h2
    have hesp : (pushed st (word_bytes q)).esp = st.esp - 4 := by simp [pushed, word_bytes]
    have hr := ih (pushed st (word_bytes q)) (by rw [hesp]; omega) (by rw [hesp]; omega)
    simp only [push_pointers, hp, hr]
    rfl

theorem push_pointers_below_page (mapped : Nat → Bool) (lo hi : Nat)
    (hmap : ∀ a, lo ≤ a → a < hi → mapped a = true) (hlow : mapped (lo - 1) = false)
    (hlo : 0 < lo) : ∀ (ps : List Nat) (st : user_stack), lo ≤ st.esp → st.esp ≤ hi →
    st.esp < lo + 4 * ps.length →
    ∃ a, a < lo ∧ push_pointers mapped ps st = Except.error (fault.page_fault a) := by
  intro ps
  induction ps with
  | nil => intro st h1 _ h3; simp at h3; omega
  | cons q rest ih =>
    intro st h1 h2 h3
    simp only [List.length_cons] at h3
    have hlen : (word_bytes q).length = 4 := by simp [word_bytes]
    rcases Nat.lt_or_ge st.esp (lo + 4) with c | c
    · obtain ⟨a, ha, hp⟩ := push_below_page mapped lo hlow hlo st (word_bytes q) h1
        (by rw [hlen]; omega)
      exact ⟨a, ha, by simp only [push_pointers, hp]⟩
    · have hp := push_in_page mapped lo hi hmap st (word_bytes q) (by rw [hlen]; omega) h2
      have hesp : (pushed st (word_bytes q)).esp = st.esp - 4 := by simp [pushed, word_bytes]
      obtain ⟨a, ha, hr⟩ := ih (pushed st (word_bytes q)) (by rw [hesp]; omega)
        (by rw [hesp]; omega) (by rw [hesp]; omega)
      exact ⟨a, ha, by simp only [push_pointers, hp, hr]⟩

theorem start_process_stack_ok_eq (mapped : Nat → Bool) (L : List (List Nat)) (argc : Nat)
    (st st1 : user_stack) (h : start_process_stack mapped L argc st = Except.ok st1) :
    st1 = built_stack L argc st := by
  unfold start_process_stack at h
  obtain ⟨r, h1, h⟩ := bind_ok_inv h
  obtain ⟨st2, h2, h⟩ := bind_ok_inv h
  obtain ⟨st3, h3, h⟩ := bind_ok_inv h
  obtain ⟨st4, h4, h⟩ := bind_ok_inv h
  obtain ⟨st5, h5, h⟩ := bind_ok_inv h
  obtain ⟨st6, h6, h⟩ := bind_ok_inv h
  have e1 := push_strings_ok_eq mapped L st r h1
  subst e1
  have e2 := push_ok_eq h2
  subst e2
  have e3 := push_ok_eq h3
  subst e3
  have e4 := push_pointers_ok_eq mapped _ _ _ h4
  subst e4
  have e5 := push_ok_eq h5
  subst e5
  have e6 := push_ok_eq h6
  subst e6
  exact push_ok_eq h

theorem start_process_stack_cases (mapped : Nat → Bool) (lo hi : Nat)
    (hmap : ∀ a, lo ≤ a → a < hi → mapped a = true) (L : List (List Nat)) (argc : Nat)
    (st : user_stack) (h1 : lo ≤ st.esp) (h2 : st.esp ≤ hi) :
    (lo + packed_size L ≤ st.esp →
      start_process_stack mapped L argc st = Except.ok (built_stack L argc st)) ∧
    (mapped (lo - 1) = false → 0 < lo → st.esp < lo + packed_size L →
      ∃ a, a < lo ∧ start_process_stack mapped L argc st
        = Except.error (fault.page_fault a)) := by
  unfold packed_size
  generalize hS : (L.map (fun t => t.length + 1)).sum = S
  have hw : ∀ v, (word_bytes v).length = 4 := by intro v; simp [word_bytes]
  have he : ∀ (u : user_stack) (bs : List Nat), (pushed u bs).esp = u.esp - bs.length := by
    intro u bs; rfl
  constructor
  · intro h
    obtain ⟨r1, r2, -, -⟩ := pushed_strings_spec L st (by omega)
    rw [hS] at r1
    have a1 := push_strings_in_page mapped lo hi hmap L st (by omega) h2
    unfold start_process_stack
    simp only [built_stack]
    rw [bind_eq_ok _ a1]
    generalize pushed_strings L st = r at r1 r2
    have a2 := push_in_page mapped lo hi hmap r.1 [0] (by simp; omega) (by omega)
    have b2 : (pushed r.1 [0]).esp = st.esp - S - 1 := by rw [he, r1]; simp
    rw [bind_eq_ok _ a2]
    generalize pushed r.1 [0] = st2 at b2
    have a3 := push_in_page mapped lo hi hmap st2 (word_bytes 0) (by rw [hw]; omega)
      (by omega)
    have b3 : (pushed st2 (word_bytes 0)).esp = st.esp - S - 5 := by rw [he, hw, b2]; omega
    rw [bind_eq_ok _ a3]
    generalize pushed st2 (word_bytes 0) = st3 at b3
    have a4 := push_pointers_in_page mapped lo hi hmap r.2 st3 (by rw [r2]; omega) (by omega)
    obtain ⟨b4, -, -⟩ := pushed_pointers_spec r.2 st3 (by rw [r2, b3]; omega)
    rw [r2, b3] at b4
    rw [bind_eq_ok _ a4]
    generalize pushed_pointers r.2 st3 = st4 at b4
    have a5 := push_in_page mapped lo hi hmap st4 (word_bytes st4.esp) (by rw [hw]; omega)
      (by omega)
    have b5 : (pushed st4 (word_bytes st4.esp)).esp
        = st.esp - S - 5 - 4 * L.length - 4 := by rw [he, hw, b4]
    rw [bind_eq_ok _ a5]
    generalize pushed st4 (word_bytes st4.esp) = st5 at b5
    have a6 := push_in_page mapped lo hi hmap st5 (word_bytes argc) (by rw [hw]; omega)
      (by omega)
    have b6 : (pushed st5 (word_bytes argc)).esp
        = st.esp - S - 5 - 4 * L.length - 8 := by rw [he, hw, b5]; omega
    rw [bind_eq_ok _ a6]
    generalize pushed st5 (word_bytes argc) = st6 at b6
    exact push_in_page mapped lo hi hmap st6 (word_bytes 0) (by rw [hw]; omega) (by omega)
  · intro hlow hlo h
    unfold start_process_stack
    rcases Nat.lt_or_ge st.esp (lo + S) with c1 | c1
    · obtain ⟨a, ha, e⟩ := push_strings_below_page mapped lo hi hmap hlow hlo L st h1 h2
        (by rw [hS]; exact c1)
      exact ⟨a, ha, by rw [bind_eq_error _ e]⟩
    obtain ⟨r1, r2, -, -⟩ := pushed_strings_spec L st (by omega)
    rw [hS] at r1
    have a1 := push_strings_in_page mapped lo hi hmap L st (by omega) h2
    rw [bind_eq_ok _ a1]
    generalize pushed_strings L st = r at r1 r2
    rcases Nat.lt_or_ge r.1.esp (lo + 1) with c2 | c2
    · obtain ⟨a, ha, e⟩ := push_below_page mapped lo hlow hlo r.1 [0] (by omega)
        (by simp; omega)
      exact ⟨a, ha, by rw [bind_eq_error _ e]⟩
    have a2 := push_in_page mapped lo hi hmap r.1 [0] (by simp; omega) (by omega)
    have b2 : (pushed r.1 [0]).esp = st.esp - S - 1 := by rw [he, r1]; simp
    rw [bind_eq_ok _ a2]
    generalize pushed r.1 [0] = st2 at b2
    rcases Nat.lt_or_ge st2.esp (lo + 4) with c3 | c3
    · obtain ⟨a, ha, e⟩ := push_below_page mapped lo hlow hlo st2 (word_bytes 0) (by omega)
        (by rw [hw]; omega)
      exact ⟨a, ha, by rw [bind_eq_error _ e]⟩
    have a3 := push_in_page mapped lo hi hmap st2 (word_bytes 0) (by rw [hw]; omega)
      (by omega)
    have b3 : (pushed st2 (word_bytes 0)).esp = st.esp - S - 5 := by rw [he, hw, b2]; omega
    rw [bind_eq_ok _ a3]
    generalize pushed st2 (word_bytes 0) = st3 at b3
    rcases Nat.lt_or_ge st3.esp (lo + 4 * L.length) with c4 | c4
    · obtain ⟨a, ha, e⟩ := push_pointers_below_page mapped lo hi hmap hlow hlo r.2 st3
        (by omega) (by omega) (by rw [r2]; omega)
      exact ⟨a, ha, by rw [bind_eq_error _ e]⟩
    have a4 := push_pointers_in_page mapped lo hi hmap r.2 st3 (by rw [r2]; omega) (by omega)
    obtain ⟨b4, -, -⟩ := pushed_pointers_spec r.2 st3 (by rw [r2, b3]; omega)
    rw [r2, b3] at b4
    rw [bind_eq_ok _ a4]
    generalize pushed_pointers r.2 st3 = st4 at b4
    rcases Nat.lt_or_ge st4.esp (lo + 4) with c5 | c5
    · obtain ⟨a, ha, e⟩ := push_below_page mapped lo hlow hlo st4 (word_bytes st4.esp)
        (by omega) (by rw [hw]; omega)
      exact ⟨a, ha, by rw [bind_eq_error _ e]⟩
    have a5 := push_in_page mapped lo hi hmap st4 (word_bytes st4.esp) (by rw [hw]; omega)
      (by omega)
    have b5 : (pushed st4 (word_bytes st4.esp)).esp
        = st.esp - S - 5 - 4 * L.length - 4 := by rw [he, hw, b4]
    rw [bind_eq_ok _ a5]
    generalize pushed st4 (word_bytes st4.esp) = st5 at b5
    rcases Nat.lt_or_ge st5.esp (lo + 4) with c6 | c6
    · obtain ⟨a, ha, e⟩ := push_below_page mapped lo hlow hlo st5 (word_bytes argc)
        (by omega) (by rw [hw]; omega)
      exact ⟨a, ha, by rw [bind_eq_error _ e]⟩
    have a6 := push_in_page mapped lo hi hmap st5 (word_bytes argc) (by rw [hw]; omega)
      (by omega)
    have b6 : (pushed st5 (word_bytes argc)).esp
        = st.esp - S - 5 - 4 * L.length - 8 := by rw [he, hw, b5]; omega
    rw [bind_eq_ok _ a6]
    generalize pushed st5 (word_bytes argc) = st6 at b6
    exact push_below_page mapped lo hlow hlo st6 (word_bytes 0) (by omega)
      (by rw [hw]; omega)

theorem start_process_eq (file_name : List Nat) (mem : Nat → Nat) (mapped : Nat → Bool)
    (hn : strtok_r_loop (file_name.take (PGSIZE - 1)) [] ≠ []) :
    start_process file_name mem mapped
      = start_process_stack mapped (strtok_r_loop (file_name.take (PGSIZE - 1)) []).reverse
          (strtok_r_loop (file_name.take (PGSIZE - 1)) []).length
          { esp := PHYS_BASE, mem := mem, stores := [] } := by
  unfold start_process
  rw [process_load_setup_args_eq]
  rw [if_neg]
  simpa using hn

theorem start_process_ok_eq (file_name : List Nat) (mem : Nat → Nat) (mapped : Nat → Bool)
    (hn : strtok_r_loop (file_name.take (PGSIZE - 1)) [] ≠ []) (st : user_stack)
    (h : start_process file_name mem mapped = Except.ok st) :
    st = built_stack (strtok_r_loop (file_name.take (PGSIZE - 1)) []).reverse
          (strtok_r_loop (file_name.take (PGSIZE - 1)) []).length
          { esp := PHYS_BASE, mem := mem, stores := [] } := by
  rw [start_process_eq file_name mem mapped hn] at h
  exact start_process_stack_ok_eq mapped _ _ _ _ h

theorem start_process_in_page (file_name : List Nat) (mem : Nat → Nat) (mapped : Nat → Bool)
    (hn : strtok_r_loop (file_name.take (PGSIZE - 1)) [] ≠ [])
    (hmap : ∀ a, PHYS_BASE - PGSIZE ≤ a → a < PHYS_BASE → mapped a = true)
    (hp : packed_size (strtok_r_loop (file_name.take (PGSIZE - 1)) []) ≤ PGSIZE) :
    start_process file_name mem mapped
      = Except.ok (built_stack (strtok_r_loop (file_name.take (PGSIZE - 1)) []).reverse
          (strtok_r_loop (file_name.take (PGSIZE - 1)) []).length
          { esp := PHYS_BASE, mem := mem, stores := [] }) := by
  rw [start_process_eq file_name mem mapped hn]
  exact (start_process_stack_cases mapped (PHYS_BASE - PGSIZE) PHYS_BASE hmap _ _
    { esp := PHYS_BASE, mem := mem, stores := [] } (by simp [PHYS_BASE, PGSIZE])
    (le_refl _)).1 (by
      rw [packed_size_reverse]
      simp only [PHYS_BASE, PGSIZE] at hp ⊢
      omega)

theorem start_process_below_page (file_name : List Nat) (mem : Nat → Nat)
    (mapped : Nat → Bool) (hn : strtok_r_loop (file_name.take (PGSIZE - 1)) [] ≠ [])
    (hmap : ∀ a, PHYS_BASE - PGSIZE ≤ a → a < PHYS_BASE → mapped a = true)
    (hlow : mapped (PHYS_BASE - PGSIZE - 1) = false)
    (hp : PGSIZE < packed_size (strtok_r_loop (file_name.take (PGSIZE - 1)) [])) :
    ∃ a, a < PHYS_BASE - PGSIZE ∧
      start_process file_name mem mapped = Except.error (fault.page_fault a) := by
  rw [start_process_eq file_name mem mapped hn]
  exact (start_process_stack_cases mapped (PHYS_BASE - PGSIZE) PHYS_BASE hmap _ _
    { esp := PHYS_BASE, mem := mem, stores := [] } (by simp [PHYS_BASE, PGSIZE])
    (le_refl _)).2 hlow (by decide) (by
      rw [packed_size_reverse]
      simp only [PHYS_BASE, PGSIZE] at hp ⊢
      omega)

theorem stack_page_mapped :
    ∀ a, PHYS_BASE - PGSIZE ≤ a → a < PHYS_BASE → stack_page a = true := by
  intro a h1 h2
  simp only [stack_page, decide_eq_true_eq]
  exact ⟨h1, h2⟩

/-- C11: for every command line with at least one token, whenever `start_process` has
built the stack, the stack holds 0 at `esp`, the number of tokens at `esp + 4`, the
address `esp + 12` at `esp + 8`, at `esp + 12 + 4 * i` a pointer to a copy of token `i`
followed by a zero byte and lying between `esp` and `PHYS_BASE`, and 0 in the slot after
the last pointer; and it does build the stack when the page that `setup_stack` installed
is mapped and the packed arguments take at most `PGSIZE` bytes. -/
theorem C11_user_stack_layout (file_name : List Nat) (mem : Nat → Nat) (mapped : Nat → Bool)
    (hn : strtok_r_loop (file_name.take (PGSIZE - 1)) [] ≠ []) :
    (∀ st, start_process file_name mem mapped = Except.ok st →
      argv_layout (strtok_r_loop (file_name.take (PGSIZE - 1)) []) st) ∧
    ((∀ a, PHYS_BASE - PGSIZE ≤ a → a < PHYS_BASE → mapped a = true) →
      packed_size (strtok_r_loop (file_name.take (PGSIZE - 1)) []) ≤ PGSIZE →
      ∃ st, start_process file_name mem mapped = Except.ok st ∧
        PHYS_BASE - PGSIZE ≤ st.esp ∧
        argv_layout (strtok_r_loop (file_name.take (PGSIZE - 1)) []) st) := by
  constructor
  · intro st h
    rw [start_process_ok_eq file_name mem mapped hn st h]
    exact built_stack_argv _ mem (packed_size_tokens_le file_name)
  · intro hmap hp
    refine ⟨_, start_process_in_page file_name mem mapped hn hmap hp, ?_,
      built_stack_argv _ mem (packed_size_tokens_le file_name)⟩
    rw [built_stack_esp _ mem (packed_size_tokens_le file_name)]
    simp only [PHYS_BASE, PGSIZE] at hp ⊢
    omega

theorem C11_user_stack_layout_witness :
    strtok_r_loop (echo_a_b.take (PGSIZE - 1)) [] = [[101, 99, 104, 111], [97], [98]] ∧
    ∃ st, start_process echo_a_b (fun _ => 0) stack_page = Except.ok st ∧
      PHYS_BASE - PGSIZE ≤ st.esp ∧
      argv_layout (strtok_r_loop (echo_a_b.take (PGSIZE - 1)) []) st :=
  ⟨by decide,
    (C11_user_stack_layout echo_a_b (fun _ => 0) stack_page (by decide)).2 stack_page_mapped
      (by decide)⟩

/-- C12: for the command line `echo a b` the single pad byte is stored at
`PHYS_BASE - 10`, and the final stack pointer `PHYS_BASE - 38` and the slot of the
sentinel twenty-four bytes above it are 2 modulo 4, not multiples of 4. -/
theorem C12_single_pad_byte_misaligned :
    ∃ st, start_process echo_a_b (fun _ => 0) stack_page = Except.ok st ∧
      (PHYS_BASE - 10, 1) ∈ st.stores ∧
      st.esp = PHYS_BASE - 38 ∧ st.esp % 4 = 2 ∧ (st.esp + 12 + 4 * 3) % 4 = 2 := by
  refine ⟨_, rfl, ?_, ?_, ?_, ?_⟩ <;> decide

/-- C13, counterexample: the command line `echo` with one argument of 4080 letters, whose
packed arguments take 4111 bytes, is not refused: with the one page of `setup_stack`
mapped, `start_process` goes on to a store that begins below `PHYS_BASE - PGSIZE` and
page-faults there. -/
theorem C13_long_argument_below_page :
    strtok_r_loop (long_argument.take (PGSIZE - 1)) []
      = [[101, 99, 104, 111], List.replicate 4080 120] ∧
    packed_size [[101, 99, 104, 111], List.replicate 4080 120] = 4111 ∧
    ∃ a, a < PHYS_BASE - PGSIZE ∧
      start_process long_argument (fun _ => 0) stack_page
        = Except.error (fault.page_fault a) := by
  have ht := strtok_r_loop_long_argument
  have hz : packed_size [[101, 99, 104, 111], List.replicate 4080 120] = 4111 := by
    simp only [packed_size, List.map_cons, List.map_nil, List.sum_cons, List.sum_nil,
      List.length_cons, List.length_nil, List.length_replicate]
    rfl
  refine ⟨ht, hz, ?_⟩
  exact start_process_below_page long_argument (fun _ => 0) stack_page
    (by rw [ht]; exact List.cons_ne_nil _ _) stack_page_mapped (by decide)
    (by rw [ht, hz]; decide)

/-- C13, amended: `start_process` checks no bound. For every command line with a token,
(1) whenever it completes, its stores lie between the final `esp` and `PHYS_BASE`, the
last one at `esp` itself, and `esp` is `PHYS_BASE` less the packed size, so the stores
are inside the page at `PHYS_BASE - PGSIZE` exactly when the packed size is at most
`PGSIZE`; with the page of `setup_stack` mapped, (2) it completes when the packed size is
at most `PGSIZE`, and (3) when the packed size is larger and the byte below the page is
not mapped, it reaches a store that begins below the page and page-faults. -/
theorem C13_stores_span_packed_size (file_name : List Nat) (mem : Nat → Nat)
    (mapped : Nat → Bool) (hn : strtok_r_loop (file_name.take (PGSIZE - 1)) [] ≠ []) :
    (∀ st, start_process file_name mem mapped = Except.ok st →
      st.esp = PHYS_BASE - packed_size (strtok_r_loop (file_name.take (PGSIZE - 1)) []) ∧
      (∀ p ∈ st.stores, st.esp ≤ p.1 ∧ p.1 + p.2 ≤ PHYS_BASE) ∧
      (st.esp, 4) ∈ st.stores ∧
      ((∀ p ∈ st.stores, PHYS_BASE - PGSIZE ≤ p.1)
        ↔ packed_size (strtok_r_loop (file_name.take (PGSIZE - 1)) []) ≤ PGSIZE)) ∧
    ((∀ a, PHYS_BASE - PGSIZE ≤ a → a < PHYS_BASE → mapped a = true) →
      (packed_size (strtok_r_loop (file_name.take (PGSIZE - 1)) []) ≤ PGSIZE →
        ∃ st, start_process file_name mem mapped = Except.ok st) ∧
      (mapped (PHYS_BASE - PGSIZE - 1) = false →
        PGSIZE < packed_size (strtok_r_loop (file_name.take (PGSIZE - 1)) []) →
        ∃ a, a < PHYS_BASE - PGSIZE ∧
          start_process file_name mem mapped = Except.error (fault.page_fault a))) := by
  have hp := packed_size_tokens_le file_name
  have he := built_stack_esp _ mem hp
  obtain ⟨hs1, hs2⟩ := built_stack_stores
    (strtok_r_loop (file_name.take (PGSIZE - 1)) []).reverse
    (strtok_r_loop (file_name.take (PGSIZE - 1)) []).length
    { esp := PHYS_BASE, mem := mem, stores := [] }
    (by rw [packed_size_reverse]; simp only [PGSIZE, PHYS_BASE] at *; omega) rfl
  constructor
  · intro st h
    rw [start_process_ok_eq file_name mem mapped hn st h]
    refine ⟨he, hs1, hs2, ?_⟩
    constructor
    · intro h
      have := h _ hs2
      simp only [] at this
      rw [he] at this
      simp only [PGSIZE, PHYS_BASE] at *
      omega
    · intro h p hpm
      have := (hs1 p hpm).1
      rw [he] at this
      simp only [PGSIZE, PHYS_BASE] at *
      omega
  · intro hmap
    exact ⟨fun hle => ⟨_, start_process_in_page file_name mem mapped hn hmap hle⟩,
      fun hlow hgt => start_process_below_page file_name mem mapped hn hmap hlow hgt⟩

theorem C13_stores_span_packed_size_witness :
    packed_size (strtok_r_loop (echo_a_b.take (PGSIZE - 1)) []) = 38 ∧
    (∃ st, start_process echo_a_b (fun _ => 0) stack_page = Except.ok st) ∧
    PGSIZE < packed_size (strtok_r_loop (long_argument.take (PGSIZE - 1)) []) ∧
    ∃ a, a < PHYS_BASE - PGSIZE ∧
      start_process long_argument (fun _ => 0) stack_page
        = Except.error (fault.page_fault a) :=
  have hl : PGSIZE < packed_size (strtok_r_loop (long_argument.take (PGSIZE - 1)) []) := by
    rw [strtok_r_loop_long_argument]
    simp only [packed_size, List.map_cons, List.map_nil, List.sum_cons, List.sum_nil,
      List.length_cons, List.length_nil, List.length_replicate]
    decide
  ⟨by decide,
    ((C13_stores_span_packed_size echo_a_b (fun _ => 0) stack_page (by decide)).2
      stack_page_mapped).1 (by decide),
    hl,
    ((C13_stores_span_packed_size long_argument (fun _ => 0) stack_page
      (by rw [strtok_r_loop_long_argument]; exact List.cons_ne_nil _ _)).2
      stack_page_mapped).2 (by decide) hl⟩

/-! ## The rendezvous of parent and child -/

theorem process_load_setup_loop_no_match (env : Nat → process_state → Option wake_up)
    (tid : Int) (w : process_state) : ∀ l : List Nat, (∀ u ∈ l, w.tid u ≠ tid) →
    process_load_setup_loop env tid l w = outcome.returned tid w := by
  intro l
  induction l with
  | nil => intro _; rfl
  | cons u rest ih =>
    intro h
    rw [process_load_setup_loop, if_neg (h u (List.mem_cons_self _ _))]
    exact ih (fun v hv => h v (List.mem_cons_of_mem _ hv))

theorem process_wait_loop_no_match (env : Nat → process_state → Option wake_up)
    (child_tid : Int) (w : process_state) : ∀ l : List Nat, (∀ u ∈ l, w.tid u ≠ child_tid) →
    process_wait_loop env child_tid l w = outcome.returned (-1) w := by
  intro l
  induction l with
  | nil => intro _; rfl
  | cons u rest ih =>
    intro h
    rw [process_wait_loop, if_neg (h u (List.mem_cons_self _ _))]
    exact ih (fun v hv => h v (List.mem_cons_of_mem _ hv))

theorem process_wait_loop_match (t : Nat) (status : Int) (child_tid : Int)
    (w : process_state) (htid : w.tid t = child_tid) (hheld : t ∉ w.held) :
    ∀ l : List Nat, t ∈ l → (∀ u ∈ l, w.tid u = child_tid → u = t) →
    process_wait_loop (process_exit_report t status) child_tid l w
      = outcome.returned status
          { w with
            children := w.children.erase t,
            exit_status := Function.update w.exit_status t status,
            held := (t :: w.held).erase t,
            calls := w.calls ++ [sync_call.lock_acquire t, sync_call.cond_wait t,
              sync_call.cond_signal t, sync_call.lock_release t] } := by
  intro l
  induction l with
  | nil => intro h; simp at h
  | cons u rest ih =>
    intro hmem huniq
    by_cases hu : u = t
    · subst hu
      rw [process_wait_loop, if_pos htid]
      simp only [lock_acquire, if_neg hheld, cond_wait, process_exit_report, if_true]
      simp [lock_release, cond_signal]
    · have hne : w.tid u ≠ child_tid := fun c => hu (huniq u (List.mem_cons_self _ _) c)
      rw [process_wait_loop, if_neg hne]
      refine ih ?_ (fun v hv => huniq v (List.mem_cons_of_mem _ hv))
      rcases List.mem_cons.1 hmem with h | h
      · exact absurd h.symm hu
      · exact h

theorem process_load_setup_body (env : Nat → process_state → Option wake_up)
    (malloc : Nat → Bool) (file_name : List Nat) (tid : Int) (w : process_state)
    (hmalloc : ∀ i, malloc i = true)
    (htok : strtok_r_loop (file_name.take (PGSIZE - 1)) [] ≠ []) :
    process_load_setup env true malloc file_name tid w
      = process_load_setup_loop env tid w.children w := by
  have hall : (List.range (strtok_r_loop (file_name.take (PGSIZE - 1)) []).length).all
      (fun i => malloc (i + 1)) = true := by
    rw [List.all_eq_true]
    intro i _
    exact hmalloc (i + 1)
  have hemp : (process_load_setup_args file_name).1.isEmpty = false := by
    rw [process_load_setup_args_eq]
    simpa using htok
  unfold process_load_setup
  rw [if_neg (by decide), if_neg (by rw [hmalloc 0]; decide), if_neg (by rw [hall]; decide),
    if_neg (by rw [hemp]; decide)]

theorem process_load_setup_no_children (env : Nat → process_state → Option wake_up)
    (page : Bool) (malloc : Nat → Bool) (file_name : List Nat) (tid v : Int)
    (w w1 : process_state) (hc : w.children = [])
    (h : process_load_setup env page malloc file_name tid w = outcome.returned v w1) :
    w1 = w := by
  unfold process_load_setup at h
  rw [hc] at h
  simp only [process_load_setup_loop] at h
  split at h
  · cases h; rfl
  · split at h
    · cases h; rfl
    · split at h
      · cases h; rfl
      · split at h
        · cases h
        · cases h; rfl

theorem process_wait_no_children (env : Nat → process_state → Option wake_up)
    (child_tid v : Int) (w w1 : process_state) (hc : w.children = [])
    (h : process_wait env child_tid w = outcome.returned v w1) : w1 = w := by
  unfold process_wait at h
  rw [hc] at h
  simp only [process_wait_loop] at h
  cases h
  rfl

theorem process_reachable_inv (w : process_state) (h : process_reachable w) :
    w.children = [] ∧ w.held = [] := by
  induction h with
  | init tid exit_status => exact ⟨rfl, rfl⟩
  | load_setup env page malloc file_name tid v _ hr ih =>
    rw [process_load_setup_no_children env page malloc file_name tid v _ _ ih.1 hr]
    exact ih
  | wait env child_tid v _ hr ih =>
    rw [process_wait_no_children env child_tid v _ _ ih.1 hr]
    exact ih
  | child_exit c _ ih =>
    refine ⟨?_, ih.2⟩
    show _ = []
    simp [ih.1]
  | members tid exit_status _ ih => exact ih

/-- What `process_load_setup_loop` may hold when it returns, in any state: the anchors
held before, or, after `return -1` for a listed child that reported -1, the anchor of
that child in addition, that return coming before `lock_release`. -/
theorem process_load_setup_loop_held (env : Nat → process_state → Option wake_up)
    (tid : Int) : ∀ (l : List Nat) (w : process_state) (v : Int) (w1 : process_state),
    process_load_setup_loop env tid l w = outcome.returned v w1 →
    w1.held = w.held ∨
      (v = -1 ∧ ∃ t ∈ l, w.tid t = tid ∧ w1.exit_status t = -1 ∧ w1.held = t :: w.held) := by
  intro l
  induction l with
  | nil =>
    intro w v w1 h
    simp only [process_load_setup_loop] at h
    cases h
    exact Or.inl rfl
  | cons u rest ih =>
    intro w v w1 h
    rw [process_load_setup_loop] at h
    split at h
    · rename_i hu
      by_cases hh : u ∈ w.held
      · simp only [lock_acquire, if_pos hh] at h
        cases h
      · simp only [lock_acquire, if_neg hh, cond_wait] at h
        cases he : env u
            { w with held := u :: w.held,
                     calls := w.calls ++ [sync_call.lock_acquire u] } with
        | none => rw [he] at h; cases h
        | some x =>
          rw [he] at h
          simp only [] at h
          split at h
          · rename_i hx
            cases h
            exact Or.inr ⟨rfl, u, List.mem_cons_self _ _, hu, hx, rfl⟩
          · rcases ih _ v w1 h with a | ⟨a, t, ht, b, c, d⟩
            · left
              rw [a]
              simp [lock_release, cond_signal]
            · right
              refine ⟨a, t, List.mem_cons_of_mem _ ht, b, c, ?_⟩
              rw [d]
              simp [lock_release, cond_signal]
    · rcases ih w v w1 h with a | ⟨a, t, ht, b, c, d⟩
      · exact Or.inl a
      · exact Or.inr ⟨a, t, List.mem_cons_of_mem _ ht, b, c, d⟩

/-- C14: in every state that the sources produce the `children` list of the caller is
empty, for no code links a new thread into it; so `process_load_setup`, with the page and
every allocation granted and at least one token, returns what `thread_create` returned,
the id of the new thread also when the load of the child fails, whatever the child
reports, with no lock taken and no wait made. -/
theorem C14_failed_load_returns_tid (w : process_state) (h : process_reachable w)
    (env : Nat → process_state → Option wake_up) (malloc : Nat → Bool)
    (file_name : List Nat) (tid : Int) (hmalloc : ∀ i, malloc i = true)
    (htok : strtok_r_loop (file_name.take (PGSIZE - 1)) [] ≠ []) :
    w.children = [] ∧
    process_load_setup env true malloc file_name tid w = outcome.returned tid w := by
  have hc := (process_reachable_inv w h).1
  refine ⟨hc, ?_⟩
  rw [process_load_setup_body env malloc file_name tid w hmalloc htok, hc]
  rfl

theorem C14_failed_load_returns_tid_witness :
    fresh_parent.children = [] ∧
    process_load_setup (start_process_report 5 false) true (fun _ => true) echo_a_b 5
      fresh_parent = outcome.returned 5 fresh_parent :=
  C14_failed_load_returns_tid fresh_parent (process_reachable.init _ _)
    (start_process_report 5 false) (fun _ => true) echo_a_b 5 (fun _ => rfl) (by decide)

/-- C15: `process_wait` (1) returns -1 with the state as it was, no lock taken and no
wait made, when no thread on the `children` list has the id; (2) when the child with the
id is on the list, with an anchor the caller does not hold, and exits with a status, it
returns that status with the anchor released again, the child is gone from the list, and
any further wait for the same id returns -1 with the state as it was. -/
theorem C15_process_wait_result (w : process_state) (child_tid : Int) :
    ((∀ u ∈ w.children, w.tid u ≠ child_tid) →
      ∀ env, process_wait env child_tid w = outcome.returned (-1) w) ∧
    (∀ t status, t ∈ w.children → w.tid t = child_tid →
      (∀ u ∈ w.children, w.tid u = child_tid → u = t) → w.children.Nodup → t ∉ w.held →
      ∃ w1, process_wait (process_exit_report t status) child_tid w
          = outcome.returned status w1 ∧
        w1.children = w.children.erase t ∧ w1.held = w.held ∧
        ∀ env, process_wait env child_tid w1 = outcome.returned (-1) w1) := by
  constructor
  · intro hnone env
    exact process_wait_loop_no_match env child_tid w w.children hnone
  · intro t status ht htid huniq hnd hheld
    refine ⟨_, process_wait_loop_match t status child_tid w htid hheld w.children ht huniq,
      rfl, by simp, ?_⟩
    intro env
    refine process_wait_loop_no_match env child_tid _ _ ?_
    intro u hu c
    have hu' := (List.Nodup.mem_erase_iff hnd).1 hu
    exact hu'.1 (huniq u hu'.2 c)

theorem C15_process_wait_result_witness :
    process_wait (fun _ _ => none) 7 two_children = outcome.returned (-1) two_children ∧
    ∃ w1, process_wait (process_exit_report 6 3) 6 two_children = outcome.returned 3 w1 ∧
      w1.children = two_children.children.erase 6 ∧ w1.held = two_children.held ∧
      ∀ env, process_wait env 6 w1 = outcome.returned (-1) w1 :=
  ⟨(C15_process_wait_result two_children 7).1 (by decide) _,
   (C15_process_wait_result two_children 6).2 6 3 (by decide) rfl (by decide) (by decide)
     (by decide)⟩

/-! ## System calls -/

/-- C16: `validate_user_pointer` leaves through `exit_syscall (-1)` exactly when the
pointer is null, not below `PHYS_BASE`, or not mapped, and returns with the state
unchanged exactly in the other case. -/
theorem C16_validate_user_pointer (s : syscall_state) (p : Nat) :
    (validate_user_pointer s p
        = Except.error (syscall_stop.thread_exit { s with exit_status := -1 })
      ↔ (p = 0 ∨ PHYS_BASE ≤ p ∨ s.pagedir_get_page p = false)) ∧
    (validate_user_pointer s p = Except.ok s
      ↔ ¬ (p = 0 ∨ PHYS_BASE ≤ p ∨ s.pagedir_get_page p = false)) := by
  unfold validate_user_pointer exit_syscall is_user_vaddr
  by_cases h : p = 0 ∨ PHYS_BASE ≤ p ∨ s.pagedir_get_page p = false
  · have h' : p = 0 ∨ decide (p < PHYS_BASE) = false ∨ s.pagedir_get_page p = false := by
      rcases h with h | h | h
      · exact Or.inl h
      · exact Or.inr (Or.inl (by simp; omega))
      · exact Or.inr (Or.inr h)
    rw [if_pos h']
    simp [h]
  · have h' : ¬ (p = 0 ∨ decide (p < PHYS_BASE) = false ∨ s.pagedir_get_page p = false) := by
      intro c
      apply h
      rcases c with c | c | c
      · exact Or.inl c
      · exact Or.inr (Or.inl (by simp at c; omega))
      · exact Or.inr (Or.inr c)
    rw [if_neg h']
    simp [h]

/-- C17: a buffer whose first byte is the last byte of a mapped page passes with its
second byte unmapped, and is handed to the console by `write` and to the file system by
`read`; and an argument word whose first byte is two below `PHYS_BASE` is read with its
upper half taken from the kernel bytes at and above `PHYS_BASE`. -/
theorem C17_only_first_byte_validated :
    (validate_user_pointer (syscall_scene 9 1 0x08048FFF 2) (0x08048FFF + 1)
        = Except.error (exit_syscall (syscall_scene 9 1 0x08048FFF 2) (-1)) ∧
      ∃ s, write_handler (syscall_scene 9 1 0x08048FFF 2) 0xBFFFFFF0 = Except.ok s ∧
        s.calls = [io_call.putbuf 0x08048FFF 2]) ∧
    (∃ s, read_handler (syscall_scene 8 2 0x08048FFF 2) 0xBFFFFFF0 = Except.ok s ∧
        s.calls = [io_call.file_read 2 0x08048FFF 2]) ∧
    (is_user_vaddr (PHYS_BASE - 2 + 2) = false ∧
      get_stack_argument straddle_scene (PHYS_BASE - 6) 0 = Except.ok 0xBBAA0000) := by
  refine ⟨⟨rfl, _, rfl, by decide⟩, ⟨_, rfl, by decide⟩, by decide, rfl⟩

/-- C18: when the word at a valid `esp` is negative as a signed number, the assertion
`syscall_number < SYS_NUM_SYSCALLS` holds and `syscall_handler` indexes the table below
its first entry. -/
theorem C18_negative_number_indexes_table (s : syscall_state) (esp : Nat)
    (hv : validate_user_pointer s esp = Except.ok s)
    (hneg : to_int32 (load_u32 s.mem esp) < 0) :
    syscall_handler s esp
      = Except.error (syscall_stop.outside_handler_table (to_int32 (load_u32 s.mem esp))) := by
  unfold syscall_handler
  rw [hv]
  simp only []
  rw [if_pos (by unfold SYS_NUM_SYSCALLS; omega), if_neg (by omega)]

theorem C18_negative_number_indexes_table_witness :
    syscall_handler (syscall_scene 0xFFFFFFFF 0 0 0) 0xBFFFFFF0
      = Except.error (syscall_stop.outside_handler_table (-1)) :=
  C18_negative_number_indexes_table (syscall_scene 0xFFFFFFFF 0 0 0) 0xBFFFFFF0 rfl (by decide)

theorem syscall_handler_in_range (s : syscall_state) (esp : Nat)
    (hv : validate_user_pointer s esp = Except.ok s) (n : Nat) (hn : n < 13)
    (hw : to_int32 (load_u32 s.mem esp) = (n : Int)) :
    syscall_handler s esp = (syscall_handlers.get? n).elim
      (Except.error (syscall_stop.outside_handler_table n)) Except.ok ∧
    (syscall_handlers.get? n).isSome = true := by
  unfold syscall_handler
  rw [hv]
  simp only []
  rw [hw, if_pos (by unfold SYS_NUM_SYSCALLS; omega), if_pos (by omega)]
  simp only [Int.toNat_ofNat]
  interval_cases n <;> exact ⟨rfl, rfl⟩

theorem syscall_handler_too_large (s : syscall_state) (esp : Nat)
    (hv : validate_user_pointer s esp = Except.ok s)
    (hw : 13 ≤ to_int32 (load_u32 s.mem esp)) :
    syscall_handler s esp = Except.error syscall_stop.assert_syscall_number := by
  unfold syscall_handler
  rw [hv]
  simp only []
  rw [if_neg (by unfold SYS_NUM_SYSCALLS; omega)]

/-! ## The frame allocator -/


theorem choose_eviction_loop_spec (s : frame_state) : ∀ (l : List frame) (i : Nat) (acc : sweep),
    (∀ f ∈ l, s.thread_lookup f.owner_id = true) →
    ∃ r a, choose_eviction_loop s l i acc = Except.ok (r, a) ∧ same_frames r l ∧
      (∀ j, a.eviction_candidate = some j → acc.eviction_candidate = some j ∨
        (i ≤ j ∧ ∃ f, l.get? (j - i) = some f ∧ (s.pages f.page).filesys = false)) ∧
      ((acc.eviction_candidate = none →
          acc.least_used = 0 ∧ acc.dirty_candidate = true ∧ acc.accessed_candidate = true) →
        (∀ f ∈ l, 0 ≤ f.unused_count) →
        (acc.eviction_candidate ≠ none ∨ ∃ f ∈ l, (s.pages f.page).filesys = false) →
        a.eviction_candidate ≠ none) := by
  intro l
  induction l with
  | nil =>
    intro i acc _
    refine ⟨[], acc, rfl, rfl, fun j hj => Or.inl hj, ?_⟩
    intro _ _ h
    rcases h with h | ⟨f, hf, _⟩
    · exact h
    · simp at hf
  | cons f rest ih =>
    intro i acc hl
    have hf : s.thread_lookup f.owner_id = true := hl f (List.mem_cons_self _ _)
    have hrest : ∀ g ∈ rest, s.thread_lookup g.owner_id = true :=
      fun g hg => hl g (List.mem_cons_of_mem _ hg)
    simp only [choose_eviction_loop]
    rw [if_neg (by rw [hf]; decide)]
    by_cases hb1 : s.pagedir_is_accessed f.owner_id f.frame_addr = true
        ∧ acc.accessed_candidate = false
    · rw [if_pos hb1]
      refine ⟨_, _, rfl, ?_, fun j hj => Or.inl hj, ?_⟩
      · simp [same_frames]
      · intro inv _ _ hc
        have := (inv hc).2.2
        rw [hb1.2] at this
        exact Bool.false_ne_true this
    rw [if_neg hb1]
    by_cases hb2 : s.pagedir_is_dirty f.owner_id f.frame_addr = true
        ∧ acc.dirty_candidate = false
    · rw [if_pos hb2]
      refine ⟨_, _, rfl, ?_, fun j hj => Or.inl hj, ?_⟩
      · simp [same_frames]
      · intro inv _ _ hc
        have := (inv hc).2.1
        rw [hb2.2] at this
        exact Bool.false_ne_true this
    rw [if_neg hb2]
    generalize hc3 : (if s.pagedir_is_dirty f.owner_id f.frame_addr = true then
        (if s.pagedir_is_accessed f.owner_id f.frame_addr = true then f.unused_count
          else f.unused_count + 1)
        else (if s.pagedir_is_accessed f.owner_id f.frame_addr = true then f.unused_count
          else f.unused_count + 1) + 1) + 1 = c3
    have hc3pos : 0 ≤ f.unused_count → 1 ≤ c3 := by
      intro h0
      rw [← hc3]
      split <;> split <;> omega
    by_cases hnew : acc.least_used < c3 ∧ (s.pages f.page).filesys = false
    · rw [if_pos hnew]
      obtain ⟨r, a, e, sf, hB, hC⟩ := ih (i + 1)
        { eviction_candidate := some i, least_used := c3,
          dirty_candidate := s.pagedir_is_dirty f.owner_id f.frame_addr,
          accessed_candidate := s.pagedir_is_accessed f.owner_id f.frame_addr,
          visited := acc.visited + 1 } hrest
      rw [e]
      refine ⟨_, a, rfl, ?_, ?_, ?_⟩
      · simp only [same_frames, List.map_cons] at sf ⊢
        rw [sf]
      · intro j hj
        rcases hB j hj with h | ⟨h1, g, h2, h3⟩
        · simp only [Option.some.injEq] at h
          subst h
          exact Or.inr ⟨le_refl _, f, by simp, hnew.2⟩
        · refine Or.inr ⟨by omega, g, ?_, h3⟩
          have : j - i = (j - (i + 1)) + 1 := by omega
          rw [this, List.get?_cons_succ]
          exact h2
      · intro _ hcnt _
        exact hC (fun h => by simp at h) (fun g hg => hcnt g (List.mem_cons_of_mem _ hg))
          (Or.inl (by simp))
    · rw [if_neg hnew]
      obtain ⟨r, a, e, sf, hB, hC⟩ := ih (i + 1) { acc with visited := acc.visited + 1 } hrest
      rw [e]
      refine ⟨_, a, rfl, ?_, ?_, ?_⟩
      · simp only [same_frames, List.map_cons] at sf ⊢
        rw [sf]
      · intro j hj
        rcases hB j hj with h | ⟨h1, g, h2, h3⟩
        · exact Or.inl h
        · refine Or.inr ⟨by omega, g, ?_, h3⟩
          have : j - i = (j - (i + 1)) + 1 := by omega
          rw [this, List.get?_cons_succ]
          exact h2
      · intro inv hcnt hex
        refine hC inv (fun g hg => hcnt g (List.mem_cons_of_mem _ hg)) ?_
        by_cases hcand : acc.eviction_candidate = none
        · right
          rcases hex with h | ⟨g, hg, hgf⟩
          · exact absurd hcand h
          · rcases List.mem_cons.1 hg with rfl | hg
            · exfalso
              apply hnew
              have h0 := hc3pos (hcnt g (List.mem_cons_self _ _))
              have := (inv hcand).1
              exact ⟨by omega, hgf⟩
            · exact ⟨g, hg, hgf⟩
        · exact Or.inl hcand

theorem same_frames_set (l : List frame) : ∀ (j : Nat) (f0 f1 : frame),
    l.get? j = some f0 → f1.page = f0.page → f1.frame_addr = f0.frame_addr →
    f1.owner_id = f0.owner_id → same_frames (l.set j f1) l ∧ f1 ∈ l.set j f1 := by
  induction l with
  | nil => intro j f0 f1 h; simp at h
  | cons g rest ih =>
    intro j f0 f1 h h1 h2 h3
    cases j with
    | zero =>
      simp only [List.get?_cons_zero, Option.some.injEq] at h
      subst h
      simp [same_frames, h1, h2, h3]
    | succ k =>
      simp only [List.get?_cons_succ] at h
      obtain ⟨a, b⟩ := ih k f0 f1 h h1 h2 h3
      simp only [same_frames, List.set_cons_succ, List.map_cons] at a ⊢
      exact ⟨by rw [a], List.mem_cons_of_mem _ b⟩

theorem same_frames_get (l r : List frame) (h : same_frames r l) (j : Nat) (g : frame)
    (hg : l.get? j = some g) :
    ∃ f, r.get? j = some f ∧ f.page = g.page ∧ f.frame_addr = g.frame_addr
      ∧ f.owner_id = g.owner_id := by
  have e : (r.map (fun f => (f.page, f.frame_addr, f.owner_id))).get? j
      = (l.map (fun f => (f.page, f.frame_addr, f.owner_id))).get? j := by
    unfold same_frames at h
    rw [h]
  simp only [List.get?_eq_getElem?, List.getElem?_map] at e hg ⊢
  rw [hg] at e
  cases hr : r[j]? with
  | none => rw [hr] at e; simp at e
  | some f =>
    rw [hr] at e
    simp only [Option.map_some', Option.some.injEq, Prod.mk.injEq] at e
    exact ⟨f, rfl, e.1, e.2.1, e.2.2⟩

theorem same_frames_mem (l r : List frame) (h : same_frames r l) (f : frame) (hf : f ∈ r) :
    ∃ g ∈ l, f.page = g.page ∧ f.frame_addr = g.frame_addr ∧ f.owner_id = g.owner_id := by
  have : (f.page, f.frame_addr, f.owner_id)
      ∈ r.map (fun f => (f.page, f.frame_addr, f.owner_id)) := List.mem_map_of_mem _ hf
  unfold same_frames at h
  rw [h] at this
  obtain ⟨g, hg, e⟩ := List.mem_map.1 this
  simp only [Prod.mk.injEq] at e
  exact ⟨g, hg, e.1.symm, e.2.1.symm, e.2.2.symm⟩

theorem same_frames_addrs (l r : List frame) (h : same_frames r l) :
    r.map (fun f => f.frame_addr) = l.map (fun f => f.frame_addr) := by
  unfold same_frames at h
  have := congrArg (List.map (fun p : Nat × Nat × Int => p.2.1)) h
  simpa [List.map_map, Function.comp] using this

theorem map_eraseP_frame_addr (l : List frame) (a : Nat) :
    (l.eraseP (fun f => f.frame_addr == a)).map (fun f => f.frame_addr)
      = (l.map (fun f => f.frame_addr)).erase a := by
  induction l with
  | nil => rfl
  | cons g rest ih =>
    by_cases h : g.frame_addr = a
    · simp [List.eraseP_cons, h]
    · have h' : (g.frame_addr == a) = false := by simpa using h
      rw [List.eraseP_cons, h', List.map_cons, List.erase_cons_tail (by simpa using h)]
      simp only [cond_false, List.map_cons, Bool.false_eq_true, ↓reduceIte]
      rw [ih]

theorem choose_eviction_frame_spec (s : frame_state)
    (hown : ∀ f ∈ s.frame_table, s.thread_lookup f.owner_id = true)
    (hcnt : ∀ f ∈ s.frame_table, 0 ≤ f.unused_count)
    (hex : ∃ f ∈ s.frame_table, (s.pages f.page).filesys = false) :
    ∃ table f acc g, frame_allocator_choose_eviction_frame s
        = Except.ok ({ s with frame_table := table }, f, acc) ∧
      g ∈ s.frame_table ∧ (s.pages g.page).filesys = false ∧
      f.page = g.page ∧ f.frame_addr = g.frame_addr ∧ f.owner_id = g.owner_id ∧
      f.unused_count = 0 ∧ same_frames table s.frame_table ∧ f ∈ table := by
  obtain ⟨r, a, e, sf, hB, hC⟩ := choose_eviction_loop_spec s s.frame_table 0 sweep_start hown
  have hne := hC (fun _ => ⟨rfl, rfl, rfl⟩) hcnt (Or.inr hex)
  cases hj : a.eviction_candidate with
  | none => exact absurd hj hne
  | some j =>
    rcases hB j hj with h | ⟨_, g, hg, hgf⟩
    · simp [sweep_start] at h
    · simp only [Nat.sub_zero] at hg
      obtain ⟨f0, hf0, k1, k2, k3⟩ := same_frames_get _ _ sf j g hg
      obtain ⟨t1, t2⟩ := same_frames_set r j f0 { f0 with unused_count := 0 } hf0 rfl rfl rfl
      refine ⟨r.set j { f0 with unused_count := 0 }, { f0 with unused_count := 0 }, a, g,
        ?_, List.get?_mem hg, hgf, k1, k2, k3, rfl, ?_, t2⟩
      · unfold frame_allocator_choose_eviction_frame
        rw [e]
        simp only [hj, hf0]
      · unfold same_frames at t1 sf ⊢
        rw [t1, sf]

theorem save_frame_spec (s : frame_state) (f : frame)
    (ho : s.thread_lookup f.owner_id = true) (hf : (s.pages f.page).filesys = false)
    (hswap : s.swap_slots ≠ []) :
    ∃ s2, frame_allocator_save_frame s f = Except.ok s2 ∧ s2.frame_table = s.frame_table ∧
      s2.pool = s.pool ∧ s2.thread_lookup = s.thread_lookup ∧ s2.pagedir = s.pagedir ∧
      s2.current = s.current ∧ s2.palloc_calls = s.palloc_calls := by
  unfold frame_allocator_save_frame
  rw [if_neg (by rw [ho]; decide)]
  simp only []
  split
  · exact ⟨_, rfl, rfl, rfl, rfl, rfl, rfl, rfl⟩
  · try rw [if_pos hf]
    cases hs : s.swap_slots with
    | nil => exact absurd hs hswap
    | cons slot free => exact ⟨_, rfl, rfl, rfl, rfl, rfl, rfl, rfl⟩

theorem free_user_page_spec (s : frame_state) (a : Nat)
    (hown : ∀ f ∈ s.frame_table, s.thread_lookup f.owner_id = true)
    (hin : ∃ f ∈ s.frame_table, f.frame_addr = a) :
    ∃ s3, frame_allocator_free_user_page s a = Except.ok s3 ∧
      s3.frame_table = s.frame_table.eraseP (fun f => f.frame_addr == a) ∧
      s3.pool = a :: s.pool ∧ s3.current = s.current ∧ s3.palloc_calls = s.palloc_calls ∧
      ∀ t u, s.pagedir t u = none → s3.pagedir t u = none := by
  unfold frame_allocator_free_user_page
  simp only []
  cases hfind : s.frame_table.find? (fun f => f.frame_addr == a) with
  | none =>
    obtain ⟨f, hf, e⟩ := hin
    have := List.find?_eq_none.1 hfind f hf
    simp [e] at this
  | some g =>
    have hg := List.mem_of_find?_eq_some hfind
    simp only []
    rw [if_neg (by rw [hown g hg]; decide)]
    refine ⟨_, rfl, rfl, rfl, rfl, rfl, ?_⟩
    intro t u h
    simp only [frame_unmap]
    by_cases ht : t = g.owner_id
    · subst ht
      rw [Function.update_same]
      by_cases hu : u = ((Function.update s.pages g.page
          { s.pages g.page with in_memory := false }) g.page).vaddr
      · rw [hu, Function.update_same]
      · rw [Function.update_noteq hu]
        exact h
    · rw [Function.update_noteq ht]
      exact h

theorem evict_page_spec (s : frame_state)
    (hown : ∀ f ∈ s.frame_table, s.thread_lookup f.owner_id = true)
    (hcnt : ∀ f ∈ s.frame_table, 0 ≤ f.unused_count)
    (hex : ∃ f ∈ s.frame_table, (s.pages f.page).filesys = false)
    (hswap : s.swap_slots ≠ []) :
    ∃ s3 victim, frame_allocator_evict_page s = Except.ok s3 ∧
      victim ∈ s.frame_table ∧ (s.pages victim.page).filesys = false ∧
      s3.pool = victim.frame_addr :: s.pool ∧
      s3.frame_table.map (fun f => f.frame_addr)
        = (s.frame_table.map (fun f => f.frame_addr)).erase victim.frame_addr ∧
      s3.current = s.current ∧ s3.palloc_calls = s.palloc_calls ∧
      ∀ t u, s.pagedir t u = none → s3.pagedir t u = none := by
  obtain ⟨table, f, acc, g, e, hg, hgf, k1, k2, k3, _, sf, hft⟩ :=
    choose_eviction_frame_spec s hown hcnt hex
  have hown1 : ∀ x ∈ table, s.thread_lookup x.owner_id = true := by
    intro x hx
    obtain ⟨y, hy, _, _, e3⟩ := same_frames_mem _ _ sf x hx
    rw [e3]
    exact hown y hy
  obtain ⟨s2, e2, t1, t2, t3, t4, t5, t6⟩ :=
    save_frame_spec { s with frame_table := table } f (hown1 f hft) (by rw [k1]; exact hgf) hswap
  obtain ⟨s3, e3, u1, u2, u3, u4, u5⟩ := free_user_page_spec s2 f.frame_addr
    (by rw [t1, t3]; exact hown1) ⟨f, by rw [t1]; exact hft, rfl⟩
  refine ⟨s3, g, ?_, hg, hgf, by rw [u2, t2, k2], ?_, by rw [u3, t5], by rw [u4, t6], ?_⟩
  · unfold frame_allocator_evict_page
    rw [e]
    simp only []
    rw [e2]
    exact e3
  · rw [u1, t1, map_eraseP_frame_addr, k2]
    show (table.map (fun f => f.frame_addr)).erase g.frame_addr = _
    rw [same_frames_addrs _ _ sf]
  · intro t u h
    exact u5 t u (by rw [t4]; exact h)

/-- C19, counterexample: with an empty pool and a table whose only frame holds a page
backed by the file system, the sweep assigns no candidate and the allocation ends at the
use of the unassigned pointer; no frame is evicted and nothing is retried. -/
theorem C19_no_candidate_among_filesys_frames :
    only_filesys_frame.frame_table.length = 1 ∧
    (palloc_get_page only_filesys_frame).2 = none ∧
    frame_allocator_get_user_page only_filesys_frame 2
      = Except.error fault.uninitialised_pointer := by
  refine ⟨rfl, rfl, rfl⟩


theorem palloc_get_page_nil (s : frame_state) (h : s.pool = []) :
    palloc_get_page s = ({ s with palloc_calls := s.palloc_calls + 1 }, none) := by
  unfold palloc_get_page
  rw [h]

theorem palloc_get_page_cons (s : frame_state) (p : Nat) (free : List Nat)
    (h : s.pool = p :: free) :
    palloc_get_page s = ({ s with palloc_calls := s.palloc_calls + 1, pool := free }, some p) := by
  unfold palloc_get_page
  rw [h]

theorem frame_table_any_false (l : List frame) (a : Nat)
    (h : a ∉ l.map (fun f => f.frame_addr)) :
    ¬ (l.any (fun f => f.frame_addr == a) = true) := by
  intro c
  apply h
  obtain ⟨f, hf, e⟩ := List.any_eq_true.1 c
  exact List.mem_map.2 ⟨f, hf, by simpa using e⟩

/-- C19, amended: with the page unmapped and the keys of the table distinct,
`frame_allocator_get_user_page` (1) on an empty pool, when the table holds a frame whose
page is not backed by the file system, the owners exist, the counts are not negative and
a swap slot is free, evicts one such frame: its key leaves the table and no other, its
page goes to the pool, the second of exactly two allocations takes it, and the new entry
is made for it; (2) on a pool with a free page takes that page with one allocation and
adds the new entry to an otherwise unchanged table. -/
theorem C19_evicts_one_frame_then_retries (s : frame_state) (page : Nat)
    (huser : is_user_vaddr (s.pages page).vaddr = true)
    (hfree : s.pagedir s.current (s.pages page).vaddr = none)
    (hkeys : (s.frame_table.map (fun f => f.frame_addr)).Nodup) :
    (s.pool = [] →
      (∀ f ∈ s.frame_table, s.thread_lookup f.owner_id = true) →
      (∀ f ∈ s.frame_table, 0 ≤ f.unused_count) →
      (∃ f ∈ s.frame_table, (s.pages f.page).filesys = false) →
      s.swap_slots ≠ [] →
      ∃ s1 victim, victim ∈ s.frame_table ∧ (s.pages victim.page).filesys = false ∧
        frame_allocator_get_user_page s page = Except.ok (s1, victim.frame_addr) ∧
        s1.palloc_calls = s.palloc_calls + 2 ∧ s1.pool = [] ∧
        ∃ rest, s1.frame_table
            = { page := page, frame_addr := victim.frame_addr, owner_id := s.current,
                unused_count := 0 } :: rest ∧
          rest.map (fun f => f.frame_addr)
            = (s.frame_table.map (fun f => f.frame_addr)).erase victim.frame_addr) ∧
    (∀ p free, s.pool = p :: free → p ∉ s.frame_table.map (fun f => f.frame_addr) →
      ∃ s1, frame_allocator_get_user_page s page = Except.ok (s1, p) ∧
        s1.palloc_calls = s.palloc_calls + 1 ∧ s1.pool = free ∧
        s1.frame_table
          = { page := page, frame_addr := p, owner_id := s.current, unused_count := 0 }
              :: s.frame_table) := by
  constructor
  · intro hpool hown hcnt hex hswap
    obtain ⟨s3, victim, e, hv, hvf, p1, p2, p3, p4, p5⟩ :=
      evict_page_spec { s with palloc_calls := s.palloc_calls + 1 } hown hcnt hex hswap
    have hp3 : s3.pool = [victim.frame_addr] := by rw [p1]; simp [hpool]
    have hnot : victim.frame_addr ∉ s3.frame_table.map (fun f => f.frame_addr) := by
      rw [p2]
      exact List.Nodup.not_mem_erase hkeys
    have hinst : s3.pagedir s3.current (s.pages page).vaddr = none := by
      rw [p3]
      exact p5 _ _ hfree
    have key : frame_allocator_get_user_page s page = Except.ok
        ({ s3 with
            palloc_calls := s3.palloc_calls + 1, pool := [],
            pagedir := Function.update s3.pagedir s3.current
              (Function.update (s3.pagedir s3.current) (s.pages page).vaddr
                (some victim.frame_addr)),
            frame_table :=
              { page := page, frame_addr := victim.frame_addr, owner_id := s3.current,
                unused_count := 0 } :: s3.frame_table }, victim.frame_addr) := by
      unfold frame_allocator_get_user_page
      simp only []
      rw [if_neg (by rw [huser]; decide), palloc_get_page_nil s hpool]
      simp only []
      rw [e]
      simp only []
      rw [palloc_get_page_cons s3 _ _ hp3]
      simp only [install_page]
      rw [hinst]
      simp only [frame_map]
      rw [if_neg (frame_table_any_false _ _ hnot)]
    refine ⟨_, victim, hv, hvf, key, ?_, rfl, s3.frame_table, ?_, p2⟩
    · simp only []
      rw [p4]
    · simp only []
      rw [p3]
  · intro p free hpool hnot
    have key : frame_allocator_get_user_page s page = Except.ok
        ({ s with
            palloc_calls := s.palloc_calls + 1, pool := free,
            pagedir := Function.update s.pagedir s.current
              (Function.update (s.pagedir s.current) (s.pages page).vaddr (some p)),
            frame_table :=
              { page := page, frame_addr := p, owner_id := s.current, unused_count := 0 }
                :: s.frame_table }, p) := by
      unfold frame_allocator_get_user_page
      simp only []
      rw [if_neg (by rw [huser]; decide), palloc_get_page_cons s p free hpool]
      simp only [install_page]
      rw [hfree]
      simp only [frame_map]
      rw [if_neg (frame_table_any_false _ _ hnot)]
    exact ⟨_, key, rfl, rfl, rfl⟩

theorem C19_evicts_one_frame_then_retries_witness :
    ∃ s1 victim, victim ∈ three_frames.frame_table ∧
      (three_frames.pages victim.page).filesys = false ∧
      frame_allocator_get_user_page three_frames 4 = Except.ok (s1, victim.frame_addr) ∧
      s1.palloc_calls = three_frames.palloc_calls + 2 ∧ s1.pool = [] ∧
      ∃ rest, s1.frame_table
          = { page := 4, frame_addr := victim.frame_addr, owner_id := three_frames.current,
              unused_count := 0 } :: rest ∧
        rest.map (fun f => f.frame_addr)
          = (three_frames.frame_table.map (fun f => f.frame_addr)).erase victim.frame_addr :=
  (C19_evicts_one_frame_then_retries three_frames 4 (by decide) (by decide) (by decide)).1
    rfl (by decide) (by decide) (by decide) (by decide)

/-- C20: in a table of three frames whose pages are not backed by the file system, the
sweep takes the first as candidate with count 3, stops at the second, which is accessed,
after two visits, and returns the first; the third, whose count 100 is larger, is never
looked at. -/
theorem C20_sweep_breaks_before_largest :
    ∃ s f acc, frame_allocator_choose_eviction_frame three_frames = Except.ok (s, f, acc) ∧
      acc.visited = 2 ∧ acc.least_used = 3 ∧
      f = { page := 1, frame_addr := 0xC0100000, owner_id := 1, unused_count := 0 } ∧
      s.frame_table =
        [{ page := 1, frame_addr := 0xC0100000, owner_id := 1, unused_count := 0 },
         { page := 2, frame_addr := 0xC0101000, owner_id := 1, unused_count := 0 },
         { page := 3, frame_addr := 0xC0102000, owner_id := 1, unused_count := 100 }] ∧
      (three_frames.pages 3).filesys = false := by
  refine ⟨_, _, _, rfl, ?_, ?_, ?_, ?_, ?_⟩ <;> decide

/-! ## Saving a frame, the table invariants and the clock sweep -/

/-- C21: for a frame whose owner thread exists, `frame_allocator_save_frame` does one
of three things. (1) When the page is memory-mapped and dirty it writes the frame back
at the offset and length of the page's mapping record and changes no page descriptor
and no swap slot. (2) Otherwise, when the page is not backed by the file system, it
panics if no swap slot is free, and else takes the first free slot, saves the frame into
it and leaves the page with the swap bit set, the in-memory bit clear and `aux` the
slot, every other page descriptor and the write-back log as they were. (3) Otherwise it
returns the state as it was. -/
theorem C21_save_frame_cases (s : frame_state) (f : frame)
    (ho : s.thread_lookup f.owner_id = true) :
    ((s.pages f.page).memory_mapped = true ∧
        s.pagedir_is_dirty f.owner_id (s.pages f.page).vaddr = true →
      ∃ s1, frame_allocator_save_frame s f = Except.ok s1 ∧
        s1.written_back = s.written_back ++
          [((s.mmap_info (s.pages f.page).aux).mapid, f.frame_addr,
            (s.mmap_info (s.pages f.page).aux).offset,
            (s.mmap_info (s.pages f.page).aux).length)] ∧
        s1.pages = s.pages ∧ s1.swapped_out = s.swapped_out ∧
        s1.swap_slots = s.swap_slots) ∧
    (¬ ((s.pages f.page).memory_mapped = true ∧
        s.pagedir_is_dirty f.owner_id (s.pages f.page).vaddr = true) →
      (s.pages f.page).filesys = false →
      (s.swap_slots = [] → frame_allocator_save_frame s f = Except.error fault.panic_swap) ∧
      (∀ slot free, s.swap_slots = slot :: free →
        ∃ s1, frame_allocator_save_frame s f = Except.ok s1 ∧
          s1.swapped_out = s.swapped_out ++ [(slot, f.frame_addr)] ∧
          s1.swap_slots = free ∧
          s1.pages f.page = { s.pages f.page with swap := true, in_memory := false,
                                                  aux := slot } ∧
          (∀ p, p ≠ f.page → s1.pages p = s.pages p) ∧
          s1.written_back = s.written_back)) ∧
    (¬ ((s.pages f.page).memory_mapped = true ∧
        s.pagedir_is_dirty f.owner_id (s.pages f.page).vaddr = true) →
      (s.pages f.page).filesys = true →
      frame_allocator_save_frame s f = Except.ok s) := by
  unfold frame_allocator_save_frame
  rw [if_neg (by rw [ho]; decide)]
  simp only []
  refine ⟨?_, ?_, ?_⟩
  · intro h
    rw [if_pos h]
    exact ⟨_, rfl, rfl, rfl, rfl, rfl⟩
  · intro h hf
    rw [if_neg h, if_pos hf]
    constructor
    · intro he
      rw [he]
    · intro slot free he
      rw [he]
      refine ⟨_, rfl, rfl, rfl, ?_, ?_, rfl⟩
      · simp only [Function.update_same]
      · intro p hp
        simp only []
        rw [Function.update_noteq hp]
  · intro h hf
    rw [if_neg h, if_neg (by rw [hf]; decide)]

theorem C21_save_frame_cases_witness :
    ∃ s1, frame_allocator_save_frame three_frames
        { page := 1, frame_addr := 0xC0100000, owner_id := 1, unused_count := 0 }
          = Except.ok s1 ∧
      s1.swapped_out = three_frames.swapped_out ++ [(7, 0xC0100000)] ∧
      s1.swap_slots = [] ∧
      s1.pages 1 = { three_frames.pages 1 with swap := true, in_memory := false, aux := 7 } ∧
      (∀ p, p ≠ 1 → s1.pages p = three_frames.pages p) ∧
      s1.written_back = three_frames.written_back :=
  ((C21_save_frame_cases three_frames
      { page := 1, frame_addr := 0xC0100000, owner_id := 1, unused_count := 0 } rfl).2.1
    (by decide) rfl).2 7 [] rfl

theorem choose_eviction_loop_ok (s : frame_state) : ∀ (l : List frame) (i : Nat) (acc : sweep)
    (r : List frame) (a : sweep), choose_eviction_loop s l i acc = Except.ok (r, a) →
    same_frames r l ∧
    (∀ j, a.eviction_candidate = some j → acc.eviction_candidate = some j ∨
      (i ≤ j ∧ ∃ f, l.get? (j - i) = some f ∧ (s.pages f.page).filesys = false)) ∧
    (i = acc.visited → (∀ j, acc.eviction_candidate = some j → j < acc.visited) →
      ∀ j, a.eviction_candidate = some j → j < a.visited) := by
  intro l
  induction l with
  | nil =>
    intro i acc r a h
    simp only [choose_eviction_loop, Except.ok.injEq, Prod.mk.injEq] at h
    obtain ⟨rfl, rfl⟩ := h
    exact ⟨rfl, fun j hj => Or.inl hj, fun _ h => h⟩
  | cons f rest ih =>
    intro i acc r a h
    simp only [choose_eviction_loop] at h
    by_cases hf : s.thread_lookup f.owner_id = false
    · rw [if_pos hf] at h
      cases h
    rw [if_neg hf] at h
    by_cases hb1 : s.pagedir_is_accessed f.owner_id f.frame_addr = true
        ∧ acc.accessed_candidate = false
    · rw [if_pos hb1] at h
      simp only [Except.ok.injEq, Prod.mk.injEq] at h
      obtain ⟨rfl, rfl⟩ := h
      refine ⟨by simp [same_frames], fun j hj => Or.inl hj, ?_⟩
      intro _ hc j hj
      exact Nat.lt_succ_of_lt (hc j hj)
    rw [if_neg hb1] at h
    by_cases hb2 : s.pagedir_is_dirty f.owner_id f.frame_addr = true
        ∧ acc.dirty_candidate = false
    · rw [if_pos hb2] at h
      simp only [Except.ok.injEq, Prod.mk.injEq] at h
      obtain ⟨rfl, rfl⟩ := h
      refine ⟨by simp [same_frames], fun j hj => Or.inl hj, ?_⟩
      intro _ hc j hj
      exact Nat.lt_succ_of_lt (hc j hj)
    rw [if_neg hb2] at h
    generalize hc3 : (if s.pagedir_is_dirty f.owner_id f.frame_addr = true then
        (if s.pagedir_is_accessed f.owner_id f.frame_addr = true then f.unused_count
          else f.unused_count + 1)
        else (if s.pagedir_is_accessed f.owner_id f.frame_addr = true then f.unused_count
          else f.unused_count + 1) + 1) + 1 = c3 at h
    by_cases hnew : acc.least_used < c3 ∧ (s.pages f.page).filesys = false
    · rw [if_pos hnew] at h
      cases e : choose_eviction_loop s rest (i + 1)
          { eviction_candidate := some i, least_used := c3,
            dirty_candidate := s.pagedir_is_dirty f.owner_id f.frame_addr,
            accessed_candidate := s.pagedir_is_accessed f.owner_id f.frame_addr,
            visited := acc.visited + 1 } with
      | error x => rw [e] at h; cases h
      | ok p =>
        obtain ⟨r1, a1⟩ := p
        rw [e] at h
        simp only [Except.ok.injEq, Prod.mk.injEq] at h
        obtain ⟨rfl, rfl⟩ := h
        obtain ⟨sf, hB, hV⟩ := ih _ _ _ _ e
        refine ⟨?_, ?_, ?_⟩
        · simp only [same_frames, List.map_cons] at sf ⊢
          rw [sf]
        · intro j hj
          rcases hB j hj with h | ⟨h1, g, h2, h3⟩
          · simp only [Option.some.injEq] at h
            subst h
            exact Or.inr ⟨le_refl _, f, by simp, hnew.2⟩
          · refine Or.inr ⟨by omega, g, ?_, h3⟩
            have : j - i = (j - (i + 1)) + 1 := by omega
            rw [this, List.get?_cons_succ]
            exact h2
        · intro hi _ j hj
          refine hV (by simp only []; omega) ?_ j hj
          intro k hk
          simp only [Option.some.injEq] at hk
          simp only []
          omega
    · rw [if_neg hnew] at h
      cases e : choose_eviction_loop s rest (i + 1) { acc with visited := acc.visited + 1 } with
      | error x => rw [e] at h; cases h
      | ok p =>
        obtain ⟨r1, a1⟩ := p
        rw [e] at h
        simp only [Except.ok.injEq, Prod.mk.injEq] at h
        obtain ⟨rfl, rfl⟩ := h
        obtain ⟨sf, hB, hV⟩ := ih _ _ _ _ e
        refine ⟨?_, ?_, ?_⟩
        · simp only [same_frames, List.map_cons] at sf ⊢
          rw [sf]
        · intro j hj
          rcases hB j hj with h | ⟨h1, g, h2, h3⟩
          · exact Or.inl h
          · refine Or.inr ⟨by omega, g, ?_, h3⟩
            have : j - i = (j - (i + 1)) + 1 := by omega
            rw [this, List.get?_cons_succ]
            exact h2
        · intro hi hc j hj
          refine hV (by simp only []; omega) ?_ j hj
          intro k hk
          exact Nat.lt_succ_of_lt (hc k hk)

theorem choose_eviction_frame_ok {s s1 : frame_state} {f : frame} {acc : sweep}
    (h : frame_allocator_choose_eviction_frame s = Except.ok (s1, f, acc)) :
    ∃ table j g, s1 = { s with frame_table := table } ∧ same_frames table s.frame_table ∧
      acc.eviction_candidate = some j ∧ j < acc.visited ∧
      table.get? j = some f ∧ f.unused_count = 0 ∧
      s.frame_table.get? j = some g ∧ (s.pages g.page).filesys = false ∧
      f.page = g.page ∧ f.frame_addr = g.frame_addr ∧ f.owner_id = g.owner_id := by
  unfold frame_allocator_choose_eviction_frame at h
  cases e : choose_eviction_loop s s.frame_table 0 sweep_start with
  | error x => rw [e] at h; cases h
  | ok p =>
    obtain ⟨r, a⟩ := p
    rw [e] at h
    obtain ⟨sf, hB, hV⟩ := choose_eviction_loop_ok s _ _ _ _ _ e
    simp only [] at h
    cases hj : a.eviction_candidate with
    | none => rw [hj] at h; cases h
    | some j =>
      rw [hj] at h
      simp only [] at h
      cases hg : r.get? j with
      | none => rw [hg] at h; cases h
      | some f0 =>
        rw [hg] at h
        simp only [Except.ok.injEq, Prod.mk.injEq] at h
        obtain ⟨rfl, rfl, rfl⟩ := h
        rcases hB j hj with c | ⟨_, g, hg2, hgf⟩
        · simp [sweep_start] at c
        · simp only [Nat.sub_zero] at hg2
          obtain ⟨f1, hf1, k1, k2, k3⟩ := same_frames_get _ _ sf j g hg2
          rw [hg] at hf1
          simp only [Option.some.injEq] at hf1
          subst hf1
          obtain ⟨t1, _⟩ := same_frames_set r j f0 { f0 with unused_count := 0 } hg rfl rfl rfl
          have hlt : j < r.length := by
            by_contra c
            rw [List.get?_eq_none.2 (by omega)] at hg
            cases hg
          refine ⟨_, j, g, rfl, ?_, hj, ?_, ?_, rfl, hg2, hgf, k1, k2, k3⟩
          · unfold same_frames at t1 sf ⊢
            rw [t1, sf]
          · exact hV rfl (fun k hk => by simp [sweep_start] at hk) j hj
          · rw [List.get?_eq_getElem?, List.getElem?_set_self hlt]

/-- C22, counterexample: from a state with one frame, whose page is marked as in memory,
not swapped and mapped, an eviction followed by `frame_allocator_get_user_page` for the
same page leaves a frame entry for the page whose descriptor has the in-memory bit clear
and the swap bit set. -/
theorem C22_entry_without_in_memory_flag :
    (resident_page.pages 1).in_memory = true ∧ (resident_page.pages 1).swap = false ∧
    resident_page.pagedir 1 (resident_page.pages 1).vaddr = some 0xC0100000 ∧
    ∃ s1 s2, frame_allocator_evict_page resident_page = Except.ok s1 ∧
      frame_allocator_get_user_page s1 1 = Except.ok (s2, 0xC0100000) ∧
      frame_reachable resident_page s2 ∧
      s2.frame_table
        = [{ page := 1, frame_addr := 0xC0100000, owner_id := 1, unused_count := 0 }] ∧
      (s2.pages 1).in_memory = false ∧ (s2.pages 1).swap = true := by
  refine ⟨by decide, by decide, by decide, _, _, rfl, rfl, ?_, by decide, by decide, by decide⟩
  exact frame_reachable.get_user_page 1 0xC0100000
    (frame_reachable.evict_page frame_reachable.init rfl) rfl

theorem same_frames_symm {l r : List frame} (h : same_frames l r) : same_frames r l := by
  unfold same_frames at h ⊢
  exact h.symm

theorem mem_eraseP_frame_addr (l : List frame) (a : Nat)
    (hk : (l.map (fun f => f.frame_addr)).Nodup) (f : frame) :
    f ∈ l.eraseP (fun g => g.frame_addr == a) ↔ f ∈ l ∧ f.frame_addr ≠ a := by
  constructor
  · intro h
    refine ⟨List.mem_of_mem_eraseP h, ?_⟩
    have h1 : f.frame_addr ∈ (l.eraseP (fun g => g.frame_addr == a)).map (fun g => g.frame_addr) :=
      List.mem_map_of_mem _ h
    rw [map_eraseP_frame_addr] at h1
    exact ((List.Nodup.mem_erase_iff hk).1 h1).1
  · intro h
    exact (List.mem_eraseP_of_neg (by simpa using h.2)).2 h.1

theorem frame_inv_choose {s s1 : frame_state} {f : frame} {acc : sweep} (hi : frame_inv s)
    (h : frame_allocator_choose_eviction_frame s = Except.ok (s1, f, acc)) :
    frame_inv s1 ∧ s1.pages = s.pages := by
  obtain ⟨table, j, g, e, sf, _, _, _, _, _, _, _, _, _⟩ := choose_eviction_frame_ok h
  subst e
  refine ⟨⟨?_, ?_, ?_⟩, rfl⟩
  · show (table.map (fun f => f.frame_addr)).Nodup
    rw [same_frames_addrs _ _ sf]
    exact hi.keys
  · intro x hx
    obtain ⟨y, hy, e1, e2, e3⟩ := same_frames_mem _ _ sf x hx
    show s.pagedir x.owner_id (s.pages x.page).vaddr = some x.frame_addr
    rw [e1, e2, e3]
    exact hi.mapped y hy
  · intro p hp
    obtain ⟨y, hy, e⟩ := hi.in_memory p hp
    obtain ⟨x, hx, e1, _, _⟩ := same_frames_mem _ _ (same_frames_symm sf) y hy
    exact ⟨x, hx, by rw [← e1]; exact e⟩

theorem frame_inv_save {s s1 : frame_state} {f : frame} (hi : frame_inv s)
    (h : frame_allocator_save_frame s f = Except.ok s1) :
    frame_inv s1 ∧ (∀ p, (s1.pages p).vaddr = (s.pages p).vaddr) := by
  unfold frame_allocator_save_frame at h
  split at h
  · cases h
  · simp only [] at h
    split at h
    · simp only [Except.ok.injEq] at h
      subst h
      exact ⟨⟨hi.keys, hi.mapped, hi.in_memory⟩, fun _ => rfl⟩
    · split at h
      · cases hs : s.swap_slots with
        | nil => rw [hs] at h; cases h
        | cons slot free =>
          rw [hs] at h
          simp only [Except.ok.injEq] at h
          subst h
          have hv : ∀ p, ((Function.update s.pages f.page
              { s.pages f.page with swap := true, in_memory := false, aux := slot }) p).vaddr
              = (s.pages p).vaddr := by
            intro p
            by_cases hp : p = f.page
            · subst hp; rw [Function.update_same]
            · rw [Function.update_noteq hp]
          refine ⟨⟨hi.keys, ?_, ?_⟩, hv⟩
          · intro x hx
            show s.pagedir x.owner_id ((Function.update s.pages f.page _) x.page).vaddr = _
            rw [hv]
            exact hi.mapped x hx
          · intro p hp
            by_cases hpf : p = f.page
            · subst hpf
              simp only [Function.update_same] at hp
              cases hp
            · simp only [Function.update_noteq hpf] at hp
              exact hi.in_memory p hp
      · simp only [Except.ok.injEq] at h
        subst h
        exact ⟨hi, fun _ => rfl⟩

theorem frame_inv_free {s s1 : frame_state} {a : Nat} (hi : frame_inv s)
    (h : frame_allocator_free_user_page s a = Except.ok s1) :
    frame_inv s1 ∧ (∀ p, (s1.pages p).vaddr = (s.pages p).vaddr) := by
  unfold frame_allocator_free_user_page at h
  simp only [] at h
  cases hfind : s.frame_table.find? (fun f => f.frame_addr == a) with
  | none => rw [hfind] at h; cases h
  | some g =>
    rw [hfind] at h
    simp only [] at h
    split at h
    · cases h
    · simp only [Except.ok.injEq] at h
      subst h
      have hg := List.mem_of_find?_eq_some hfind
      have hga : g.frame_addr = a := by simpa using List.find?_some hfind
      have hv : ∀ p, ((Function.update s.pages g.page
          { s.pages g.page with in_memory := false }) p).vaddr = (s.pages p).vaddr := by
        intro p
        by_cases hp : p = g.page
        · subst hp; rw [Function.update_same]
        · rw [Function.update_noteq hp]
      refine ⟨⟨?_, ?_, ?_⟩, hv⟩
      · show ((s.frame_table.eraseP (fun f => f.frame_addr == a)).map
          (fun f => f.frame_addr)).Nodup
        rw [map_eraseP_frame_addr]
        exact hi.keys.erase a
      · intro x hx
        obtain ⟨hx1, hx2⟩ := (mem_eraseP_frame_addr _ a hi.keys x).1 hx
        simp only [frame_unmap]
        rw [hv, hv]
        by_cases ht : x.owner_id = g.owner_id
        · rw [ht, Function.update_same]
          by_cases hu : (s.pages x.page).vaddr = (s.pages g.page).vaddr
          · exfalso
            have m1 := hi.mapped x hx1
            have m2 := hi.mapped g hg
            rw [ht, hu, m2] at m1
            simp only [Option.some.injEq] at m1
            exact hx2 (by rw [← m1, hga])
          · rw [Function.update_noteq hu, ← ht]
            exact hi.mapped x hx1
        · rw [Function.update_noteq ht]
          exact hi.mapped x hx1
      · intro p hp
        simp only [frame_unmap] at hp ⊢
        by_cases hpg : p = g.page
        · subst hpg
          simp only [Function.update_same] at hp
          cases hp
        · simp only [Function.update_noteq hpg] at hp
          obtain ⟨y, hy, e⟩ := hi.in_memory p hp
          refine ⟨y, (mem_eraseP_frame_addr _ a hi.keys y).2 ⟨hy, ?_⟩, e⟩
          intro c
          have : y = g :=
            List.inj_on_of_nodup_map hi.keys hy hg (by rw [c, hga])
          exact hpg (by rw [← e, this])

theorem frame_inv_evict {s s1 : frame_state} (hi : frame_inv s)
    (h : frame_allocator_evict_page s = Except.ok s1) :
    frame_inv s1 ∧ (∀ p, (s1.pages p).vaddr = (s.pages p).vaddr) := by
  unfold frame_allocator_evict_page at h
  cases e1 : frame_allocator_choose_eviction_frame s with
  | error x => rw [e1] at h; cases h
  | ok r =>
    obtain ⟨s2, f, acc⟩ := r
    rw [e1] at h
    simp only [] at h
    obtain ⟨i2, p2⟩ := frame_inv_choose hi e1
    cases e2 : frame_allocator_save_frame s2 f with
    | error x => rw [e2] at h; cases h
    | ok s3 =>
      rw [e2] at h
      simp only [] at h
      obtain ⟨i3, v3⟩ := frame_inv_save i2 e2
      obtain ⟨i4, v4⟩ := frame_inv_free i3 h
      exact ⟨i4, fun p => by rw [v4, v3, p2]⟩

theorem frame_inv_palloc {s : frame_state} (hi : frame_inv s) :
    frame_inv (palloc_get_page s).1 ∧ (palloc_get_page s).1.pages = s.pages := by
  unfold palloc_get_page
  cases s.pool with
  | nil => exact ⟨⟨hi.keys, hi.mapped, hi.in_memory⟩, rfl⟩
  | cons p free => exact ⟨⟨hi.keys, hi.mapped, hi.in_memory⟩, rfl⟩

theorem frame_inv_install_map {s s2 : frame_state} {upage kpage page : Nat}
    (hi : frame_inv s) (hv : (s.pages page).vaddr = upage)
    (h : install_page s upage kpage = some s2) : frame_inv (frame_map s2 kpage page) := by
  unfold install_page at h
  cases hm : s.pagedir s.current upage with
  | some x => rw [hm] at h; cases h
  | none =>
    rw [hm] at h
    simp only [Option.some.injEq] at h
    subst h
    have hold : ∀ x ∈ s.frame_table,
        (Function.update s.pagedir s.current
          (Function.update (s.pagedir s.current) upage (some kpage))) x.owner_id
          (s.pages x.page).vaddr = some x.frame_addr := by
      intro x hx
      have m := hi.mapped x hx
      by_cases ht : x.owner_id = s.current
      · rw [ht, Function.update_same]
        by_cases hu : (s.pages x.page).vaddr = upage
        · rw [ht, hu, hm] at m
          cases m
        · rw [Function.update_noteq hu, ← ht]
          exact m
      · rw [Function.update_noteq ht]
        exact m
    unfold frame_map
    split
    · exact ⟨hi.keys, hold, hi.in_memory⟩
    · rename_i hany
      refine ⟨?_, ?_, ?_⟩
      · simp only [List.map_cons]
        refine List.nodup_cons.2 ⟨?_, hi.keys⟩
        intro c
        apply hany
        obtain ⟨y, hy, e⟩ := List.mem_map.1 c
        exact List.any_eq_true.2 ⟨y, hy, by simpa using e⟩
      · intro x hx
        rcases List.mem_cons.1 hx with rfl | hx
        · simp only []
          rw [hv, Function.update_same, Function.update_same]
        · exact hold x hx
      · intro p hp
        obtain ⟨y, hy, e⟩ := hi.in_memory p hp
        exact ⟨y, List.mem_cons_of_mem _ hy, e⟩

theorem frame_inv_get_user_page {s s1 : frame_state} {page kernel_vaddr : Nat}
    (hi : frame_inv s)
    (h : frame_allocator_get_user_page s page = Except.ok (s1, kernel_vaddr)) :
    frame_inv s1 := by
  unfold frame_allocator_get_user_page at h
  simp only [] at h
  split at h
  · cases h
  · obtain ⟨i1, p1⟩ := frame_inv_palloc hi
    generalize palloc_get_page s = r at h i1 p1
    obtain ⟨sa, o⟩ := r
    cases o with
    | some kv =>
      simp only [] at h
      cases e : install_page sa (s.pages page).vaddr kv with
      | none => rw [e] at h; cases h
      | some s2 =>
        rw [e] at h
        simp only [Except.ok.injEq, Prod.mk.injEq] at h
        obtain ⟨rfl, _⟩ := h
        exact frame_inv_install_map i1 (by rw [show sa.pages = s.pages from p1]) e
    | none =>
      simp only [] at h
      cases e1 : frame_allocator_evict_page sa with
      | error x => rw [e1] at h; cases h
      | ok sb =>
        rw [e1] at h
        simp only [] at h
        obtain ⟨i2, v2⟩ := frame_inv_evict i1 e1
        obtain ⟨i3, p3⟩ := frame_inv_palloc i2
        generalize palloc_get_page sb = r2 at h i3 p3
        obtain ⟨sc, o2⟩ := r2
        cases o2 with
        | none => cases h
        | some kv =>
          simp only [] at h
          cases e : install_page sc (s.pages page).vaddr kv with
          | none => rw [e] at h; cases h
          | some s2 =>
            rw [e] at h
            simp only [Except.ok.injEq, Prod.mk.injEq] at h
            obtain ⟨rfl, _⟩ := h
            refine frame_inv_install_map i3 ?_ e
            rw [show sc.pages = sb.pages from p3, v2, show sa.pages = s.pages from p1]

/-- C22, amended: `frame.c` keeps three facts. In every state reached through
`frame_allocator_get_user_page`, `frame_allocator_free_user_page` and
`frame_allocator_evict_page` from a state in which they hold, the keys of the frame
table are distinct, the page directory of the owner of every entry maps the user address
of the entry's page to the frame, and every page descriptor with the in-memory bit set
has an entry in the table. -/
theorem C22_frame_table_invariants (s0 s : frame_state) (h0 : frame_inv s0)
    (h : frame_reachable s0 s) : frame_inv s := by
  induction h with
  | init => exact h0
  | get_user_page page kv _ hstep ih => exact frame_inv_get_user_page ih hstep
  | free_user_page kv _ hstep ih => exact (frame_inv_free ih hstep).1
  | evict_page _ hstep ih => exact (frame_inv_evict ih hstep).1
  | switch t d a _ ih => exact ⟨ih.keys, ih.mapped, ih.in_memory⟩

theorem resident_page_inv : frame_inv resident_page := by
  refine ⟨by decide, by decide, ?_⟩
  intro p hp
  have : p = 1 := by simpa [resident_page, frame_scene, mk_page] using hp
  subst this
  exact ⟨_, List.mem_cons_self _ _, rfl⟩

theorem C22_frame_table_invariants_witness :
    ∃ s1 s2, frame_allocator_evict_page resident_page = Except.ok s1 ∧
      frame_allocator_get_user_page s1 1 = Except.ok (s2, 0xC0100000) ∧ frame_inv s2 :=
  ⟨_, _, rfl, rfl, C22_frame_table_invariants resident_page _ resident_page_inv
    (frame_reachable.get_user_page 1 0xC0100000
      (frame_reachable.evict_page frame_reachable.init rfl) rfl)⟩

theorem choose_eviction_frame_keeps_bits {s s1 : frame_state} {f : frame} {acc : sweep}
    (h : frame_allocator_choose_eviction_frame s = Except.ok (s1, f, acc)) :
    s1.pagedir_is_accessed = s.pagedir_is_accessed ∧ s1.pagedir_is_dirty = s.pagedir_is_dirty := by
  obtain ⟨table, j, g, e, _⟩ := choose_eviction_frame_ok h
  rw [e]
  exact ⟨rfl, rfl⟩

/-- C26: in a table of three frames the sweep visits all three and returns the second.
The first frame was visited with its accessed bit set, and the bit is still set
afterwards, for the frame address and for the user address; the third frame was visited
with its accessed bit clear and is not the returned frame, and its count has gone from 5
to 0. -/
theorem C26_accessed_bit_stays_set :
    ∃ s f acc, frame_allocator_choose_eviction_frame accessed_dirty_frames
        = Except.ok (s, f, acc) ∧
      acc.visited = 3 ∧
      f = { page := 2, frame_addr := 0xC0101000, owner_id := 1, unused_count := 0 } ∧
      accessed_dirty_frames.pagedir_is_accessed 1 0xC0100000 = true ∧
      s.pagedir_is_accessed 1 0xC0100000 = true ∧
      s.pagedir_is_accessed 1 0x08049000 = true ∧
      accessed_dirty_frames.pagedir_is_accessed 1 0xC0102000 = false ∧
      accessed_dirty_frames.pagedir_is_accessed 1 0x0804B000 = false ∧
      s.frame_table =
        [{ page := 1, frame_addr := 0xC0100000, owner_id := 1, unused_count := 1 },
         { page := 2, frame_addr := 0xC0101000, owner_id := 1, unused_count := 0 },
         { page := 3, frame_addr := 0xC0102000, owner_id := 1, unused_count := 0 }] := by
  refine ⟨_, _, _, rfl, ?_, ?_, ?_, ?_, ?_, ?_, ?_, ?_⟩ <;> decide

theorem choose_eviction_loop_reaches_first (s : frame_state) (g : frame)
    (hg : (s.pages g.page).filesys = false) (hgo : s.thread_lookup g.owner_id = true)
    (hgc : 0 ≤ g.unused_count) :
    ∀ (pre : List frame) (i : Nat) (acc : sweep),
      (∀ f ∈ pre, (s.pages f.page).filesys = true) →
      (∀ f ∈ pre, s.thread_lookup f.owner_id = true) →
      acc.eviction_candidate = none → acc.least_used = 0 →
      acc.dirty_candidate = true → acc.accessed_candidate = true →
      ∃ r a, choose_eviction_loop s (pre ++ [g]) i acc = Except.ok (r, a) ∧
        a.eviction_candidate = some (i + pre.length) ∧
        a.visited = acc.visited + pre.length + 1 := by
  intro pre
  induction pre with
  | nil =>
    intro i acc _ _ h1 h2 h3 h4
    have n1 : ¬ (s.thread_lookup g.owner_id = false) := by rw [hgo]; decide
    have n2 : ¬ (s.pagedir_is_accessed g.owner_id g.frame_addr = true
        ∧ acc.accessed_candidate = false) := by rw [h4]; simp
    have n3 : ¬ (s.pagedir_is_dirty g.owner_id g.frame_addr = true
        ∧ acc.dirty_candidate = false) := by rw [h3]; simp
    simp only [List.nil_append, choose_eviction_loop]
    rw [if_neg n1, if_neg n2, if_neg n3]
    generalize hc3 : (if s.pagedir_is_dirty g.owner_id g.frame_addr = true then
        (if s.pagedir_is_accessed g.owner_id g.frame_addr = true then g.unused_count
          else g.unused_count + 1)
        else (if s.pagedir_is_accessed g.owner_id g.frame_addr = true then g.unused_count
          else g.unused_count + 1) + 1) + 1 = c3
    have hpos : acc.least_used < c3 := by
      rw [h2, ← hc3]
      split <;> split <;> omega
    rw [if_pos ⟨hpos, hg⟩]
    exact ⟨_, _, rfl, rfl, rfl⟩
  | cons f rest ih =>
    intro i acc hfs hown h1 h2 h3 h4
    have hf := hfs f (List.mem_cons_self _ _)
    have n1 : ¬ (s.thread_lookup f.owner_id = false) := by
      rw [hown f (List.mem_cons_self _ _)]; decide
    have n2 : ¬ (s.pagedir_is_accessed f.owner_id f.frame_addr = true
        ∧ acc.accessed_candidate = false) := by rw [h4]; simp
    have n3 : ¬ (s.pagedir_is_dirty f.owner_id f.frame_addr = true
        ∧ acc.dirty_candidate = false) := by rw [h3]; simp
    simp only [List.cons_append, choose_eviction_loop]
    rw [if_neg n1, if_neg n2, if_neg n3]
    generalize hc3 : (if s.pagedir_is_dirty f.owner_id f.frame_addr = true then
        (if s.pagedir_is_accessed f.owner_id f.frame_addr = true then f.unused_count
          else f.unused_count + 1)
        else (if s.pagedir_is_accessed f.owner_id f.frame_addr = true then f.unused_count
          else f.unused_count + 1) + 1) + 1 = c3
    have n4 : ¬ (acc.least_used < c3 ∧ (s.pages f.page).filesys = false) := by
      rw [hf]; simp
    rw [if_neg n4]
    obtain ⟨r, a, e, c1, c2⟩ := ih (i + 1) { acc with visited := acc.visited + 1 }
      (fun x hx => hfs x (List.mem_cons_of_mem _ hx))
      (fun x hx => hown x (List.mem_cons_of_mem _ hx)) h1 h2 h3 h4
    have e1 : choose_eviction_loop s (rest.append [g]) (i + 1)
        { acc with visited := acc.visited + 1 } = Except.ok (r, a) := e
    rw [e1]
    refine ⟨_, a, rfl, ?_, ?_⟩
    · rw [c1, List.length_cons]
      congr 1
      omega
    · rw [c2, List.length_cons]
      simp only []
      omega

/-- With the owners of all frames alive: when the counts are not negative and the table
is `pre ++ g :: post` with `g` the first frame whose page is not backed by the file
system, the sweep (1) over the entries up to `g` ends without a break with `g` as the
candidate, and (2) as a whole returns a candidate: the entry at a position `j` not before
`g` and among the visited ones, whose page is not backed by the file system, with its
count set to 0 in the table and the other members of every entry as they were. -/
theorem choose_eviction_frame_with_owners (s : frame_state) (pre post : List frame)
    (g : frame) (htable : s.frame_table = pre ++ g :: post)
    (hpre : ∀ f ∈ pre, (s.pages f.page).filesys = true)
    (hg : (s.pages g.page).filesys = false)
    (hown : ∀ f ∈ s.frame_table, s.thread_lookup f.owner_id = true)
    (hcnt : ∀ f ∈ s.frame_table, 0 ≤ f.unused_count) :
    (∃ r a, choose_eviction_loop s (pre ++ [g]) 0 sweep_start = Except.ok (r, a) ∧
      a.eviction_candidate = some pre.length ∧ a.visited = pre.length + 1) ∧
    ∃ table f acc j chosen,
      frame_allocator_choose_eviction_frame s
        = Except.ok ({ s with frame_table := table }, f, acc) ∧
      acc.eviction_candidate = some j ∧ pre.length ≤ j ∧ j < acc.visited ∧
      s.frame_table.get? j = some chosen ∧ (s.pages chosen.page).filesys = false ∧
      table.get? j = some f ∧ f.unused_count = 0 ∧
      f.page = chosen.page ∧ f.frame_addr = chosen.frame_addr ∧
      f.owner_id = chosen.owner_id ∧ same_frames table s.frame_table := by
  have hgm : g ∈ s.frame_table := by rw [htable]; simp
  constructor
  · obtain ⟨r, a, e, c1, c2⟩ := choose_eviction_loop_reaches_first s g hg (hown g hgm)
      (hcnt g hgm) pre 0 sweep_start hpre
      (fun f hf => hown f (by rw [htable]; exact List.mem_append_left _ hf)) rfl rfl rfl rfl
    refine ⟨r, a, e, ?_, ?_⟩
    · rw [c1]; simp
    · rw [c2]; simp [sweep_start]
  · obtain ⟨table, f, acc, g1, e, _, _, _, _, _, _, _, _⟩ :=
      choose_eviction_frame_spec s hown hcnt ⟨g, hgm, hg⟩
    obtain ⟨table2, j, chosen, e2, sf, hj, hv, ht, hc0, hs, hfs, k1, k2, k3⟩ :=
      choose_eviction_frame_ok e
    have et : table2 = table := by
      have := congrArg frame_state.frame_table e2
      exact this.symm
    subst et
    refine ⟨table2, f, acc, j, chosen, e, hj, ?_, hv, hs, hfs, ht, hc0, k1, k2, k3, sf⟩
    by_contra c
    have hlt : j < pre.length := by omega
    have : s.frame_table.get? j = pre.get? j := by
      rw [htable, List.get?_eq_getElem?, List.get?_eq_getElem?,
        List.getElem?_append_left hlt]
    rw [this] at hs
    have := hpre chosen (List.get?_mem hs)
    rw [this] at hfs
    cases hfs

theorem thread_enqueue_mlfqs_in_handler (s : kernel) (t : Nat)
    (hm : s.thread_mlfqs = true) (hi : s.in_external_intr = true)
    (hr : (s.threads s.running).status = THREAD_RUNNING) (hne : t ≠ s.running)
    (hp : thread_explicit_get_priority s s.running < (s.threads t).priority) :
    ∃ s1, thread_enqueue t s = .ok s1 ∧ s1.yield_on_return = true ∧ s1.running = s.running := by
  have hr0 : ((set_status s t THREAD_READY).threads (set_status s t THREAD_READY).running).status
      = THREAD_RUNNING := by
    show ((Function.update s.threads t _) s.running).status = _
    rw [Function.update_noteq (Ne.symm hne)]
    exact hr
  have hpri : ((set_status s t THREAD_READY).threads t).priority = (s.threads t).priority := by
    show ((Function.update s.threads t _) t).priority = _
    rw [Function.update_same]
  unfold thread_enqueue
  simp only []
  rw [if_pos (by exact hm)]
  simp only [thread_get_priority, thread_current, if_pos hr0]
  rw [eff_set_status]
  have hpri2 : ((Function.update s.threads t { s.threads t with status := THREAD_READY }) t).priority
      = (s.threads t).priority := by rw [Function.update_same]
  simp only [set_status] at hpri ⊢
  rw [if_pos (by rw [hpri2]; exact hp), if_pos (by exact hi)]
  exact ⟨_, rfl, rfl, rfl⟩

/-- C23: in priority mode, when `thread_enqueue` runs in an interrupt handler for a
thread whose effective priority exceeds that of the running thread, which is not the idle
thread, it calls `thread_yield` and the assertion `!intr_context ()` fails. -/
theorem C23_priority_mode_yields_in_handler (s : kernel) (t : Nat)
    (hm : s.thread_mlfqs = false) (hi : s.in_external_intr = true)
    (hr : (s.threads s.running).status = THREAD_RUNNING) (hne : t ≠ s.running)
    (hidle : s.idle_thread ≠ some s.running)
    (hp : thread_explicit_get_priority s s.running < thread_explicit_get_priority s t) :
    thread_enqueue t s = .error fault.assert_not_intr_context := by
  have hr0 : ((set_status s t THREAD_READY).threads (set_status s t THREAD_READY).running).status
      = THREAD_RUNNING := by
    show ((Function.update s.threads t _) s.running).status = _
    rw [Function.update_noteq (Ne.symm hne)]
    exact hr
  unfold thread_enqueue
  simp only []
  rw [if_neg (by rw [show (set_status s t THREAD_READY).thread_mlfqs = s.thread_mlfqs from rfl, hm]
                 decide)]
  simp only [thread_get_priority, thread_current, if_pos hr0]
  rw [eff_set_status, eff_set_status]
  rw [if_pos ⟨hidle, hp⟩]
  unfold thread_yield thread_current
  rw [if_pos (by exact hr0)]
  simp only []
  rw [if_pos (by exact hi)]

theorem C23_priority_mode_yields_in_handler_witness :
    thread_enqueue 3 two_sleepers_in_handler = .error fault.assert_not_intr_context :=
  C23_priority_mode_yields_in_handler two_sleepers_in_handler 3 rfl rfl (by decide) (by decide)
    (by decide) (by decide)

/-! ## The order of the ready list -/

theorem list_insert_ordered_ne_nil {α : Type} (less : α → α → Bool) (e : α) (l : List α) :
    list_insert_ordered less e l ≠ [] := by
  cases l with
  | nil => simp [list_insert_ordered]
  | cons x l =>
    unfold list_insert_ordered
    split <;> simp

theorem next_thread_to_run_cons (x : kernel) (n : Nat) (q : List Nat)
    (hm : x.thread_mlfqs = false) (hl : x.ready_list = n :: q) :
    next_thread_to_run x = (some n, { x with ready_list := q }) := by
  unfold next_thread_to_run
  rw [if_neg (by rw [hm]; decide), hl]

theorem next_thread_to_run_nil (x : kernel)
    (hm : x.thread_mlfqs = false) (hl : x.ready_list = []) :
    next_thread_to_run x = (x.idle_thread, x) := by
  unfold next_thread_to_run
  rw [if_neg (by rw [hm]; decide), hl]

theorem ready_list_insert_split (s : kernel) (t : Nat)
    (hs : s.ready_list.Pairwise
      (fun a b => thread_explicit_get_priority s b ≤ thread_explicit_get_priority s a)) :
    ∃ l1 l2, s.ready_list = l1 ++ l2 ∧
      list_insert_ordered (has_higher_priority s) t s.ready_list = l1 ++ t :: l2 ∧
      (∀ x ∈ l1, thread_explicit_get_priority s t ≤ thread_explicit_get_priority s x) ∧
      (∀ x ∈ l2, thread_explicit_get_priority s x < thread_explicit_get_priority s t) := by
  have hk : s.ready_list.Pairwise
      (fun a b => -thread_explicit_get_priority s a ≤ -thread_explicit_get_priority s b) :=
    hs.imp (fun h => by omega)
  obtain ⟨l1, l2, e1, e2, h1, h2⟩ :=
    list_insert_ordered_split (fun x => -thread_explicit_get_priority s x) t s.ready_list hk
  have hf : has_higher_priority s = (fun a b =>
      decide (-thread_explicit_get_priority s a < -thread_explicit_get_priority s b)) := by
    funext a b
    unfold has_higher_priority
    rw [decide_eq_decide]
    constructor <;> intro h <;> omega
  rw [hf]
  exact ⟨l1, l2, e1, e2, fun x hx => by have := h1 x hx; omega,
    fun x hx => by have := h2 x hx; omega⟩

theorem thread_yield_ready {s s' : kernel} (hm : s.thread_mlfqs = false)
    (hidle : s.idle_thread ≠ some s.running) (h : thread_yield s = .ok s') :
    list_insert_ordered (has_higher_priority s) s.running s.ready_list
      = s'.running :: s'.ready_list := by
  unfold thread_yield thread_current at h
  by_cases hr : (s.threads s.running).status = THREAD_RUNNING
  · rw [if_pos hr] at h
    simp only [] at h
    by_cases hi : s.in_external_intr = true
    · rw [if_pos hi] at h
      cases h
    · rw [if_neg hi, if_pos hidle, if_neg (by rw [hm]; decide)] at h
      obtain ⟨next, hn, e⟩ := schedule_spec h
      cases hins : list_insert_ordered (has_higher_priority s) s.running s.ready_list with
      | nil => exact absurd hins (list_insert_ordered_ne_nil _ _ _)
      | cons n q =>
        have hnt := next_thread_to_run_cons
          (set_status { s with ready_list :=
            list_insert_ordered (has_higher_priority s) s.running s.ready_list }
            s.running THREAD_READY) n q hm hins
        rw [hnt] at hn e
        simp only [Option.some.injEq] at hn
        subst hn
        rw [e]
        rfl
  · rw [if_neg hr] at h
    cases h

theorem thread_enqueue_ready {s s' : kernel} {t : Nat} (hm : s.thread_mlfqs = false)
    (h : thread_enqueue t s = .ok s') :
    (s'.ready_list = list_insert_ordered (has_higher_priority s) t s.ready_list ∧
      s'.running = s.running) ∨
    (thread_explicit_get_priority s s.running < thread_explicit_get_priority s t ∧
      s'.running = t ∧
      s'.ready_list = list_insert_ordered (has_higher_priority s) s.running s.ready_list) := by
  unfold thread_enqueue at h
  simp only [] at h
  rw [if_neg (by show ¬ (s.thread_mlfqs = true); rw [hm]; decide)] at h
  unfold thread_get_priority thread_current at h
  by_cases hr : ((set_status s t THREAD_READY).threads (set_status s t THREAD_READY).running).status
      = THREAD_RUNNING
  · rw [if_pos hr] at h
    simp only [] at h
    rw [eff_set_status, eff_set_status] at h
    by_cases hc : (set_status s t THREAD_READY).idle_thread
        ≠ some (set_status s t THREAD_READY).running
        ∧ thread_explicit_get_priority s t
          > thread_explicit_get_priority s (set_status s t THREAD_READY).running
    · rw [if_pos hc] at h
      right
      have hy := thread_yield_ready (s := { set_status s t THREAD_READY with
        ready_list := t :: (set_status s t THREAD_READY).ready_list }) hm hc.1 h
      have hf : has_higher_priority { set_status s t THREAD_READY with
          ready_list := t :: (set_status s t THREAD_READY).ready_list }
          = has_higher_priority s := has_higher_priority_set_status s t THREAD_READY
      rw [hf] at hy
      have hy2 : list_insert_ordered (has_higher_priority s) s.running (t :: s.ready_list)
          = s'.running :: s'.ready_list := hy
      have hless : has_higher_priority s s.running t = false := by
        unfold has_higher_priority
        rw [decide_eq_false_iff_not]
        have h2 : thread_explicit_get_priority s t
            > thread_explicit_get_priority s s.running := hc.2
        omega
      rw [list_insert_ordered, if_neg (by rw [hless]; decide)] at hy2
      simp only [List.cons.injEq] at hy2
      exact ⟨hc.2, hy2.1.symm, hy2.2.symm⟩
    · rw [if_neg hc] at h
      simp only [Except.ok.injEq] at h
      subst h
      left
      exact ⟨by rw [has_higher_priority_set_status]; rfl, rfl⟩
  · rw [if_neg hr] at h
    cases h

/-- C24: in every state that the entry points of the priority scheduler reach from boot
(they leave the priority of a queued thread alone), (1) the ready list is in descending
order of effective priority; (2) ordered insertion puts a thread behind every queued
thread of its own or a higher priority and in front of the lower ones; (3) `thread_yield`
by a thread other than the idle thread inserts it so and runs the head of the list, and
the list is in order afterwards; (4) `thread_enqueue` either inserts the thread so, or,
when it outranks the running thread, runs it at once and inserts the running thread so,
and the list is in order afterwards; (5) `next_thread_to_run` returns the idle thread
when the list is empty and otherwise pops the head, which no queued thread outranks; with
the idle thread not on the list it returns the idle thread exactly when the list is
empty. -/
theorem C24_ready_list_order (s : kernel) (h : reachable (started false) s) :
    ready_sorted s ∧
    (∀ t, ∃ l1 l2, s.ready_list = l1 ++ l2 ∧
      list_insert_ordered (has_higher_priority s) t s.ready_list = l1 ++ t :: l2 ∧
      (∀ x ∈ l1, thread_explicit_get_priority s t ≤ thread_explicit_get_priority s x) ∧
      (∀ x ∈ l2, thread_explicit_get_priority s x < thread_explicit_get_priority s t)) ∧
    (∀ s1, s.idle_thread ≠ some s.running → thread_yield s = .ok s1 →
      list_insert_ordered (has_higher_priority s) s.running s.ready_list
        = s1.running :: s1.ready_list ∧ ready_sorted s1) ∧
    (∀ t s1, (s.threads t).status = THREAD_BLOCKED ∨ (s.threads t).status = THREAD_SLEEP →
      t ∉ s.sleeping_list → t < s.next_tid → thread_enqueue t s = .ok s1 →
      ((s1.ready_list = list_insert_ordered (has_higher_priority s) t s.ready_list ∧
          s1.running = s.running) ∨
        (thread_explicit_get_priority s s.running < thread_explicit_get_priority s t ∧
          s1.running = t ∧
          s1.ready_list
            = list_insert_ordered (has_higher_priority s) s.running s.ready_list)) ∧
      ready_sorted s1) ∧
    (s.ready_list = [] → next_thread_to_run s = (s.idle_thread, s)) ∧
    (∀ t q, s.ready_list = t :: q →
      next_thread_to_run s = (some t, { s with ready_list := q }) ∧
      ∀ x ∈ q, thread_explicit_get_priority s x ≤ thread_explicit_get_priority s t) ∧
    ((∀ i, s.idle_thread = some i → i ∉ s.ready_list) →
      ((next_thread_to_run s).1 = s.idle_thread ↔ s.ready_list = [])) := by
  have hinv := reachable_inv (started_inv false) h
  have hm : s.thread_mlfqs = false := (reachable_ctx h).2.2
  have hsorted : ready_sorted s := hinv.queues.ready_sorted
  refine ⟨hsorted, fun t => ready_list_insert_split s t hsorted, ?_, ?_, ?_, ?_, ?_⟩
  · intro s1 hidle hy
    exact ⟨thread_yield_ready hm hidle hy,
      (thread_yield_inv hinv.queues hinv.running_fresh hy).1.queues.ready_sorted⟩
  · intro t s1 hst hns hf he
    exact ⟨thread_enqueue_ready hm he,
      (thread_enqueue_inv hinv hst hns hf he).1.queues.ready_sorted⟩
  · intro hl
    exact next_thread_to_run_nil s hm hl
  · intro t q hl
    refine ⟨next_thread_to_run_cons s t q hm hl, ?_⟩
    intro x hx
    have hp : (t :: q).Pairwise
        (fun a b => thread_explicit_get_priority s b ≤ thread_explicit_get_priority s a) := by
      rw [← hl]; exact hsorted
    exact (List.pairwise_cons.1 hp).1 x hx
  · intro hidle
    constructor
    · intro he
      cases hl : s.ready_list with
      | nil => rfl
      | cons t q =>
        rw [next_thread_to_run_cons s t q hm hl] at he
        exact absurd (by rw [hl]; exact List.mem_cons_self _ _) (hidle t he.symm)
    · intro hl
      rw [next_thread_to_run_nil s hm hl]

theorem C24_ready_list_order_witness :
    ready_sorted low_priority_child ∧
    low_priority_child.ready_list = [3] ∧
    next_thread_to_run low_priority_child
      = (some 3, { low_priority_child with ready_list := [] }) :=
  ⟨(C24_ready_list_order low_priority_child (reachable_trans_exec _ _ _ reachable.init)).1,
   by decide,
   ((C24_ready_list_order low_priority_child
      (reachable_trans_exec _ _ _ reachable.init)).2.2.2.2.2.1 3 [] (by decide)).1⟩

/-! ## The cascade of a donation -/

theorem thread_donate_priority_lock_rec_total (rank : Nat → Nat) (lk : Nat) :
    ∀ (n : Nat) (s : kernel) (acceptor : Nat),
      (∀ a b h, (s.threads a).blocker = some b → (s.locks b).holder = some h →
        ((s.threads h).blocker).isSome = true → rank h < rank a) →
      rank acceptor ≤ n →
      ∃ r, r ≠ Except.error fault.out_of_fuel ∧
        ∀ fuel, n < fuel → thread_donate_priority_lock_rec fuel s acceptor lk = r := by
  intro n
  induction n with
  | zero =>
    intro s acceptor hacyc hrank
    by_cases hst : (s.threads acceptor).status = THREAD_BLOCKED
    · cases hb : (s.threads acceptor).blocker with
      | none =>
        refine ⟨.ok s, by simp, ?_⟩
        intro fuel hf
        obtain ⟨f, rfl⟩ := Nat.exists_eq_succ_of_ne_zero (by omega : fuel ≠ 0)
        rw [thread_donate_priority_lock_rec, if_pos hst, hb]
      | some b =>
        by_cases hlt : s.mem (s.locks b).priority < s.mem (s.locks lk).priority
        · cases hh : (s.locks b).holder with
          | none =>
            refine ⟨.error fault.null_pointer, by simp, ?_⟩
            intro fuel hf
            obtain ⟨f, rfl⟩ := Nat.exists_eq_succ_of_ne_zero (by omega : fuel ≠ 0)
            rw [thread_donate_priority_lock_rec, if_pos hst, hb]
            simp only []
            rw [if_pos hlt]
            simp only [Function.update_same, hh]
          | some h =>
            by_cases hbl : ((s.threads h).blocker).isSome = true
            · have := hacyc acceptor b h hb hh hbl
              omega
            · refine ⟨.ok { s with
                  locks := Function.update s.locks b
                    { s.locks b with priority := (s.locks lk).priority } }, by simp, ?_⟩
              intro fuel hf
              obtain ⟨f, rfl⟩ := Nat.exists_eq_succ_of_ne_zero (by omega : fuel ≠ 0)
              rw [thread_donate_priority_lock_rec, if_pos hst, hb]
              simp only []
              rw [if_pos hlt]
              simp only [Function.update_same, hh]
              rw [if_neg hbl]
        · refine ⟨.ok s, by simp, ?_⟩
          intro fuel hf
          obtain ⟨f, rfl⟩ := Nat.exists_eq_succ_of_ne_zero (by omega : fuel ≠ 0)
          rw [thread_donate_priority_lock_rec, if_pos hst, hb]
          simp only []
          rw [if_neg hlt]
    · refine ⟨.ok s, by simp, ?_⟩
      intro fuel hf
      obtain ⟨f, rfl⟩ := Nat.exists_eq_succ_of_ne_zero (by omega : fuel ≠ 0)
      rw [thread_donate_priority_lock_rec, if_neg hst]
  | succ k ih =>
    intro s acceptor hacyc hrank
    by_cases hst : (s.threads acceptor).status = THREAD_BLOCKED
    · cases hb : (s.threads acceptor).blocker with
      | none =>
        refine ⟨.ok s, by simp, ?_⟩
        intro fuel hf
        obtain ⟨f, rfl⟩ := Nat.exists_eq_succ_of_ne_zero (by omega : fuel ≠ 0)
        rw [thread_donate_priority_lock_rec, if_pos hst, hb]
      | some b =>
        by_cases hlt : s.mem (s.locks b).priority < s.mem (s.locks lk).priority
        · cases hh : (s.locks b).holder with
          | none =>
            refine ⟨.error fault.null_pointer, by simp, ?_⟩
            intro fuel hf
            obtain ⟨f, rfl⟩ := Nat.exists_eq_succ_of_ne_zero (by omega : fuel ≠ 0)
            rw [thread_donate_priority_lock_rec, if_pos hst, hb]
            simp only []
            rw [if_pos hlt]
            simp only [Function.update_same, hh]
          | some h =>
            by_cases hbl : ((s.threads h).blocker).isSome = true
            · have hr := hacyc acceptor b h hb hh hbl
              obtain ⟨r, hr1, hr2⟩ := ih
                { s with
                  locks := Function.update s.locks b
                    { s.locks b with priority := (s.locks lk).priority } } h
                (by
                  intro a b2 h2 e1 e2 e3
                  refine hacyc a b2 h2 e1 ?_ e3
                  by_cases hbb : b2 = b
                  · subst hbb
                    simp only [Function.update_same] at e2
                    exact e2
                  · simp only [Function.update_noteq hbb] at e2
                    exact e2)
                (by omega)
              refine ⟨r, hr1, ?_⟩
              intro fuel hf
              obtain ⟨f, rfl⟩ := Nat.exists_eq_succ_of_ne_zero (by omega : fuel ≠ 0)
              rw [thread_donate_priority_lock_rec, if_pos hst, hb]
              simp only []
              rw [if_pos hlt]
              simp only [Function.update_same, hh]
              rw [if_pos hbl]
              have hfin := hr2 f (by omega)
              simp only [hh] at hfin
              exact hfin
            · refine ⟨.ok { s with
                  locks := Function.update s.locks b
                    { s.locks b with priority := (s.locks lk).priority } }, by simp, ?_⟩
              intro fuel hf
              obtain ⟨f, rfl⟩ := Nat.exists_eq_succ_of_ne_zero (by omega : fuel ≠ 0)
              rw [thread_donate_priority_lock_rec, if_pos hst, hb]
              simp only []
              rw [if_pos hlt]
              simp only [Function.update_same, hh]
              rw [if_neg hbl]
        · refine ⟨.ok s, by simp, ?_⟩
          intro fuel hf
          obtain ⟨f, rfl⟩ := Nat.exists_eq_succ_of_ne_zero (by omega : fuel ≠ 0)
          rw [thread_donate_priority_lock_rec, if_pos hst, hb]
          simp only []
          rw [if_neg hlt]
    · refine ⟨.ok s, by simp, ?_⟩
      intro fuel hf
      obtain ⟨f, rfl⟩ := Nat.exists_eq_succ_of_ne_zero (by omega : fuel ≠ 0)
      rw [thread_donate_priority_lock_rec, if_neg hst]

/-- C25: let `rank` number the threads so that the holder of the lock a thread is blocked
on, when that holder is blocked itself, has a smaller number than the thread (the chain
of blocked-on and held-by has no cycle and `rank` counts the locks still ahead). Then
`thread_donate_priority_lock_rec` from `acceptor` finishes within `rank acceptor + 1`
calls, that is with at most one recursive call for each lock ahead on the chain: every
bound on the calls above `rank acceptor` gives one and the same result, and the bound is
not reached. -/
theorem C25_donation_cascade_terminates (s : kernel) (rank : Nat → Nat) (acceptor lk : Nat)
    (hacyclic : ∀ a b h, (s.threads a).blocker = some b → (s.locks b).holder = some h →
      ((s.threads h).blocker).isSome = true → rank h < rank a) :
    ∃ r, r ≠ Except.error fault.out_of_fuel ∧
      ∀ fuel, rank acceptor < fuel → thread_donate_priority_lock_rec fuel s acceptor lk = r :=
  thread_donate_priority_lock_rec_total rank lk (rank acceptor) s acceptor hacyclic (le_refl _)

theorem lock_chain_acyclic : ∀ a b h, (lock_chain.threads a).blocker = some b →
    (lock_chain.locks b).holder = some h →
    ((lock_chain.threads h).blocker).isSome = true → (h - 1) < (a - 1) := by
  intro a b h hb hh hbl
  have ha : a = 2 ∨ a = 3 := by
    by_contra c
    have c2 : a ≠ 2 := fun e => c (Or.inl e)
    have c3 : a ≠ 3 := fun e => c (Or.inr e)
    simp [lock_chain, started, mk_thread, c2, c3] at hb
    split at hb <;> simp at hb
  have hhb : h = b := by
    simp [lock_chain] at hh
    exact hh.symm
  subst hhb
  rcases ha with rfl | rfl
  · simp [lock_chain, mk_thread] at hb
    subst hb
    simp [lock_chain, started, mk_thread] at hbl
  · simp [lock_chain, mk_thread] at hb
    subst hb
    decide

theorem C25_donation_cascade_terminates_witness :
    ∃ r, r ≠ Except.error fault.out_of_fuel ∧
      ∀ fuel, 3 - 1 < fuel → thread_donate_priority_lock_rec fuel lock_chain 3 3 = r :=
  C25_donation_cascade_terminates lock_chain (fun t => t - 1) 3 3 lock_chain_acyclic

/-! ## The pages of a segment -/

theorem load_program_headers_segment (fuel : Nat) (env : load_env) (n : Nat) (file_ofs : Int)
    (h1 : ¬ (file_ofs < 0 ∨ file_ofs > env.file_length))
    (h2 : (env.read_phdr file_ofs).1 = sizeof_Elf32_Phdr)
    (h3 : (env.read_phdr file_ofs).2.p_type = 1)
    (hv : validate_segment (env.read_phdr file_ofs).2 env.file_length = true) :
    load_program_headers fuel env (n + 1) file_ofs
      = match load_segment fuel env
          (to_off_t ((env.read_phdr file_ofs).2.p_offset &&& (2 ^ 32 - 1 - PGMASK)))
          ((env.read_phdr file_ofs).2.p_vaddr &&& (2 ^ 32 - 1 - PGMASK))
          (segment_read_bytes (env.read_phdr file_ofs).2)
          (segment_zero_bytes (env.read_phdr file_ofs).2)
          (decide ((env.read_phdr file_ofs).2.p_flags &&& 2 ≠ 0)) with
        | .error e => .error e
        | .ok false => .ok false
        | .ok true => load_program_headers fuel env n (file_ofs + sizeof_Elf32_Phdr) := by
  rw [load_program_headers, if_neg h1, if_neg (by rw [h2]; simp)]
  simp only []
  rw [if_neg (by rw [h3]; decide), if_pos h3, if_pos hv]
  rfl

theorem validate_segment_bounds (phdr : Elf32_Phdr) (file_length : Int)
    (hv : phdr.p_vaddr < 2 ^ 32) (hm : phdr.p_memsz < 2 ^ 32)
    (h : validate_segment phdr file_length = true) :
    phdr.p_filesz ≤ phdr.p_memsz ∧ 0 < phdr.p_memsz ∧
    phdr.p_vaddr + phdr.p_memsz < PHYS_BASE := by
  unfold validate_segment at h
  rw [land_PGMASK, land_PGMASK] at h
  split at h
  · cases h
  · split at h
    · cases h
    · split at h
      · cases h
      · rename_i h3
        split at h
        · cases h
        · rename_i h4
          split at h
          · cases h
          · rename_i h5
            split at h
            · cases h
            · rename_i h6
              split at h
              · cases h
              · rename_i h7
                simp only [is_user_vaddr, PHYS_BASE, Bool.not_eq_true', decide_eq_false_iff_not,
                  not_not, not_lt] at h5 h6
                simp only [not_lt] at h3 h7
                have e32 : (2 : Nat) ^ 32 = 4294967296 := by norm_num
                rw [e32] at h6 h7 hm hv
                have hsum : phdr.p_vaddr + phdr.p_memsz < 3221225472 := by omega
                exact ⟨h3, Nat.pos_of_ne_zero h4, by simp only [PHYS_BASE]; exact hsum⟩

theorem land_page_mask (x : Nat) : (x &&& (2 ^ 32 - 1 - PGMASK)) % PGSIZE = 0 := by
  rw [← land_PGMASK, Nat.land_assoc]
  have : (2 ^ 32 - 1 - PGMASK) &&& PGMASK = 0 := by decide
  rw [this, Nat.and_zero]

theorem land_page_mask_lt (x : Nat) : x &&& (2 ^ 32 - 1 - PGMASK) < 2 ^ 32 :=
  lt_of_le_of_lt Nat.and_le_right (by decide)

theorem load_segment_loop_exact (env : load_env)
    (hp : ∀ u, env.palloc_get_page u = true) (hr : ∀ u n, env.file_read_page u n = true)
    (hi : ∀ u w, env.install_page u w = true) :
    ∀ (n upage r z : Nat) (w : Bool), r + z = n * PGSIZE → z < 2 ^ 32 →
      load_segment_loop (n + 1) env upage r z w = .ok true ∧
      load_segment_loop n env upage r z w = .error fault.out_of_fuel := by
  intro n
  induction n with
  | zero =>
    intro upage r z w h _
    have hr0 : r = 0 := by omega
    have hz0 : z = 0 := by omega
    subst hr0 hz0
    exact ⟨by simp [load_segment_loop], rfl⟩
  | succ k ih =>
    intro upage r z w h hz
    simp only [PGSIZE] at h
    have hpos : r > 0 ∨ z > 0 := by omega
    have step : ∀ fuel, load_segment_loop (fuel + 1) env upage r z w
        = load_segment_loop fuel env ((upage + PGSIZE) % 2 ^ 32)
            (r - (if r < PGSIZE then r else PGSIZE))
            ((z + 2 ^ 32 - (PGSIZE - (if r < PGSIZE then r else PGSIZE))) % 2 ^ 32) w := by
      intro fuel
      rw [load_segment_loop, if_pos hpos]
      simp only [hp, hr, hi, Bool.not_true, Bool.false_eq_true, if_false]
    have hz2 : (z + 2 ^ 32 - (PGSIZE - (if r < PGSIZE then r else PGSIZE))) % 2 ^ 32
        = z - (PGSIZE - (if r < PGSIZE then r else PGSIZE)) := by
      simp only [PGSIZE]
      split <;> omega
    have hsum : (r - (if r < PGSIZE then r else PGSIZE))
        + (z - (PGSIZE - (if r < PGSIZE then r else PGSIZE))) = k * PGSIZE := by
      simp only [PGSIZE]
      split <;> omega
    have hzlt : z - (PGSIZE - (if r < PGSIZE then r else PGSIZE)) < 2 ^ 32 := by omega
    obtain ⟨a, b⟩ := ih ((upage + PGSIZE) % 2 ^ 32) _ _ w hsum hzlt
    rw [step (k + 1), step k, hz2]
    exact ⟨a, b⟩

theorem load_segment_loop_fuel (env : load_env) :
    ∀ (n upage r z : Nat) (w : Bool), r + z = n * PGSIZE → z < 2 ^ 32 →
      ∀ fuel, n < fuel → load_segment_loop fuel env upage r z w ≠ .error fault.out_of_fuel := by
  intro n
  induction n with
  | zero =>
    intro upage r z w h _ fuel hf
    have hr0 : r = 0 := by omega
    have hz0 : z = 0 := by omega
    subst hr0 hz0
    obtain ⟨f, rfl⟩ := Nat.exists_eq_succ_of_ne_zero (by omega : fuel ≠ 0)
    simp [load_segment_loop]
  | succ k ih =>
    intro upage r z w h hz fuel hf
    obtain ⟨f, rfl⟩ := Nat.exists_eq_succ_of_ne_zero (by omega : fuel ≠ 0)
    simp only [PGSIZE] at h
    have hpos : r > 0 ∨ z > 0 := by omega
    rw [load_segment_loop, if_pos hpos]
    simp only []
    by_cases c1 : (!env.palloc_get_page upage) = true
    · rw [if_pos c1]; simp
    · rw [if_neg c1]
      by_cases c2 : (!env.file_read_page upage (if r < PGSIZE then r else PGSIZE)) = true
      · rw [if_pos c2]; simp
      · rw [if_neg c2]
        by_cases c3 : (!env.install_page upage w) = true
        · rw [if_pos c3]; simp
        · rw [if_neg c3]
          have hz2 : (z + 2 ^ 32 - (PGSIZE - (if r < PGSIZE then r else PGSIZE))) % 2 ^ 32
              = z - (PGSIZE - (if r < PGSIZE then r else PGSIZE)) := by
            simp only [PGSIZE]
            split <;> omega
          have hsum : (r - (if r < PGSIZE then r else PGSIZE))
              + (z - (PGSIZE - (if r < PGSIZE then r else PGSIZE))) = k * PGSIZE := by
            simp only [PGSIZE]
            split <;> omega
          rw [hz2]
          exact ih _ _ _ w hsum (by omega) f (by omega)

theorem segment_sizes (phdr : Elf32_Phdr) (file_length : Int)
    (hv : phdr.p_vaddr < 2 ^ 32) (hm : phdr.p_memsz < 2 ^ 32)
    (h : validate_segment phdr file_length = true) :
    segment_read_bytes phdr
      = (if phdr.p_filesz > 0 then phdr.p_vaddr % PGSIZE + phdr.p_filesz else 0) ∧
    segment_read_bytes phdr + segment_zero_bytes phdr
      = (phdr.p_vaddr % PGSIZE + phdr.p_memsz + PGSIZE - 1) / PGSIZE * PGSIZE ∧
    segment_read_bytes phdr + segment_zero_bytes phdr < 2 ^ 32 := by
  obtain ⟨b1, b2, b3⟩ := validate_segment_bounds phdr file_length hv hm h
  simp only [PHYS_BASE] at b3
  have e32 : (2 : Nat) ^ 32 = 4294967296 := by norm_num
  rw [e32] at hv hm
  simp only [segment_zero_bytes, segment_read_bytes, ROUND_UP, land_PGMASK, PGSIZE]
  by_cases hf : phdr.p_filesz > 0
  · simp only [if_pos hf, e32]
    refine ⟨?_, ?_, ?_⟩ <;> omega
  · simp only [if_neg hf, e32]
    refine ⟨trivial, ?_, ?_⟩ <;> omega

theorem to_off_t_page (x : Nat) (h : x % PGSIZE = 0) : (to_off_t x).tmod PGSIZE = 0 := by
  simp only [PGSIZE] at h
  apply Int.tmod_eq_zero_of_dvd
  apply Int.dvd_of_emod_eq_zero
  simp only [to_off_t, PGSIZE]
  split <;> omega

/-- C27: for a loadable header that `validate_segment` accepts (its members being 32-bit
values), the `read_bytes` and `zero_bytes` that `load` computes are the exact sums, without
wrap-around, they add up to a multiple of `PGSIZE` below 2^32, the assertions at the top of
`load_segment` pass, the loop runs exactly `(read_bytes + zero_bytes) / PGSIZE` times when
no page fails (and never more), and on each page `page_zero_bytes` is at most the remaining
`zero_bytes`. The program-header loop of `load` hands exactly these values to
`load_segment` and goes on as the loop of `load_segment` ends; for an executable with this
one header `load` so returns what `setup_stack` returns when no page fails and the bound
on the iterations is above that number, and does not finish within that number. -/
theorem C27_segment_pages (phdr : Elf32_Phdr) (file_length : Int)
    (hv : phdr.p_vaddr < 2 ^ 32) (hm : phdr.p_memsz < 2 ^ 32)
    (h : validate_segment phdr file_length = true) :
    segment_read_bytes phdr
      = (if phdr.p_filesz > 0 then phdr.p_vaddr % PGSIZE + phdr.p_filesz else 0) ∧
    segment_read_bytes phdr + segment_zero_bytes phdr
      = (phdr.p_vaddr % PGSIZE + phdr.p_memsz + PGSIZE - 1) / PGSIZE * PGSIZE ∧
    segment_read_bytes phdr + segment_zero_bytes phdr < 2 ^ 32 ∧
    (segment_read_bytes phdr + segment_zero_bytes phdr) % PGSIZE = 0 ∧
    (∀ (fuel : Nat) (env : load_env) (w : Bool),
      load_segment fuel env (to_off_t (phdr.p_offset &&& (2 ^ 32 - 1 - PGMASK)))
          (phdr.p_vaddr &&& (2 ^ 32 - 1 - PGMASK))
          (segment_read_bytes phdr) (segment_zero_bytes phdr) w
        = load_segment_loop fuel env (phdr.p_vaddr &&& (2 ^ 32 - 1 - PGMASK))
            (segment_read_bytes phdr) (segment_zero_bytes phdr) w) ∧
    (∀ (env : load_env) (upage : Nat) (w : Bool),
      (∀ u, env.palloc_get_page u = true) → (∀ u n, env.file_read_page u n = true) →
      (∀ u b, env.install_page u b = true) →
      load_segment_loop ((segment_read_bytes phdr + segment_zero_bytes phdr) / PGSIZE + 1)
          env upage (segment_read_bytes phdr) (segment_zero_bytes phdr) w = .ok true ∧
      load_segment_loop ((segment_read_bytes phdr + segment_zero_bytes phdr) / PGSIZE)
          env upage (segment_read_bytes phdr) (segment_zero_bytes phdr) w
        = .error fault.out_of_fuel) ∧
    (∀ (env : load_env) (upage : Nat) (w : Bool) (fuel : Nat),
      (segment_read_bytes phdr + segment_zero_bytes phdr) / PGSIZE < fuel →
      load_segment_loop fuel env upage (segment_read_bytes phdr) (segment_zero_bytes phdr) w
        ≠ .error fault.out_of_fuel) ∧
    (∀ (fuel : Nat) (env : load_env) (n : Nat) (file_ofs : Int),
      ¬ (file_ofs < 0 ∨ file_ofs > env.file_length) →
      env.read_phdr file_ofs = ((sizeof_Elf32_Phdr : Int), phdr) → env.file_length = file_length →
      phdr.p_type = 1 →
      load_program_headers fuel env (n + 1) file_ofs
        = match load_segment_loop fuel env (phdr.p_vaddr &&& (2 ^ 32 - 1 - PGMASK))
            (segment_read_bytes phdr) (segment_zero_bytes phdr)
            (decide (phdr.p_flags &&& 2 ≠ 0)) with
          | .error e => .error e
          | .ok false => .ok false
          | .ok true => load_program_headers fuel env n (file_ofs + sizeof_Elf32_Phdr)) ∧
    (∀ (fuel : Nat) (env : load_env),
      env.pagedir_create = true → env.filesys_open = true →
      ¬ (env.read_ehdr.1 ≠ sizeof_Elf32_Ehdr
        ∨ env.read_ehdr.2.e_ident.take 7 ≠ [0x7F, 0x45, 0x4C, 0x46, 1, 1, 1]
        ∨ env.read_ehdr.2.e_type ≠ 2
        ∨ env.read_ehdr.2.e_machine ≠ 3
        ∨ env.read_ehdr.2.e_version ≠ 1
        ∨ env.read_ehdr.2.e_phentsize ≠ sizeof_Elf32_Phdr
        ∨ env.read_ehdr.2.e_phnum > 1024) →
      env.read_ehdr.2.e_phnum = 1 →
      ¬ (to_off_t env.read_ehdr.2.e_phoff < 0
        ∨ to_off_t env.read_ehdr.2.e_phoff > env.file_length) →
      env.read_phdr (to_off_t env.read_ehdr.2.e_phoff) = ((sizeof_Elf32_Phdr : Int), phdr) →
      env.file_length = file_length → phdr.p_type = 1 →
      (∀ u, env.palloc_get_page u = true) → (∀ u k, env.file_read_page u k = true) →
      (∀ u b, env.install_page u b = true) →
      (fuel ≤ (segment_read_bytes phdr + segment_zero_bytes phdr) / PGSIZE →
        load fuel env = .error fault.out_of_fuel) ∧
      ((segment_read_bytes phdr + segment_zero_bytes phdr) / PGSIZE < fuel →
        load fuel env = .ok env.setup_stack)) ∧
    (∀ (env : load_env) (upage : Nat) (w : Bool) (fuel r z : Nat),
      (r + z) % PGSIZE = 0 → z < 2 ^ 32 → (r > 0 ∨ z > 0) →
      env.palloc_get_page upage = true → env.file_read_page upage (min r PGSIZE) = true →
      env.install_page upage w = true →
      PGSIZE - min r PGSIZE ≤ z ∧
      (r - min r PGSIZE + (z - (PGSIZE - min r PGSIZE))) + PGSIZE = r + z ∧
      load_segment_loop (fuel + 1) env upage r z w
        = load_segment_loop fuel env ((upage + PGSIZE) % 2 ^ 32) (r - min r PGSIZE)
            (z - (PGSIZE - min r PGSIZE)) w) := by
  obtain ⟨s1, s2, s3⟩ := segment_sizes phdr file_length hv hm h
  have s4 : (segment_read_bytes phdr + segment_zero_bytes phdr) % PGSIZE = 0 := by
    rw [s2]; exact Nat.mul_mod_left _ _
  have s5 : segment_read_bytes phdr + segment_zero_bytes phdr
      = (segment_read_bytes phdr + segment_zero_bytes phdr) / PGSIZE * PGSIZE := by
    have := Nat.div_add_mod (segment_read_bytes phdr + segment_zero_bytes phdr) PGSIZE
    rw [s4, Nat.add_zero, Nat.mul_comm] at this
    exact this.symm
  have s6 : segment_zero_bytes phdr < 2 ^ 32 := by omega
  have s7 : ∀ (fuel : Nat) (env : load_env) (w : Bool),
      load_segment fuel env (to_off_t (phdr.p_offset &&& (2 ^ 32 - 1 - PGMASK)))
          (phdr.p_vaddr &&& (2 ^ 32 - 1 - PGMASK))
          (segment_read_bytes phdr) (segment_zero_bytes phdr) w
        = load_segment_loop fuel env (phdr.p_vaddr &&& (2 ^ 32 - 1 - PGMASK))
            (segment_read_bytes phdr) (segment_zero_bytes phdr) w := by
    intro fuel env w
    rw [load_segment, Nat.mod_eq_of_lt s3, if_neg (by rw [s4]; simp),
      if_neg (by rw [land_page_mask]; simp),
      if_neg (by rw [to_off_t_page _ (land_page_mask _)]; simp)]
  have s8 : ∀ (fuel : Nat) (env : load_env) (n : Nat) (file_ofs : Int),
      ¬ (file_ofs < 0 ∨ file_ofs > env.file_length) →
      env.read_phdr file_ofs = ((sizeof_Elf32_Phdr : Int), phdr) → env.file_length = file_length →
      phdr.p_type = 1 →
      load_program_headers fuel env (n + 1) file_ofs
        = match load_segment_loop fuel env (phdr.p_vaddr &&& (2 ^ 32 - 1 - PGMASK))
            (segment_read_bytes phdr) (segment_zero_bytes phdr)
            (decide (phdr.p_flags &&& 2 ≠ 0)) with
          | .error e => .error e
          | .ok false => .ok false
          | .ok true => load_program_headers fuel env n (file_ofs + sizeof_Elf32_Phdr) := by
    intro fuel env n file_ofs h1 h2 h3 h4
    rw [load_program_headers_segment fuel env n file_ofs h1 (by rw [h2])
      (by rw [h2]; exact h4) (by rw [h2, h3]; exact h)]
    rw [h2]
    simp only []
    rw [s7]
  refine ⟨s1, s2, s3, s4, s7, ?_, ?_, s8, ?_, ?_⟩
  · intro env upage w hp hr hi
    exact load_segment_loop_exact env hp hr hi _ upage _ _ w s5 s6
  · intro env upage w fuel hfuel
    exact load_segment_loop_fuel env _ upage _ _ w s5 s6 fuel hfuel
  · intro fuel env hpd hfo hhdr hnum hofs hph hlen hty hp hr hi
    have hl : load fuel env
        = match load_program_headers fuel env 1 (to_off_t env.read_ehdr.2.e_phoff) with
          | .error e => .error e
          | .ok false => .ok false
          | .ok true => if !env.setup_stack then .ok false else .ok true := by
      rw [load, if_neg (by rw [hpd]; decide), if_neg (by rw [hfo]; decide)]
      simp only []
      rw [if_neg hhdr, hnum]
    rw [hl, s8 fuel env 0 _ hofs hph hlen hty]
    constructor
    · intro hfuel
      have hoof : ∀ k f, f ≤ k → ∀ upage r z w, r + z = k * PGSIZE → z < 2 ^ 32 →
          load_segment_loop f env upage r z w = .error fault.out_of_fuel := by
        intro k
        induction k with
        | zero =>
          intro f hf upage r z w _ _
          have : f = 0 := by omega
          subst this
          rfl
        | succ j ih =>
          intro f hf upage r z w hsum hz
          cases f with
          | zero => rfl
          | succ g =>
            simp only [PGSIZE] at hsum
            have hpos : r > 0 ∨ z > 0 := by omega
            rw [load_segment_loop, if_pos hpos]
            simp only [hp, hr, hi, Bool.not_true, Bool.false_eq_true, if_false]
            have hz2 : (z + 2 ^ 32 - (PGSIZE - (if r < PGSIZE then r else PGSIZE))) % 2 ^ 32
                = z - (PGSIZE - (if r < PGSIZE then r else PGSIZE)) := by
              simp only [PGSIZE]
              split <;> omega
            have hsum2 : (r - (if r < PGSIZE then r else PGSIZE))
                + (z - (PGSIZE - (if r < PGSIZE then r else PGSIZE))) = j * PGSIZE := by
              simp only [PGSIZE]
              split <;> omega
            rw [hz2]
            exact ih g (by omega) _ _ _ w hsum2 (by omega)
      rw [hoof _ fuel hfuel _ _ _ _ s5 s6]
    · intro hfuel
      obtain ⟨g, rfl⟩ := Nat.exists_eq_add_of_lt hfuel
      have hmono : ∀ k extra upage r z w, r + z = k * PGSIZE → z < 2 ^ 32 →
          load_segment_loop (k + extra + 1) env upage r z w = .ok true := by
        intro k
        induction k with
        | zero =>
          intro extra upage r z w hsum _
          have hr0 : r = 0 := by omega
          have hz0 : z = 0 := by omega
          subst hr0 hz0
          simp [load_segment_loop]
        | succ j ih =>
          intro extra upage r z w hsum hz
          simp only [PGSIZE] at hsum
          have hpos : r > 0 ∨ z > 0 := by omega
          have e : j + 1 + extra + 1 = (j + extra + 1) + 1 := by omega
          rw [e, load_segment_loop, if_pos hpos]
          simp only [hp, hr, hi, Bool.not_true, Bool.false_eq_true, if_false]
          have hz2 : (z + 2 ^ 32 - (PGSIZE - (if r < PGSIZE then r else PGSIZE))) % 2 ^ 32
              = z - (PGSIZE - (if r < PGSIZE then r else PGSIZE)) := by
            simp only [PGSIZE]
            split <;> omega
          have hsum2 : (r - (if r < PGSIZE then r else PGSIZE))
              + (z - (PGSIZE - (if r < PGSIZE then r else PGSIZE))) = j * PGSIZE := by
            simp only [PGSIZE]
            split <;> omega
          rw [hz2]
          exact ih extra _ _ _ w hsum2 (by omega)
      rw [hmono _ g _ _ _ _ s5 s6]
      simp only [load_program_headers]
      cases env.setup_stack <;> rfl
  · intro env upage w fuel r z hmod hz hpos hp hr hi
    have hmin : min r PGSIZE = if r < PGSIZE then r else PGSIZE := by
      simp only [PGSIZE]
      split <;> omega
    rw [hmin] at hr ⊢
    simp only [PGSIZE] at hmod
    have a1 : PGSIZE - (if r < PGSIZE then r else PGSIZE) ≤ z := by
      simp only [PGSIZE]
      split <;> omega
    refine ⟨a1, ?_, ?_⟩
    · simp only [PGSIZE] at a1 ⊢
      split <;> omega
    · rw [load_segment_loop, if_pos hpos]
      simp only [hp, hr, hi, Bool.not_true, Bool.false_eq_true, if_false]
      have hz2 : (z + 2 ^ 32 - (PGSIZE - (if r < PGSIZE then r else PGSIZE))) % 2 ^ 32
          = z - (PGSIZE - (if r < PGSIZE then r else PGSIZE)) := by
        simp only [PGSIZE] at a1 ⊢
        split <;> omega
      rw [hz2]

theorem C27_segment_pages_witness :
    segment_read_bytes sample_phdr = 0x1234 ∧ segment_zero_bytes sample_phdr = 0xdcc ∧
    (load_segment_loop 3 (sample_env (sample_ehdr 1)) 0x08048000
        (segment_read_bytes sample_phdr) (segment_zero_bytes sample_phdr) false = .ok true ∧
      load_segment_loop 2 (sample_env (sample_ehdr 1)) 0x08048000
        (segment_read_bytes sample_phdr) (segment_zero_bytes sample_phdr) false
        = .error fault.out_of_fuel) ∧
    load 2 (sample_env (sample_ehdr 1)) = .error fault.out_of_fuel ∧
    load 3 (sample_env (sample_ehdr 1)) = .ok true :=
  have h := C27_segment_pages sample_phdr 0x4000 (by decide) (by decide) (by decide)
  have hl := h.2.2.2.2.2.2.2.2.1 2 (sample_env (sample_ehdr 1)) rfl rfl (by decide) rfl
    (by decide) rfl rfl rfl (fun _ => rfl) (fun _ _ => rfl) (fun _ _ => rfl)
  have hl3 := h.2.2.2.2.2.2.2.2.1 3 (sample_env (sample_ehdr 1)) rfl rfl (by decide) rfl
    (by decide) rfl rfl rfl (fun _ => rfl) (fun _ _ => rfl) (fun _ _ => rfl)
  ⟨by decide, by decide,
    h.2.2.2.2.2.1 (sample_env (sample_ehdr 1)) 0x08048000 false (fun _ => rfl) (fun _ _ => rfl)
      (fun _ _ => rfl),
    hl.1 (by decide), hl3.2 (by decide)⟩

/-! ## The anchors held on return -/

/-- C29: the argument list of `process_load_setup` holds the tokens of the page-truncated
command line in reverse order and `argc` is their number; but a command line without a
token is not rejected: once the page and the setup data are allocated, `list_back` is
applied to the empty list, whatever `thread_create` would have returned. -/
theorem C29_no_token_reaches_list_back (file_name : List Nat) :
    process_load_setup_args file_name
      = ((strtok_r_loop (file_name.take (PGSIZE - 1)) []).reverse,
         (strtok_r_loop (file_name.take (PGSIZE - 1)) []).length) ∧
    (strtok_r_loop (file_name.take (PGSIZE - 1)) [] = [] →
      ∀ (env : Nat → process_state → Option wake_up) (malloc : Nat → Bool) (tid : Int)
        (w : process_state), malloc 0 = true →
        process_load_setup env true malloc file_name tid w
          = outcome.panic fault.assert_list_not_empty) := by
  refine ⟨process_load_setup_args_eq file_name, ?_⟩
  intro h env malloc tid w hm
  unfold process_load_setup
  rw [process_load_setup_args_eq, h]
  simp [hm]

theorem C29_no_token_reaches_list_back_witness :
    strtok_r_loop (([] : List Nat).take (PGSIZE - 1)) [] = [] ∧
    strtok_r_loop (([32, 32, 32] : List Nat).take (PGSIZE - 1)) [] = [] ∧
    process_load_setup (start_process_report 5 true) true (fun _ => true) [] 5 two_children
      = outcome.panic fault.assert_list_not_empty ∧
    process_load_setup (start_process_report 5 true) true (fun _ => true) [32, 32, 32] 5
      two_children = outcome.panic fault.assert_list_not_empty :=
  ⟨by decide, by decide,
    (C29_no_token_reaches_list_back []).2 (by decide) _ _ 5 two_children rfl,
    (C29_no_token_reaches_list_back [32, 32, 32]).2 (by decide) _ _ 5 two_children rfl⟩

end Pintos
